import Mathlib

/-!
Shallow embedding of the dancing-links (DLX / XCC) engine of this repository
(`src/dlx.rs`) and verification of the frozen claims about it.

Conventions of the embedding:
* `usize` and `u32` values are represented by `Nat`; wherever the source
  performs wrapping arithmetic or a narrowing cast, the embedding writes the
  corresponding explicit modulus.
* The source's unchecked slice accesses (`get_unchecked` guarded by
  `debug_assert!`) become total `getD` accesses with an inert default; all
  theorems carry hypotheses under which accesses are in bounds.
* Branches that the source marks `dlx_unreachable!` (a debug-build panic)
  return the state unchanged; theorems' legality hypotheses exclude them,
  and separate predicates detect when such a branch would be taken.
* The source's `while` loops over cyclic pointer structures are written with
  explicit fuel; every call site passes fuel that is proved (or checked)
  sufficient under the theorems' hypotheses.
* `HashMap` / `HashSet` (used only for item lookup and duplicate detection
  during construction) are modelled by association lists; the source never
  iterates them, so ordering is irrelevant.
-/

namespace DlxRs

/-- Modulus of 64-bit (usize) arithmetic. -/
def USZ : Nat := 2 ^ 64

/-- Modulus of 32-bit (u32) arithmetic. -/
def U32 : Nat := 2 ^ 32

/-- Wrapping increment on usize, as in idx.wrapping_add(1). -/
def wadd1 (x : Nat) : Nat := (x + 1) % USZ

/-- Wrapping decrement on usize, as in idx.wrapping_sub(1). -/
def wsub1 (x : Nat) : Nat := (x + (USZ - 1)) % USZ

/-- ListNodeI: prev/next neighbour indices of a doubly linked list node. -/
structure ListNodeI where
  prev : Nat
  next : Nat
deriving DecidableEq, Repr

/-- HeaderType: whether an item is primary or secondary. -/
inductive HeaderType where
  | Primary
  | Secondary
deriving DecidableEq, Repr

/-- Header: an entry of the header array. -/
structure Header (I : Type) where
  item : Option I
  node : ListNodeI
  header_type : HeaderType
deriving DecidableEq, Repr

/-- Header.is_primary from the source. -/
def Header.is_primary {I : Type} (h : Header I) : Bool :=
  match h.header_type with
  | HeaderType.Primary => true
  | HeaderType.Secondary => false

/-- NodeType: payload of a non-boundary cell of the node array. -/
inductive NodeType where
  | Header (size : Nat)
  | Body (color : Option Nat) (top : Nat)
deriving DecidableEq, Repr

/-- Node: an entry of the node array. -/
inductive Node (N : Type) where
  | Boundary (name : Option N) (first_for_prev : Nat) (last_for_next : Nat)
  | Normal (item_node : ListNodeI) (node_type : NodeType)
deriving DecidableEq, Repr

/-- ColorItem: a secondary item together with its color. -/
structure ColorItem (I : Type) where
  item : I
  color : Nat
deriving DecidableEq, Repr

/-- Constraint: one entry of a subset. -/
inductive Constraint (I : Type) where
  | Primary (item : I)
  | Secondary (ci : ColorItem I)
deriving DecidableEq, Repr

/-- Constraint.item from the source. -/
def Constraint.item {I : Type} : Constraint I → I
  | Constraint.Primary i => i
  | Constraint.Secondary ci => ci.item

/-- Constraint.color from the source. -/
def Constraint.color {I : Type} : Constraint I → Option Nat
  | Constraint.Primary _ => none
  | Constraint.Secondary ci => some ci.color

/-- Dlx: the grid, two parallel arrays plus the primary item count. -/
structure Dlx (I N : Type) where
  num_primary_items : Nat
  headers : List (Header I)
  body : List (Node N)
deriving DecidableEq, Repr

/-- Default header returned by out-of-range header accesses. -/
def hdrD {I : Type} : Header I := ⟨none, ⟨0, 0⟩, HeaderType.Primary⟩

/-- Default node returned by out-of-range node accesses. -/
def nodeD {N : Type} : Node N := Node.Boundary none 0 0

variable {I N : Type}

/-- Dlx.header accessor (source: header / header_mut, unchecked indexing). -/
def Dlx.header (d : Dlx I N) (i : Nat) : Header I := d.headers.getD i hdrD

/-- Node-array accessor; collapses the source's body_header / body_node /
node accessors, which differ only in their debug assertions. -/
def Dlx.bnode (d : Dlx I N) (i : Nat) : Node N := d.body.getD i nodeD

/-- Replace header array entry i. -/
def Dlx.setHeader (d : Dlx I N) (i : Nat) (h : Header I) : Dlx I N :=
  { d with headers := d.headers.set i h }

/-- Replace node array entry i. -/
def Dlx.setBody (d : Dlx I N) (i : Nat) (n : Node N) : Dlx I N :=
  { d with body := d.body.set i n }

/-- Node.set_next: write the next field of a normal node (unreachable on a
boundary node; modelled as no state change). -/
def Dlx.set_next (d : Dlx I N) (i v : Nat) : Dlx I N :=
  match d.bnode i with
  | Node.Normal inode t => d.setBody i (Node.Normal ⟨inode.prev, v⟩ t)
  | Node.Boundary _ _ _ => d

/-- Node.set_prev: write the prev field of a normal node. -/
def Dlx.set_prev (d : Dlx I N) (i v : Nat) : Dlx I N :=
  match d.bnode i with
  | Node.Normal inode t => d.setBody i (Node.Normal ⟨v, inode.next⟩ t)
  | Node.Boundary _ _ _ => d

/-- Read the next field of a normal node (0 on a boundary, which the source
treats as unreachable). -/
def Dlx.nextF (d : Dlx I N) (i : Nat) : Nat :=
  match d.bnode i with
  | Node.Normal inode _ => inode.next
  | Node.Boundary _ _ _ => 0

/-- Read the prev field of a normal node. -/
def Dlx.prevF (d : Dlx I N) (i : Nat) : Nat :=
  match d.bnode i with
  | Node.Normal inode _ => inode.prev
  | Node.Boundary _ _ _ => 0

/-- Node.len: size of a header cell (0 on other nodes, which the source
treats as unreachable). -/
def Dlx.sizeF (d : Dlx I N) (i : Nat) : Nat :=
  match d.bnode i with
  | Node.Normal _ (NodeType.Header s) => s
  | _ => 0

/-- Node.color of a body cell (none elsewhere, unreachable in the source). -/
def Dlx.colorF (d : Dlx I N) (i : Nat) : Option Nat :=
  match d.bnode i with
  | Node.Normal _ (NodeType.Body c _) => c
  | _ => none

/-- The top (header index) of a body cell, 0 elsewhere. -/
def Dlx.topF (d : Dlx I N) (i : Nat) : Nat :=
  match d.bnode i with
  | Node.Normal _ (NodeType.Body _ t) => t
  | _ => 0

/-- True when node i is a body cell. -/
def Dlx.isBody (d : Dlx I N) (i : Nat) : Bool :=
  match d.bnode i with
  | Node.Normal _ (NodeType.Body _ _) => true
  | _ => false

/-- True when node i is a header cell. -/
def Dlx.isHeaderCell (d : Dlx I N) (i : Nat) : Bool :=
  match d.bnode i with
  | Node.Normal _ (NodeType.Header _) => true
  | _ => false

/-- True when header i is primary (source: self.header(top).is_primary()). -/
def Dlx.isPrimary (d : Dlx I N) (i : Nat) : Bool :=
  (d.header i).is_primary

/-- len_mut assignment with wrapping_sub(1) on a header cell (source: hide). -/
def Dlx.decSize (d : Dlx I N) (t : Nat) : Dlx I N :=
  match d.bnode t with
  | Node.Normal inode (NodeType.Header s) =>
      d.setBody t (Node.Normal inode (NodeType.Header ((s + (USZ - 1)) % USZ)))
  | _ => d

/-- len_mut assignment with wrapping_add(1) on a header cell (source: unhide). -/
def Dlx.incSize (d : Dlx I N) (t : Nat) : Dlx I N :=
  match d.bnode t with
  | Node.Normal inode (NodeType.Header s) =>
      d.setBody t (Node.Normal inode (NodeType.Header ((s + 1) % USZ)))
  | _ => d

/-- Overwrite the color of a body cell (source: color_mut assignment). -/
def Dlx.setColor (d : Dlx I N) (i : Nat) (c : Option Nat) : Dlx I N :=
  match d.bnode i with
  | Node.Normal inode (NodeType.Body _ t) =>
      d.setBody i (Node.Normal inode (NodeType.Body c t))
  | _ => d

/-- One iteration body of Dlx::hide applied at a body cell q: stitch q out of
its vertical ring when its item is primary or its color is present, then
unconditionally decrement the size of its item header. -/
def Dlx.hideCellOp (d : Dlx I N) (q : Nat) : Dlx I N :=
  match d.bnode q with
  | Node.Normal inode (NodeType.Body color top) =>
      if d.isPrimary top || color.isSome then
        (((d.set_next inode.prev inode.next).set_prev inode.next inode.prev).decSize top)
      else d.decSize top
  | _ => d

/-- One iteration body of Dlx::unhide applied at a body cell q. -/
def Dlx.unhideCellOp (d : Dlx I N) (q : Nat) : Dlx I N :=
  match d.bnode q with
  | Node.Normal inode (NodeType.Body color top) =>
      if d.isPrimary top || color.isSome then
        (((d.set_next inode.prev q).set_prev inode.next q).incSize top)
      else d.incSize top
  | _ => d

/-- Loop of Dlx::hide: walk forward from q, jumping to first_for_prev at a
boundary, until q returns to idx. The source loop is fuelled; hide passes
fuel that suffices for every legal row. A header cell is unreachable in the
source and stops the walk here. -/
def Dlx.hideLoop : Dlx I N → Nat → Nat → Nat → Dlx I N
  | d, _, _, 0 => d
  | d, idx, q, fuel + 1 =>
    if q = idx then d
    else
      match d.bnode q with
      | Node.Boundary _ f _ => Dlx.hideLoop d idx f fuel
      | Node.Normal _ (NodeType.Header _) => d
      | Node.Normal _ (NodeType.Body _ _) =>
          Dlx.hideLoop (d.hideCellOp q) idx (wadd1 q) fuel

/-- Dlx::hide: removes from the vertical rings every other cell of the subset
containing idx. -/
def Dlx.hide (d : Dlx I N) (idx : Nat) : Dlx I N :=
  d.hideLoop idx (wadd1 idx) (d.body.length + 2)

/-- Loop of Dlx::unhide: walk backward from q, jumping to last_for_next at a
boundary, until q returns to idx. -/
def Dlx.unhideLoop : Dlx I N → Nat → Nat → Nat → Dlx I N
  | d, _, _, 0 => d
  | d, idx, q, fuel + 1 =>
    if q = idx then d
    else
      match d.bnode q with
      | Node.Boundary _ _ l => Dlx.unhideLoop d idx l fuel
      | Node.Normal _ (NodeType.Header _) => d
      | Node.Normal _ (NodeType.Body _ _) =>
          Dlx.unhideLoop (d.unhideCellOp q) idx (wsub1 q) fuel

/-- Dlx::unhide: reverts hide(idx). -/
def Dlx.unhide (d : Dlx I N) (idx : Nat) : Dlx I N :=
  d.unhideLoop idx (wsub1 idx) (d.body.length + 2)

/-- Loop of Dlx::cover: walk the vertical ring of item idx from the top,
hiding every subset met. -/
def Dlx.coverLoop : Dlx I N → Nat → Nat → Nat → Dlx I N
  | d, _, _, 0 => d
  | d, idx, p, fuel + 1 =>
    if p = idx then d
    else
      let d1 := d.hide p
      Dlx.coverLoop d1 idx (d1.nextF p) fuel

/-- Dlx::cover: hide every subset containing header item idx, then unlink the
header from the header list. -/
def Dlx.cover (d : Dlx I N) (idx : Nat) : Dlx I N :=
  let d1 := d.coverLoop idx (d.nextF idx) (d.body.length + 2)
  let h := d1.header idx
  let d2 := d1.setHeader h.node.prev
    { d1.header h.node.prev with
      node := ⟨(d1.header h.node.prev).node.prev, h.node.next⟩ }
  d2.setHeader h.node.next
    { d2.header h.node.next with
      node := ⟨h.node.prev, (d2.header h.node.next).node.next⟩ }

/-- Loop of Dlx::uncover: walk the vertical ring of item idx from the bottom,
unhiding every subset met. -/
def Dlx.uncoverLoop : Dlx I N → Nat → Nat → Nat → Dlx I N
  | d, _, _, 0 => d
  | d, idx, p, fuel + 1 =>
    if p = idx then d
    else
      let d1 := d.unhide p
      Dlx.uncoverLoop d1 idx (d1.prevF p) fuel

/-- Dlx::uncover: reverts cover(idx): relink the header, then unhide each
subset bottom to top. -/
def Dlx.uncover (d : Dlx I N) (idx : Nat) : Dlx I N :=
  let h := d.header idx
  let d1 := d.setHeader h.node.prev
    { d.header h.node.prev with
      node := ⟨(d.header h.node.prev).node.prev, idx % U32⟩ }
  let d2 := d1.setHeader h.node.next
    { d1.header h.node.next with
      node := ⟨idx % U32, (d1.header h.node.next).node.next⟩ }
  d2.uncoverLoop idx (d2.prevF idx) (d2.body.length + 2)

/-- Loop of Dlx::purify: walk the ring of a secondary item; cells of matching
color are repainted to none, others are hidden. -/
def Dlx.purifyLoop : Dlx I N → Nat → Nat → Nat → Nat → Dlx I N
  | d, _, _, _, 0 => d
  | d, top, color, p, fuel + 1 =>
    if p = top then d
    else
      let d1 :=
        if d.colorF p = some color then d.setColor p none
        else d.hide p
      Dlx.purifyLoop d1 top color (d1.nextF p) fuel

/-- Dlx::purify: for the secondary constraint at idx with color c, hide
conflicting subsets and mark matching cells as satisfied. Uncolored idx is
unreachable in the source; the state is returned unchanged. -/
def Dlx.purify (d : Dlx I N) (idx : Nat) : Dlx I N :=
  match d.bnode idx with
  | Node.Normal _ (NodeType.Body (some color) top) =>
      d.purifyLoop top color (d.nextF top) (d.body.length + 2)
  | _ => d

/-- Loop of Dlx::unpurify: reverse walk restoring colors and unhiding. -/
def Dlx.unpurifyLoop : Dlx I N → Nat → Nat → Nat → Nat → Dlx I N
  | d, _, _, _, 0 => d
  | d, top, color, p, fuel + 1 =>
    if p = top then d
    else
      let d1 :=
        if (d.colorF p).isNone then d.setColor p (some color)
        else d.unhide p
      Dlx.unpurifyLoop d1 top color (d1.prevF p) fuel

/-- Dlx::unpurify: reverts purify(idx). -/
def Dlx.unpurify (d : Dlx I N) (idx : Nat) : Dlx I N :=
  match d.bnode idx with
  | Node.Normal _ (NodeType.Body (some color) top) =>
      d.unpurifyLoop top color (d.prevF top) (d.body.length + 2)
  | _ => d

/-- True when unpurify(idx) would take the branch the source marks
unreachable (the cell at idx no longer carries a color). -/
def Dlx.unpurifyStuck (d : Dlx I N) (idx : Nat) : Bool :=
  match d.bnode idx with
  | Node.Normal _ (NodeType.Body (some _) _) => false
  | _ => true

/-- Dlx::commit: dispatch on the kind of item top. -/
def Dlx.commit (d : Dlx I N) (idx top : Nat) : Dlx I N :=
  if d.isPrimary top then d.cover top
  else if (d.colorF idx).isSome then d.purify idx
  else d

/-- Dlx::uncommit: reverts commit(idx, top). -/
def Dlx.uncommit (d : Dlx I N) (idx top : Nat) : Dlx I N :=
  if d.isPrimary top then d.uncover top
  else if (d.colorF idx).isSome then d.unpurify idx
  else d

/-- Loop of Dlx::cover_remaining_choices: walk the subset forward from idx,
committing every other cell. -/
def Dlx.crcLoop : Dlx I N → Nat → Nat → Nat → Dlx I N
  | d, _, _, 0 => d
  | d, idx, p, fuel + 1 =>
    if p = idx then d
    else
      match d.bnode p with
      | Node.Boundary _ f _ => Dlx.crcLoop d idx f fuel
      | Node.Normal _ (NodeType.Header _) => d
      | Node.Normal _ (NodeType.Body _ top) =>
          Dlx.crcLoop (d.commit p top) idx (wadd1 p) fuel

/-- Dlx::cover_remaining_choices. -/
def Dlx.cover_remaining_choices (d : Dlx I N) (idx : Nat) : Dlx I N :=
  d.crcLoop idx (wadd1 idx) (d.body.length + 2)

/-- Loop of Dlx::uncover_remaining_choices: walk backward uncommitting. -/
def Dlx.urcLoop : Dlx I N → Nat → Nat → Nat → Dlx I N
  | d, _, _, 0 => d
  | d, idx, p, fuel + 1 =>
    if p = idx then d
    else
      match d.bnode p with
      | Node.Boundary _ _ l => Dlx.urcLoop d idx l fuel
      | Node.Normal _ (NodeType.Header _) => d
      | Node.Normal _ (NodeType.Body _ top) =>
          Dlx.urcLoop (d.uncommit p top) idx (wsub1 p) fuel

/-- Dlx::uncover_remaining_choices. -/
def Dlx.uncover_remaining_choices (d : Dlx I N) (idx : Nat) : Dlx I N :=
  d.urcLoop idx (wsub1 idx) (d.body.length + 2)

/-- Loop of Dlx::choose_item carrying the best (item, size) pair so far.
The update keeps the incumbent on ties (strict greater-than comparison). -/
def Dlx.chooseLoop : Dlx I N → Nat → Option Nat × Nat → Nat → Option Nat
  | _, _, best, 0 => best.1
  | d, opt, best, fuel + 1 =>
    if opt = 0 then best.1
    else
      let len := d.sizeF opt
      let best' :=
        match best with
        | (some b, min_len) => if min_len > len then (some opt, len) else (some b, min_len)
        | (none, _) => (some opt, len)
      Dlx.chooseLoop d (d.header opt).node.next best' fuel

/-- Dlx::choose_item: least-remaining-values choice over the active primary
item ring; none signals a solution. -/
def Dlx.choose_item (d : Dlx I N) : Option Nat :=
  d.chooseLoop (d.header 0).node.next (none, 0) (d.headers.length + 1)

/-- Loop of Dlx::to_top: follow next pointers to the header of the ring. -/
def Dlx.toTopLoop : Dlx I N → Nat → Nat → Nat
  | _, p, 0 => p
  | d, p, fuel + 1 =>
    match d.bnode p with
    | Node.Normal _ (NodeType.Header _) => p
    | Node.Normal inode (NodeType.Body _ _) => Dlx.toTopLoop d inode.next fuel
    | Node.Boundary _ _ _ => p

/-- Dlx::to_top. -/
def Dlx.to_top (d : Dlx I N) (p : Nat) : Nat :=
  d.toTopLoop (d.nextF p) (d.body.length + 2)

/-- Dlx::set_name_for_node: scan upward from idx for the trailing boundary of
its subset and return its name; none models the unwrap panic on a missing
name, which cannot happen for a cell emitted by construction. -/
def Dlx.nameLoop : Dlx I N → Nat → Nat → Option N
  | _, _, 0 => none
  | d, q, fuel + 1 =>
    match d.bnode q with
    | Node.Boundary name _ _ => name
    | Node.Normal _ _ => Dlx.nameLoop d (q + 1) fuel

/-- Dlx::set_name_for_node. -/
def Dlx.set_name_for_node (d : Dlx I N) (idx : Nat) : Option N :=
  d.nameLoop (idx + 1) (d.body.length + 2)

/-- Construction error kinds, naming the four failure modes the source
surfaces (the first three as panics, the fourth as a debug assertion). -/
inductive ConstructError where
  | DuplicateItem
  | DuplicateSubsetName
  | UnknownItem
  | KindMismatch
deriving DecidableEq, Repr

/-- Association-list lookup standing in for HashMap::get. -/
def alookup [DecidableEq I] : List (I × Nat) → I → Option Nat
  | [], _ => none
  | (k, v) :: rest, i => if k = i then some v else alookup rest i

/-- Set the prev field of a normal node in a raw node list (set_prev during
construction). -/
def bsetPrev (body : List (Node N)) (i v : Nat) : List (Node N) :=
  match body.getD i nodeD with
  | Node.Normal inode t => body.set i (Node.Normal ⟨v, inode.next⟩ t)
  | Node.Boundary _ _ _ => body

/-- Set the next field of a normal node in a raw node list. -/
def bsetNext (body : List (Node N)) (i v : Nat) : List (Node N) :=
  match body.getD i nodeD with
  | Node.Normal inode t => body.set i (Node.Normal ⟨inode.prev, v⟩ t)
  | Node.Boundary _ _ _ => body

/-- Increment the size of a header cell in a raw node list, as the source's
plain += 1 during construction. -/
def bincSize (body : List (Node N)) (i : Nat) : List (Node N) :=
  match body.getD i nodeD with
  | Node.Normal inode (NodeType.Header s) =>
      body.set i (Node.Normal inode (NodeType.Header (s + 1)))
  | _ => body

/-- Item-declaration pass of Dlx::construct: fold over the partitioned item
list, building headers, the item map and the header cells, failing on a
repeated identifier. -/
def addItemsLoop [DecidableEq I] :
    List (I × HeaderType) → Nat →
    List (Header I) × List (I × Nat) × List (Node N) →
    Except ConstructError (List (Header I) × List (I × Nat) × List (Node N))
  | [], _, acc => Except.ok acc
  | (item, ht) :: rest, idx, (headers, item_map, body) =>
    let new_idx := idx + 1
    if (alookup item_map item).isSome then Except.error ConstructError.DuplicateItem
    else
      addItemsLoop rest new_idx
        (headers ++ [⟨some item, ⟨(new_idx + (U32 - 1)) % U32, (new_idx + 1) % U32⟩, ht⟩],
         item_map ++ [(item, new_idx)],
         body ++ [Node.Normal ⟨new_idx, new_idx⟩ (NodeType.Header 0)])

/-- Modify a header list entry in place. -/
def hmod (hs : List (Header I)) (i : Nat) (f : Header I → Header I) :
    List (Header I) :=
  hs.set i (f (hs.getD i hdrD))

/-- The kind-match test of the construction debug assertion: a primary
constraint on a primary item, or a secondary constraint on a secondary
item. -/
def kindMatches {I : Type} (ht : HeaderType) (c : Constraint I) : Bool :=
  match ht, c with
  | HeaderType.Primary, Constraint.Primary _ => true
  | HeaderType.Secondary, Constraint.Secondary _ => true
  | _, _ => false

/-- One constraint of Dlx::construct's subset pass: resolve the item, check
its kind, link a fresh body cell at the bottom of its vertical ring. -/
def addConstraint [DecidableEq I] (item_map : List (I × Nat))
    (headers : List (Header I)) (body : List (Node N)) (c : Constraint I) :
    Except ConstructError (List (Node N)) :=
  let idx := body.length
  match alookup item_map c.item with
  | none => Except.error ConstructError.UnknownItem
  | some header_idx =>
    let prev_idx :=
      match body.getD header_idx nodeD with
      | Node.Normal inode _ => inode.prev
      | Node.Boundary _ _ _ => 0
    let kind_ok := kindMatches (headers.getD header_idx hdrD).header_type c
    if kind_ok then
      let body1 := bincSize (bsetPrev body header_idx idx) header_idx
      let body2 := bsetNext body1 prev_idx idx
      Except.ok (body2 ++ [Node.Normal ⟨prev_idx, header_idx⟩
        (NodeType.Body c.color (header_idx % U32))])
    else Except.error ConstructError.KindMismatch

/-- Fold addConstraint over a subset's constraints. -/
def addConstraints [DecidableEq I] (item_map : List (I × Nat))
    (headers : List (Header I)) :
    List (Node N) → List (Constraint I) → Except ConstructError (List (Node N))
  | body, [] => Except.ok body
  | body, c :: cs =>
    match addConstraint item_map headers body c with
    | Except.error e => Except.error e
    | Except.ok body1 => addConstraints item_map headers body1 cs

/-- One subset of Dlx::construct: check name freshness, emit the body cells,
patch the preceding boundary's last_for_next, append the trailing boundary
carrying the name. -/
def addSubset [DecidableEq I] [DecidableEq N] (item_map : List (I × Nat))
    (headers : List (Header I)) (names_seen : List N) (body : List (Node N))
    (name : N) (cs : List (Constraint I)) :
    Except ConstructError (List (Node N) × List N) :=
  if name ∈ names_seen then Except.error ConstructError.DuplicateSubsetName
  else
    let last_start := body.length
    match addConstraints item_map headers body cs with
    | Except.error e => Except.error e
    | Except.ok body1 =>
      let last_idx := body1.length - 1
      let body2 :=
        match body1.getD (last_start - 1) nodeD with
        | Node.Boundary nm f _ => body1.set (last_start - 1) (Node.Boundary nm f last_idx)
        | _ => body1
      Except.ok (body2 ++ [Node.Boundary (some name) last_start 0],
        names_seen ++ [name])

/-- Fold addSubset over the subset list. -/
def addSubsets [DecidableEq I] [DecidableEq N] (item_map : List (I × Nat))
    (headers : List (Header I)) :
    List N → List (Node N) → List (N × List (Constraint I)) →
    Except ConstructError (List (Node N))
  | _, body, [] => Except.ok body
  | names_seen, body, (name, cs) :: rest =>
    match addSubset item_map headers names_seen body name cs with
    | Except.error e => Except.error e
    | Except.ok (body1, names1) => addSubsets item_map headers names1 body1 rest

/-- The partition predicate of Dlx::construct: primary items first. -/
def isPrimaryPair {I : Type} (it : I × HeaderType) : Bool :=
  match it.2 with
  | HeaderType.Primary => true
  | HeaderType.Secondary => false

/-- The item list in construction order: the stable partition's primaries
followed by its secondaries. -/
def partItems (items : List (I × HeaderType)) : List (I × HeaderType) :=
  (items.partition isPrimaryPair).1 ++ (items.partition isPrimaryPair).2

/-- The primary count as the source's u32 cast. -/
def plen32Of (items : List (I × HeaderType)) : Nat :=
  (items.partition isPrimaryPair).1.length % U32

/-- The initial header array: the primary sentinel alone. -/
def initHs {I : Type} : List (Header I) := [⟨none, ⟨0, 1⟩, HeaderType.Primary⟩]

/-- The initial node array: the leading phony boundary alone. -/
def initB {N : Type} : List (Node N) := [Node.Boundary none 0 0]

/-- Append the secondary sentinel to the built headers and patch the four
ring links closing the primary and secondary header rings (construct's
get_mut assignments, in order). -/
def buildHeaders (headers1 : List (Header I)) (plen32 : Nat) : List (Header I) :=
  let last_idx := headers1.length
  let headers2 := headers1 ++
    [⟨none, ⟨(last_idx + (U32 - 1)) % U32, (plen32 + 1) % U32⟩, HeaderType.Secondary⟩]
  let headers3 := hmod headers2 0 fun h => { h with node := ⟨plen32, h.node.next⟩ }
  let headers4 := hmod headers3 plen32 fun h => { h with node := ⟨h.node.prev, 0⟩ }
  let headers5 := hmod headers4 (plen32 + 1) fun h =>
    { h with node := ⟨last_idx % U32, h.node.next⟩ }
  hmod headers5 last_idx fun h => { h with node := ⟨h.node.prev, (plen32 + 1) % U32⟩ }

/-- Dlx::construct / Dlx::new. The source's panics and the kind-match debug
assertion are surfaced as Except errors. -/
def construct [DecidableEq I] [DecidableEq N] (items : List (I × HeaderType))
    (subsets : List (N × List (Constraint I))) :
    Except ConstructError (Dlx I N) :=
  match addItemsLoop (partItems items) 0 (initHs, [], initB) with
  | Except.error e => Except.error e
  | Except.ok (headers1, item_map, body1) =>
    let headers6 := buildHeaders headers1 (plen32Of items)
    match addSubsets item_map headers6 [] (body1 ++ [Node.Boundary none 0 0]) subsets with
    | Except.error e => Except.error e
    | Except.ok body3 =>
      Except.ok ⟨(headers6.getD 0 hdrD).node.prev, headers6, body3⟩

/-- DlxExplorer: the search driver. The selection stack sol_stack mirrors
the source's partial_solution Vec with the TOP OF THE STACK AT THE HEAD;
vecStack recovers the Vec's order. -/
structure Explorer (I N : Type) where
  dlx : Dlx I N
  sol_stack : List Nat
  started : Bool
deriving DecidableEq, Repr

/-- The selection stack in the source's Vec order (bottom first). -/
def Explorer.vecStack (e : Explorer I N) : List Nat := e.sol_stack.reverse

/-- A fresh driver over a grid (DlxExplorer::new). -/
def Explorer.init (d : Dlx I N) : Explorer I N := ⟨d, [], false⟩

/-- DlxExplorer::choose_next_item; the Bool is true when a solution has been
found (no active primary item remains). -/
def Explorer.choose_next (e : Explorer I N) : Explorer I N × Bool :=
  match e.dlx.choose_item with
  | some item =>
      ({ e with dlx := e.dlx.cover item, sol_stack := item :: e.sol_stack }, false)
  | none => (e, true)

/-- DlxExplorer::explore_next_choice: pop entries until a next choice can be
committed (Bool true) or the stack empties (Bool false). The loop is
structural in the stack. A boundary successor is unreachable in the source
and terminates the search here. -/
def exploreLoop : Dlx I N → List Nat → Dlx I N × List Nat × Bool
  | d, [] => (d, [], false)
  | d, p :: rest =>
    let d1 := if d.isBody p then d.uncover_remaining_choices p else d
    let p' := d1.nextF p
    match d1.bnode p' with
    | Node.Normal _ (NodeType.Header _) => exploreLoop (d1.uncover p') rest
    | Node.Normal _ (NodeType.Body _ _) =>
        (d1.cover_remaining_choices p', p' :: rest, true)
    | Node.Boundary _ _ _ => (d1, rest, false)

/-- Result of one driver step. -/
inductive DlxStepResult where
  | Continue
  | FoundSolution (sol : List Nat)
  | Done
deriving DecidableEq, Repr

/-- DlxExplorer::step. -/
def Explorer.step (e : Explorer I N) : Explorer I N × DlxStepResult :=
  let go : Explorer I N → Explorer I N × DlxStepResult := fun e1 =>
    match e1.choose_next with
    | (e2, true) => (e2, DlxStepResult.FoundSolution e2.vecStack)
    | (e2, false) => (e2, DlxStepResult.Continue)
  if e.started then
    match exploreLoop e.dlx e.sol_stack with
    | (d, s, true) => go ⟨d, s, true⟩
    | (d, s, false) => (⟨d, s, true⟩, DlxStepResult.Done)
  else go { e with started := true }

/-- Solutions-only iteration (DlxIteratorImpl::next looped to exhaustion):
collect every FoundSolution payload, in order, stopping at Done. The fuel
bounds the number of driver steps. -/
def solutionsRun : Nat → Explorer I N → List (List Nat)
  | 0, _ => []
  | fuel + 1, e =>
    match e.step with
    | (e', DlxStepResult.Continue) => solutionsRun fuel e'
    | (e', DlxStepResult.FoundSolution s) => s :: solutionsRun fuel e'
    | (_, DlxStepResult.Done) => []

/-- StepwiseDlxIterResult. -/
inductive StepwiseDlxIterResult (T : Type) where
  | Step (t : T)
  | Solution (t : T)
deriving DecidableEq, Repr

/-- StepwiseDlxIteratorImpl::next. -/
def stepwiseNext (e : Explorer I N) :
    Explorer I N × Option (StepwiseDlxIterResult (List Nat)) :=
  match e.step with
  | (e', DlxStepResult.Continue) =>
      (e', some (StepwiseDlxIterResult.Step e'.vecStack))
  | (e', DlxStepResult.FoundSolution s) =>
      (e', some (StepwiseDlxIterResult.Solution s))
  | (e', DlxStepResult.Done) => (e', none)

/-- Stepwise iteration to exhaustion: the list of yields until next returns
none (or fuel runs out). -/
def stepwiseRun : Nat → Explorer I N → List (StepwiseDlxIterResult (List Nat))
  | 0, _ => []
  | fuel + 1, e =>
    match stepwiseNext e with
    | (e', some r) => r :: stepwiseRun fuel e'
    | (_, none) => []

/-- The with_names projection of one solution: keep body-cell entries and map
them to their subset's name (the unwrap of a missing name, impossible for
constructed grids, drops the entry). -/
def withNamesSol (d : Dlx I N) (sol : List Nat) : List N :=
  sol.filterMap fun p => if d.isBody p then d.set_name_for_node p else none

/-- The with_names projection of a stepwise yield. -/
def withNamesStep (d : Dlx I N) :
    StepwiseDlxIterResult (List Nat) → StepwiseDlxIterResult (List N)
  | StepwiseDlxIterResult.Step s => StepwiseDlxIterResult.Step (withNamesSol d s)
  | StepwiseDlxIterResult.Solution s =>
      StepwiseDlxIterResult.Solution (withNamesSol d s)

/-- Drop glue of DlxExplorer: replay the stack top-down, undoing each pending
commitment, returning the restored grid. -/
def dropExplorer (e : Explorer I N) : Dlx I N :=
  e.sol_stack.foldl
    (fun d p =>
      if d.isBody p then
        let d1 := d.uncover_remaining_choices p
        d1.uncover (d1.to_top p)
      else d.uncover p)
    e.dlx

/-- Total unwrapping of a construction known to succeed (Nat instances). -/
def exOk (x : Except ConstructError (Dlx Nat Nat)) : Dlx Nat Nat :=
  match x with
  | Except.ok d => d
  | Except.error _ => ⟨0, [], []⟩

/-- Iterate stepwiseNext n times, keeping the explorer. -/
def stepwiseIterate : Nat → Explorer I N → Explorer I N
  | 0, e => e
  | n + 1, e => stepwiseIterate n (stepwiseNext e).1

/-- True when the forward call purify(idx) is permitted: the node at idx is a
body cell carrying a color, which is everything the source's own match
requires before it runs to completion. -/
def Dlx.purifyEnabled (d : Dlx I N) (idx : Nat) : Bool :=
  match d.bnode idx with
  | Node.Normal _ (NodeType.Body (some _) _) => true
  | _ => false

/-- Walk the vertical ring of item i along next pointers, collecting the body
cells currently linked into it. -/
def ringWalk : Dlx I N → Nat → Nat → Nat → List Nat
  | _, _, _, 0 => []
  | d, i, p, fuel + 1 =>
    if p = i then []
    else p :: ringWalk d i (d.nextF p) fuel

/-- The list of body cells currently linked into the vertical ring of item
i (walking from the header cell's next pointer until it closes). -/
def Dlx.ringNextList (d : Dlx I N) (i : Nat) : List Nat :=
  ringWalk d i (d.nextF i) (d.body.length + 2)

/-- The number of body cells currently linked into the vertical ring of
item i. -/
def Dlx.linkedCount (d : Dlx I N) (i : Nat) : Nat := (d.ringNextList i).length

/-- Walk the active header ring from opt, collecting the headers visited
before the walk returns to the sentinel 0 (source loop of choose_item). -/
def hrWalk : Dlx I N → Nat → Nat → List Nat
  | _, _, 0 => []
  | d, opt, fuel + 1 =>
    if opt = 0 then []
    else opt :: hrWalk d (d.header opt).node.next fuel

/-- The currently active primary item ring, as scanned by choose_item. -/
def Dlx.activeRing (d : Dlx I N) : List Nat :=
  hrWalk d (d.header 0).node.next (d.headers.length + 1)

/-- True when the active-ring walk closes (reaches the sentinel) within the
fuel choose_item uses; rules out a corrupted header list. -/
def hrClosed : Dlx I N → Nat → Nat → Bool
  | _, _, 0 => false
  | d, opt, fuel + 1 =>
    if opt = 0 then true
    else hrClosed d (d.header opt).node.next fuel

/-- The colors that the selected subsets assign to item i (spec-side reading
of the input). -/
def touchColors [DecidableEq I] [DecidableEq N]
    (subsets : List (N × List (Constraint I))) (sel : List N) (i : I) :
    List Nat :=
  (subsets.filter fun s => sel.contains s.1).flatMap
    fun s => s.2.filterMap fun c => if c.item = i then c.color else none

/-- How many selected subsets cover item i (spec-side reading). -/
def countCover [DecidableEq I] [DecidableEq N]
    (subsets : List (N × List (Constraint I))) (sel : List N) (i : I) : Nat :=
  (subsets.filter fun s => sel.contains s.1 && s.2.any fun c => c.item = i).length

/-- All elements of the list are equal. -/
def allEqNat : List Nat → Bool
  | [] => true
  | c :: rest => rest.all (· = c)

/-- Modelled from the spec: the set of exact-cover-with-colored-secondary-
items solutions of an input, read directly off the claim's words — a
selection of (distinct, declared) subsets in which each primary item is
covered by exactly one selected subset and, for every secondary item, all
selected subsets touching it agree on its color. -/
def specXccSolution [DecidableEq I] [DecidableEq N]
    (items : List (I × HeaderType)) (subsets : List (N × List (Constraint I)))
    (sel : List N) : Bool :=
  decide sel.Nodup &&
  (sel.all fun n => subsets.any fun s => s.1 = n) &&
  items.all fun it =>
    match it.2 with
    | HeaderType.Primary => countCover subsets sel it.1 == 1
    | HeaderType.Secondary => allEqNat (touchColors subsets sel it.1)

/-- Validity of a construction input, read off the claim's words: unique
item identifiers, unique subset names, and every constraint referencing a
declared item of matching kind. -/
def specValidInput [DecidableEq I] [DecidableEq N]
    (items : List (I × HeaderType))
    (subsets : List (N × List (Constraint I))) : Prop :=
  (items.map Prod.fst).Nodup ∧ (subsets.map Prod.fst).Nodup ∧
    ∀ s ∈ subsets, ∀ c ∈ s.2, ∃ it ∈ items, it.1 = Constraint.item c ∧
      ((∃ i, c = Constraint.Primary i) ↔ it.2 = HeaderType.Primary)

/-- The two-solutions scenario of the spec: primary items p, q, r encoded as
100, 101, 102 and the four subsets 0..3. -/
def twoSolD : Dlx Nat Nat := exOk (construct
  [(100, HeaderType.Primary), (101, HeaderType.Primary), (102, HeaderType.Primary)]
  [(0, [Constraint.Primary 100, Constraint.Primary 101]),
   (1, [Constraint.Primary 100]),
   (2, [Constraint.Primary 100, Constraint.Primary 101]),
   (3, [Constraint.Primary 102])])

/-- The colored scenario of the spec: primary items 100, 101, secondary item
200, and four subsets constraining 200's color. -/
def colorsD : Dlx Nat Nat := exOk (construct
  [(100, HeaderType.Primary), (101, HeaderType.Primary), (200, HeaderType.Secondary)]
  [(0, [Constraint.Primary 100, Constraint.Secondary ⟨200, 1⟩]),
   (1, [Constraint.Primary 100, Constraint.Secondary ⟨200, 2⟩]),
   (2, [Constraint.Primary 101, Constraint.Secondary ⟨200, 3⟩]),
   (3, [Constraint.Primary 101, Constraint.Secondary ⟨200, 1⟩])])

/-- A no-items input whose single subset is empty: a valid input on which the
iterator's yield can be compared against the spec-side solution set. -/
def pureSecD : Dlx Nat Nat :=
  exOk (construct ([] : List (Nat × HeaderType)) [(0, ([] : List (Constraint Nat)))])

/-- The first index of the subset row containing idx: scan left until the
cell before is a boundary. -/
def rowStart (d : Dlx I N) : Nat → Nat
  | 0 => 0
  | idx + 1 =>
    match d.bnode idx with
    | Node.Boundary _ _ _ => idx + 1
    | Node.Normal _ _ => rowStart d idx

/-- Fuelled right scan for the last index of the subset row containing idx. -/
def rowEndAux (d : Dlx I N) : Nat → Nat → Nat
  | 0, idx => idx
  | fuel + 1, idx =>
    match d.bnode (idx + 1) with
    | Node.Boundary _ _ _ => idx
    | Node.Normal _ _ => rowEndAux d fuel (idx + 1)

/-- The last index of the subset row containing idx. -/
def rowEnd (d : Dlx I N) (idx : Nat) : Nat := rowEndAux d d.body.length idx

/-- The indices hide(idx) visits, in visit order: the rest of the row after
idx, then the start of the row up to idx. -/
def visitF (s e idx : Nat) : List Nat :=
  List.range' (idx + 1) (e - idx) ++ List.range' s (idx - s)

/-- The boundary first_for_prev field (0 on non-boundaries). -/
def Dlx.ffpF (d : Dlx I N) (j : Nat) : Nat :=
  match d.bnode j with
  | Node.Boundary _ f _ => f
  | _ => 0

/-- The boundary last_for_next field (0 on non-boundaries). -/
def Dlx.lfnF (d : Dlx I N) (j : Nat) : Nat :=
  match d.bnode j with
  | Node.Boundary _ _ l => l
  | _ => 0

/-- The kind tag of a node: 0 boundary, 1 header, 2 body. -/
def Dlx.bKind (d : Dlx I N) (j : Nat) : Nat :=
  match d.bnode j with
  | Node.Boundary _ _ _ => 0
  | Node.Normal _ (NodeType.Header _) => 1
  | Node.Normal _ (NodeType.Body _ _) => 2

/-- Two grids with the same walk skeleton: equal body length and, at every
node, equal kind and equal boundary jump fields. All link primitives
preserve this relation, which is what makes their row and ring walks follow
the same routes. -/
def sameShape (d d' : Dlx I N) : Prop :=
  d.body.length = d'.body.length ∧
    ∀ j, d.bKind j = d'.bKind j ∧ d.ffpF j = d'.ffpF j ∧ d.lfnF j = d'.lfnF j

/-- Well-formedness of the subset row around idx, everything the fuelled
hide/unhide walks need: the row sits inside the body region, its cells are
body cells, it is delimited by boundaries whose jump fields point back at
it, and the array is small enough that the wrapping usize increments reduce
to plain arithmetic. -/
def rowOkB (d : Dlx I N) (idx : Nat) : Bool :=
  let s := rowStart d idx
  let e := rowEnd d idx
  decide (1 ≤ s) && decide (d.headers.length ≤ s) && decide (s ≤ idx) &&
  decide (idx ≤ e) && decide (e + 1 < d.body.length) &&
  decide (d.body.length + 1 < USZ) &&
  (List.range' s (e + 1 - s)).all (fun q => d.isBody q) &&
  (d.bKind (e + 1) == 0) && (d.ffpF (e + 1) == s) &&
  (d.bKind (s - 1) == 0) && (d.lfnF (s - 1) == e)

/-- Stagewise validity of a fuelled sequence of operations: P holds at each
step in the state the previous steps produced. -/
def SeqOkB {σ : Type} (f : σ → Nat → σ) (P : σ → Nat → Bool) : σ → List Nat → Bool
  | _, [] => true
  | s, q :: rest => P s q && SeqOkB f P (f s q) rest

/-- Per-cell validity of one hide step at q: q is a body cell, its item
header stores a size below the wrap modulus, and — when the cell is to be
unlinked — its vertical neighbours point back at it and are outside the
protected avoid set. -/
def hideCellAvoidOkB (avoid : List Nat) (d : Dlx I N) (q : Nat) : Bool :=
  match d.bnode q with
  | Node.Normal inode (NodeType.Body color top) =>
      (match d.bnode top with
       | Node.Normal _ (NodeType.Header s) => decide (s < USZ)
       | _ => false) &&
      (if d.isPrimary top || color.isSome then
        (match d.bnode inode.prev with
         | Node.Normal pn _ => pn.next == q
         | _ => false) &&
        (match d.bnode inode.next with
         | Node.Normal nx _ => nx.prev == q
         | _ => false) &&
        decide (inode.prev ∉ avoid) && decide (inode.next ∉ avoid)
       else true)
  | _ => false

/-- hide applied as a fold of its per-cell operation over a visit list. -/
def hideFold (d : Dlx I N) (l : List Nat) : Dlx I N := l.foldl Dlx.hideCellOp d

/-- unhide applied as a fold of its per-cell operation over a visit list. -/
def unhideFold (d : Dlx I N) (l : List Nat) : Dlx I N := l.foldl Dlx.unhideCellOp d

/-- Legality of hide(idx)/unhide(idx) with a protected avoid set: the row is
well formed and each visited cell is valid in the state its predecessors
produced. -/
def hideLegalAvoidB (avoid : List Nat) (d : Dlx I N) (idx : Nat) : Bool :=
  rowOkB d idx &&
    SeqOkB Dlx.hideCellOp (hideCellAvoidOkB avoid) d
      (visitF (rowStart d idx) (rowEnd d idx) idx)

/-- Legality of a plain hide(idx)/unhide(idx) pair. -/
def hideLegalB (d : Dlx I N) (idx : Nat) : Bool := hideLegalAvoidB [] d idx

/-- Chain consistency: following a from the list l, consecutive next
pointers thread the list and prev pointers mirror them, closing at last. -/
def chainOkB (d : Dlx I N) : Nat → List Nat → Nat → Bool
  | a, [], last => d.nextF a == last && d.prevF last == a
  | a, b :: rest, last => d.nextF a == b && d.prevF b == a && chainOkB d b rest last

/-- The list R is a consistent doubly linked ring for item i. -/
def ringRepB (d : Dlx I N) (i : Nat) (R : List Nat) : Bool := chainOkB d i R i

/-- Generic single-node link-field modification, the common shape of
set_next and set_prev. -/
def modLinkOp (g : ListNodeI → ListNodeI) (d : Dlx I N) (i : Nat) : Dlx I N :=
  match d.bnode i with
  | Node.Normal inode t => d.setBody i (Node.Normal (g inode) t)
  | Node.Boundary _ _ _ => d

/-- Generic single-header size modification, the common shape of decSize
and incSize. -/
def modSizeOp (g : Nat → Nat) (d : Dlx I N) (t : Nat) : Dlx I N :=
  match d.bnode t with
  | Node.Normal inode (NodeType.Header s) =>
      d.setBody t (Node.Normal inode (NodeType.Header (g s)))
  | _ => d

/-- The walk-relevant shape of a node: its kind tag and boundary fields. -/
def nshape : Node N → Nat × Nat × Nat
  | Node.Boundary _ f l => (0, f, l)
  | Node.Normal _ (NodeType.Header _) => (1, 0, 0)
  | Node.Normal _ (NodeType.Body _ _) => (2, 0, 0)

/-- A constraint passes construction's lookup and kind checks against an
item map and a header list. -/
def constraintOk [DecidableEq I] (m : List (I × Nat)) (hs : List (Header I))
    (c : Constraint I) : Prop :=
  ∃ k, alookup m (Constraint.item c) = some k ∧
    kindMatches (hs.getD k hdrD).header_type c = true

/-- First element (starting from cur) of a list minimising the key f, keeping
the incumbent on ties — the accumulator discipline of choose_item's loop. -/
def firstMinKey (f : Nat → Nat) : Nat → List Nat → Nat
  | cur, [] => cur
  | cur, y :: rest => if f cur > f y then firstMinKey f y rest else firstMinKey f cur rest

/-- Forward walk trace: from position p the next pointers visit the cells
of the list in order, ending at idx. -/
def walkNextB (d : Dlx I N) (idx : Nat) : Nat → List Nat → Bool
  | p, [] => p == idx
  | p, q :: rest => p == q && walkNextB d idx (d.nextF q) rest

/-- Backward walk trace: from position p the prev pointers visit the cells
of the list in order, ending at idx. -/
def walkPrevB (d : Dlx I N) (idx : Nat) : Nat → List Nat → Bool
  | p, [] => p == idx
  | p, q :: rest => p == q && walkPrevB d idx (d.prevF q) rest

/-- Legality of cover(idx), protecting the extra cells: idx is a header cell
of the body array whose vertical ring is consistent and disjoint from the
protected cells, the header-array ring neighbours point back at idx, and
hiding each ring subset in turn is legal with the ring and the protected
cells shielded from stitch writes. -/
def coverLegalAvoidB (extra : List Nat) (d : Dlx I N) (idx : Nat) : Bool :=
  ringRepB d idx (d.ringNextList idx) &&
  (d.ringNextList idx).all (fun q => decide (q ≠ idx) && decide (q ∉ extra)) &&
  decide ((d.ringNextList idx).length + 1 ≤ d.body.length + 2) &&
  d.isHeaderCell idx &&
  decide (idx < U32) &&
  decide ((d.header idx).node.prev < d.headers.length) &&
  decide ((d.header idx).node.next < d.headers.length) &&
  ((d.header (d.header idx).node.prev).node.next == idx) &&
  ((d.header (d.header idx).node.next).node.prev == idx) &&
  SeqOkB Dlx.hide (hideLegalAvoidB (extra ++ idx :: d.ringNextList idx)) d
    (d.ringNextList idx)

/-- Legality of a plain cover(idx)/uncover(idx) pair. -/
def coverLegalB (d : Dlx I N) (idx : Nat) : Bool := coverLegalAvoidB [] d idx

/-- One iteration body of Dlx::purify at ring cell p. -/
def purifyStep (c : Nat) (st : Dlx I N) (p : Nat) : Dlx I N :=
  if st.colorF p = some c then st.setColor p none else st.hide p

/-- One iteration body of Dlx::unpurify at ring cell p. -/
def unpurifyStep (c : Nat) (st : Dlx I N) (p : Nat) : Dlx I N :=
  if (st.colorF p).isNone then st.setColor p (some c) else st.unhide p

/-- Per-cell validity of one purify step: the cell carries a color (an
uncolored ring cell would be repainted, not unhidden, by unpurify), and a
conflicting cell may be legally hidden. -/
def purifyStepOkB (avoid : List Nat) (c : Nat) (st : Dlx I N) (p : Nat) : Bool :=
  (st.colorF p).isSome &&
  (if st.colorF p = some c then st.isBody p else hideLegalAvoidB avoid st p)

/-- Legality of purify(idx), protecting the extra cells: idx is a colored
body cell detached from its item ring, the ring is consistent and disjoint
from the protected cells, and every ring step is valid. -/
def purifyLegalAvoidB (extra : List Nat) (d : Dlx I N) (idx : Nat) : Bool :=
  match d.bnode idx with
  | Node.Normal _ (NodeType.Body (some c) top) =>
      ringRepB d top (d.ringNextList top) &&
      (d.ringNextList top).all
        (fun q => decide (q ≠ top) && decide (q ≠ idx) && decide (q ∉ extra)) &&
      decide ((d.ringNextList top).length + 1 ≤ d.body.length + 2) &&
      SeqOkB (purifyStep c)
        (purifyStepOkB (extra ++ idx :: top :: d.ringNextList top) c) d
        (d.ringNextList top)
  | _ => false

/-- Legality of a plain purify(idx)/unpurify(idx) pair. -/
def purifyLegalB (d : Dlx I N) (idx : Nat) : Bool := purifyLegalAvoidB [] d idx

/-- Legality of commit(p, top), protecting the extra cells, following the
commit dispatch. -/
def commitLegalAvoidB (extra : List Nat) (d : Dlx I N) (p top : Nat) : Bool :=
  if d.isPrimary top then coverLegalAvoidB extra d top
  else if (d.colorF p).isSome then purifyLegalAvoidB extra d p
  else true

/-- Legality of a plain commit(p, top)/uncommit(p, top) pair. -/
def commitLegalB (d : Dlx I N) (p top : Nat) : Bool := commitLegalAvoidB [] d p top

/-- Legality of cover_remaining_choices(idx): the subset row is well formed
and committing each other cell of the row in turn is legal, with the whole
row protected. -/
def crcLegalB (d : Dlx I N) (idx : Nat) : Bool :=
  rowOkB d idx &&
  SeqOkB (fun st p => st.commit p (st.topF p))
    (fun st p => commitLegalAvoidB
      (idx :: visitF (rowStart d idx) (rowEnd d idx) idx) st p (st.topF p)) d
    (visitF (rowStart d idx) (rowEnd d idx) idx)

/-- Per-cell size accounting of one hide step at q with respect to an
observed item i: a visited cell of item i must have a primary item (so the
source unlinks it) and be currently linked into i's ring, while a visited
cell of any other item must keep its stitch writes off i's ring walk. -/
def hideCellSizeOkB (i : Nat) (st : Dlx I N) (q : Nat) : Bool :=
  match st.bnode q with
  | Node.Normal _ (NodeType.Body _ t) =>
      if t = i then st.isPrimary i && decide (q ∈ st.ringNextList i)
      else hideCellAvoidOkB (i :: st.ringNextList i) st q
  | _ => false

/-- The size bookkeeping invariant of item i: the vertical ring walk of i
closes into a consistent repeat-free doubly linked ring, the header cell at
i stores exactly the ring length, and the figures stay below the array and
wrap bounds. -/
def sizeInvB (d : Dlx I N) (i : Nat) : Bool :=
  ringRepB d i (d.ringNextList i) &&
  decide ((i :: d.ringNextList i).Nodup) &&
  decide ((d.ringNextList i).length ≤ d.body.length) &&
  d.isHeaderCell i &&
  (d.ringNextList i).all (fun p => d.isBody p) &&
  decide ((d.ringNextList i).length < USZ) &&
  (d.sizeF i == (d.ringNextList i).length)

/-- Size-accounting legality of hide(p) with respect to item i: the row is
well formed and every visited cell passes the per-cell accounting check in
the state its predecessors produced. -/
def hideSizeLegalB (i : Nat) (d : Dlx I N) (p : Nat) : Bool :=
  rowOkB d p &&
  SeqOkB Dlx.hideCellOp (hideCellSizeOkB i) d
    (visitF (rowStart d p) (rowEnd d p) p)

/-- Size-accounting legality of cover(idx) with respect to item i. -/
def coverSizeLegalB (i : Nat) (d : Dlx I N) (idx : Nat) : Bool :=
  coverLegalB d idx &&
  SeqOkB Dlx.hide (hideSizeLegalB i) d (d.ringNextList idx)

/-- Per-cell size accounting of one purify step with respect to item i. -/
def purifyStepSizeOkB (i c : Nat) (st : Dlx I N) (p : Nat) : Bool :=
  if st.colorF p = some c then true else hideSizeLegalB i st p

/-- Size-accounting legality of purify(idx) with respect to item i. -/
def purifySizeLegalB (i : Nat) (d : Dlx I N) (idx : Nat) : Bool :=
  purifyLegalB d idx &&
  (match d.bnode idx with
   | Node.Normal _ (NodeType.Body (some c) top) =>
       SeqOkB (purifyStep c) (purifyStepSizeOkB i c) d (d.ringNextList top)
   | _ => false)

/-- Size-accounting legality of commit(p, top) with respect to item i. -/
def commitSizeLegalB (i : Nat) (d : Dlx I N) (p top : Nat) : Bool :=
  if d.isPrimary top then coverSizeLegalB i d top
  else if (d.colorF p).isSome then purifySizeLegalB i d p
  else true

/-- Size-accounting legality of cover_remaining_choices(idx) with respect
to item i. -/
def crcSizeLegalB (i : Nat) (d : Dlx I N) (idx : Nat) : Bool :=
  crcLegalB d idx &&
  SeqOkB (fun st p => st.commit p (st.topF p))
    (fun st p => commitSizeLegalB i st p (st.topF p)) d
    (visitF (rowStart d idx) (rowEnd d idx) idx)

/-- Structural well-formedness of a driver state: once the search has
started, every selection-stack entry below the top is a body cell (the top
may transiently be the header pushed by choose_next_item); before the first
step the stack is empty. -/
def stackOkB (e : Explorer I N) : Bool :=
  if e.started then (e.sol_stack.drop 1).all (fun q => e.dlx.isBody q)
  else e.sol_stack.isEmpty

/-- Every body cell of the grid resolves to a subset name (the unwrap in
set_name_for_node cannot fail), so with_names drops no body-cell entry. -/
def namedOkB (d : Dlx I N) : Bool :=
  (List.range d.body.length).all fun p =>
    decide (d.isBody p = true → (d.set_name_for_node p).isSome = true)

/-- The per-entry undo of DlxExplorer's drop glue, folded over a stack. -/
def dropFold (s : List Nat) (d : Dlx I N) : Dlx I N :=
  s.foldl
    (fun d p =>
      if d.isBody p then
        let d1 := d.uncover_remaining_choices p
        d1.uncover (d1.to_top p)
      else d.uncover p) d

/-- Legality of the popping walk of explore_next_choice with respect to the
pending undo log: every committed choice met may be legally uncommitted and
the to_top walks land where the undo log expects. -/
def exploreLegalB : Dlx I N → List Nat → Bool
  | _, [] => true
  | d, p :: rest =>
    let d1 := if d.isBody p then d.uncover_remaining_choices p else d
    let p' := d1.nextF p
    match d1.bnode p' with
    | Node.Normal _ (NodeType.Header _) =>
        (if d.isBody p then true else decide (p' = p)) &&
        exploreLegalB (d1.uncover p') rest
    | Node.Normal _ (NodeType.Body _ _) =>
        crcLegalB d1 p' &&
        (if d.isBody p then decide (d1.to_top p' = d1.to_top p)
         else decide (d1.to_top p' = p))
    | Node.Boundary _ _ _ => false

/-- Legality of one full driver step with respect to the pending undo log. -/
def stepLegalB (e : Explorer I N) : Bool :=
  if e.started then
    exploreLegalB e.dlx e.sol_stack &&
    (match exploreLoop e.dlx e.sol_stack with
     | (d, _, true) =>
         match d.choose_item with
         | some item => coverLegalB d item && (d.isBody item == false)
         | none => true
     | (_, _, false) => true)
  else
    match e.dlx.choose_item with
    | some item => coverLegalB e.dlx item && (e.dlx.isBody item == false)
    | none => true

/-- True when the constraint is a primary one. -/
def isPrimaryConstraint {I : Type} : Constraint I → Bool
  | Constraint.Primary _ => true
  | Constraint.Secondary _ => false

/-- A valid input with a duplicate constraint: the single primary item 100,
constrained twice by subset 0 and once by subset 1. -/
def dupPrimItems : List (Nat × HeaderType) := [(100, HeaderType.Primary)]

/-- The subsets of the duplicate-primary input. -/
def dupPrimSubs : List (Nat × List (Constraint Nat)) :=
  [(0, [Constraint.Primary 100, Constraint.Primary 100]),
   (1, [Constraint.Primary 100])]

/-- The grid constructed (without complaint) from the duplicate-primary
input. -/
def dupPrimD : Dlx Nat Nat := exOk (construct dupPrimItems dupPrimSubs)

/-- A valid input whose single subset assigns two different colors to the
secondary item 200. -/
def dupColorItems : List (Nat × HeaderType) :=
  [(100, HeaderType.Primary), (200, HeaderType.Secondary)]

/-- The subsets of the conflicting-colors input. -/
def dupColorSubs : List (Nat × List (Constraint Nat)) :=
  [(0, [Constraint.Primary 100, Constraint.Secondary ⟨200, 1⟩,
        Constraint.Secondary ⟨200, 2⟩])]

/-- The grid constructed (without complaint) from the conflicting-colors
input. -/
def dupColorD : Dlx Nat Nat := exOk (construct dupColorItems dupColorSubs)

/-!
## Theorems
-/

theorem firstMinKey_le (f : Nat → Nat) :
    ∀ (l : List Nat) (cur : Nat), f (firstMinKey f cur l) ≤ f cur := by
  intro l
  induction l with
  | nil => intro cur; simp [firstMinKey]
  | cons y rest ih =>
    intro cur
    by_cases hc : f cur > f y
    · calc f (firstMinKey f cur (y :: rest)) = f (firstMinKey f y rest) := by
            simp [firstMinKey, hc]
        _ ≤ f y := ih y
        _ ≤ f cur := Nat.le_of_lt hc
    · calc f (firstMinKey f cur (y :: rest)) = f (firstMinKey f cur rest) := by
            simp [firstMinKey, hc]
        _ ≤ f cur := ih cur

theorem firstMinKey_split (f : Nat → Nat) :
    ∀ (l : List Nat) (cur : Nat), ∃ l1 l2,
      cur :: l = l1 ++ firstMinKey f cur l :: l2 ∧
      (∀ y ∈ l1, f (firstMinKey f cur l) < f y) ∧
      (∀ y ∈ l2, f (firstMinKey f cur l) ≤ f y) := by
  intro l
  induction l with
  | nil => intro cur; exact ⟨[], [], by simp [firstMinKey]⟩
  | cons y rest ih =>
    intro cur
    by_cases hc : f cur > f y
    · obtain ⟨l1, l2, heq, h1, h2⟩ := ih y
      have hfm : firstMinKey f cur (y :: rest) = firstMinKey f y rest := by
        simp [firstMinKey, hc]
      refine ⟨cur :: l1, l2, ?_, ?_, ?_⟩
      · rw [hfm]; simpa using heq
      · intro z hz
        rcases List.mem_cons.mp hz with h | h
        · subst h
          rw [hfm]
          exact Nat.lt_of_le_of_lt (firstMinKey_le f rest y) hc
        · rw [hfm]; exact h1 z h
      · intro z hz; rw [hfm]; exact h2 z hz
    · obtain ⟨l1, l2, heq, h1, h2⟩ := ih cur
      have hfm : firstMinKey f cur (y :: rest) = firstMinKey f cur rest := by
        simp [firstMinKey, hc]
      cases l1 with
      | nil =>
        have hcur : cur = firstMinKey f cur rest := by
          simpa using congrArg (fun l => l.headD 0) heq
        have hl2 : rest = l2 := by
          simpa using congrArg List.tail heq
        refine ⟨[], y :: rest, ?_, by simp, ?_⟩
        · simp [hfm, ← hcur]
        · intro z hz
          rcases List.mem_cons.mp hz with h | h
          · subst h
            rw [hfm, ← hcur]
            exact Nat.le_of_not_lt hc
          · rw [hfm]; exact h2 z (hl2 ▸ h)
      | cons a l1' =>
        have ha : cur = a := by
          simpa using congrArg (fun l => l.headD 0) heq
        have hrest : rest = l1' ++ firstMinKey f cur rest :: l2 := by
          simpa using congrArg List.tail heq
        refine ⟨cur :: y :: l1', l2, ?_, ?_, ?_⟩
        · rw [hfm, List.cons_append, List.cons_append, ← hrest]
        · intro z hz
          rw [hfm]
          rcases List.mem_cons.mp hz with h | h
          · subst h
            have hthis := h1 a (by simp)
            rw [← ha] at hthis
            exact hthis
          · rcases List.mem_cons.mp h with h' | h'
            · subst h'
              have hcur' := h1 a (by simp)
              rw [← ha] at hcur'
              exact Nat.lt_of_lt_of_le hcur' (Nat.le_of_not_lt hc)
            · exact h1 z (by simp [h'])
        · intro z hz; rw [hfm]; exact h2 z hz

theorem chooseLoop_some (d : Dlx I N) :
    ∀ (fuel opt b : Nat), hrClosed d opt fuel = true →
      d.chooseLoop opt (some b, d.sizeF b) fuel =
        some (firstMinKey d.sizeF b (hrWalk d opt fuel)) := by
  intro fuel
  induction fuel with
  | zero => intro opt b h; simp [hrClosed] at h
  | succ n ih =>
    intro opt b h
    by_cases h0 : opt = 0
    · subst h0; simp [Dlx.chooseLoop, hrWalk, firstMinKey]
    · have h' : hrClosed d ((d.header opt).node.next) n = true := by
        simpa [hrClosed, h0] using h
      by_cases hc : d.sizeF b > d.sizeF opt
      · have := ih ((d.header opt).node.next) opt h'
        simp [Dlx.chooseLoop, hrWalk, h0, hc, firstMinKey, this]
      · have := ih ((d.header opt).node.next) b h'
        simp [Dlx.chooseLoop, hrWalk, h0, hc, firstMinKey, this]

theorem choose_item_eq_firstMin (d : Dlx I N)
    (h : hrClosed d ((d.header 0).node.next) (d.headers.length + 1) = true) :
    d.choose_item =
      match d.activeRing with
      | [] => none
      | x :: rest => some (firstMinKey d.sizeF x rest) := by
  unfold Dlx.choose_item Dlx.activeRing
  by_cases h0 : (d.header 0).node.next = 0
  · simp [Dlx.chooseLoop, hrWalk, h0]
  · have h' : hrClosed d ((d.header ((d.header 0).node.next)).node.next)
        d.headers.length = true := by
      simpa [hrClosed, h0] using h
    have hrec := chooseLoop_some d d.headers.length
      ((d.header ((d.header 0).node.next)).node.next) ((d.header 0).node.next) h'
    simp [Dlx.chooseLoop, hrWalk, h0, hrec]

/-- C5: under a well-formed active primary ring (the scan from the primary
sentinel closes), choose_item returns none exactly when the active primary
ring is empty, and otherwise returns a member of the ring of minimum size,
earlier in the scan than every strictly smaller-or-equal... precisely: every
item scanned before it has strictly larger size and every item scanned after
it has size at least as large; when the ring is sorted by index (as in every
reachable grid), the result is therefore the lowest-index item of minimum
size. -/
theorem C5_choose_item_lrv (d : Dlx I N)
    (h : hrClosed d ((d.header 0).node.next) (d.headers.length + 1) = true) :
    (d.choose_item = none ↔ d.activeRing = []) ∧
    (∀ x, d.choose_item = some x →
      ∃ l1 l2, d.activeRing = l1 ++ x :: l2 ∧
        (∀ y ∈ l1, d.sizeF x < d.sizeF y) ∧
        (∀ y ∈ l2, d.sizeF x ≤ d.sizeF y)) ∧
    (List.Chain' (· < ·) d.activeRing → ∀ x, d.choose_item = some x →
      x ∈ d.activeRing ∧
      ∀ y ∈ d.activeRing, d.sizeF y = d.sizeF x → x ≤ y) := by
  have hmain := choose_item_eq_firstMin d h
  have hsplit : ∀ x, d.choose_item = some x →
      ∃ l1 l2, d.activeRing = l1 ++ x :: l2 ∧
        (∀ y ∈ l1, d.sizeF x < d.sizeF y) ∧
        (∀ y ∈ l2, d.sizeF x ≤ d.sizeF y) := by
    intro x hx
    rcases hring : d.activeRing with _ | ⟨hd, rest⟩
    · rw [hmain, hring] at hx; simp at hx
    · rw [hmain, hring] at hx
      obtain ⟨l1, l2, heq, h1, h2⟩ := firstMinKey_split d.sizeF rest hd
      have hx' : firstMinKey d.sizeF hd rest = x := by simpa using hx
      have hgoal : hd :: rest = l1 ++ x :: l2 := by rw [heq, hx']
      exact ⟨l1, l2, hring ▸ hgoal, hx' ▸ h1, hx' ▸ h2⟩
  refine ⟨?_, hsplit, ?_⟩
  · constructor
    · intro hn
      rcases hring : d.activeRing with _ | ⟨hd, rest⟩
      · rfl
      · rw [hmain, hring] at hn; simp at hn
    · intro hr; rw [hmain, hr]
  · intro hchain x hx
    obtain ⟨l1, l2, heq, h1, h2⟩ := hsplit x hx
    have hmem : x ∈ d.activeRing := by rw [heq]; simp
    refine ⟨hmem, ?_⟩
    intro y hy hsz
    have hpw : List.Pairwise (· < ·) d.activeRing :=
      List.chain'_iff_pairwise.mp hchain
    rw [heq] at hpw hy
    rcases List.mem_append.mp hy with hyl | hyr
    · exact absurd hsz (by
        have := h1 y hyl
        omega)
    · rcases List.mem_cons.mp hyr with h' | h'
      · omega
      · have := (List.pairwise_append.mp hpw).2.1
        have hxy : x < y := (List.pairwise_cons.mp this).1 y h'
        exact Nat.le_of_lt hxy

/-- Witness for C5: the theorem applied to the freshly constructed
two-solutions grid, whose primary ring scan closes. -/
theorem C5_choose_item_lrv_witness :
    (twoSolD.choose_item = none ↔ twoSolD.activeRing = []) ∧
    (∀ x, twoSolD.choose_item = some x →
      ∃ l1 l2, twoSolD.activeRing = l1 ++ x :: l2 ∧
        (∀ y ∈ l1, twoSolD.sizeF x < twoSolD.sizeF y) ∧
        (∀ y ∈ l2, twoSolD.sizeF x ≤ twoSolD.sizeF y)) ∧
    (List.Chain' (· < ·) twoSolD.activeRing → ∀ x, twoSolD.choose_item = some x →
      x ∈ twoSolD.activeRing ∧
      ∀ y ∈ twoSolD.activeRing, twoSolD.sizeF y = twoSolD.sizeF x → x ≤ y) :=
  C5_choose_item_lrv twoSolD (by decide)

/-- C9: for the input with primary items p, q, r and subsets
(0, [p, q]), (1, [p]), (2, [p, q]), (3, [r]), the names-projected stepwise
iterator yields exactly, in order, Step [], Step [3], Solution [3, 0],
Solution [3, 2], and then terminates: the next call after the four yields
returns none. -/
theorem C9_stepwise_two_solutions :
    (stepwiseRun 20 (Explorer.init twoSolD)).map (withNamesStep twoSolD) =
      [StepwiseDlxIterResult.Step [], StepwiseDlxIterResult.Step [3],
       StepwiseDlxIterResult.Solution [3, 0],
       StepwiseDlxIterResult.Solution [3, 2]] ∧
    (stepwiseNext (stepwiseIterate 4 (Explorer.init twoSolD))).2 = none := by
  decide

/-- The solutions-only iterator is not complete for the spec-side solution
set of the claim: on the valid input with no items and the single empty
subset 0, it yields only the empty selection, although selecting subset 0 is
also an exact-cover-with-colors solution in the claim's sense. -/
theorem solverMissesSubsetWithoutPrimaryItems :
    (solutionsRun 10 (Explorer.init pureSecD)).map (withNamesSol pureSecD) = [[]] ∧
    specXccSolution ([] : List (Nat × HeaderType))
      [(0, ([] : List (Constraint Nat)))] [0] = true := by
  decide

/-- C2 counterexample: purify is not reversible from every entry at which
the forward call is permitted. In the freshly constructed colored grid,
cell 6 is a colored body cell still linked into its ring, so purify(6) runs;
but purify repaints cell 6 itself to colorless, so unpurify(6) lands in the
branch the source marks unreachable and the grid is not restored. -/
theorem C2_reversibility_cex :
    colorsD.purifyEnabled 6 = true ∧
    (colorsD.purify 6).unpurifyStuck 6 = true ∧
    ((colorsD.purify 6).unpurify 6 = colorsD) = False := by
  refine ⟨by decide, by decide, ?_⟩
  simp only [eq_iff_iff, iff_false]
  decide

theorem alookup_append [DecidableEq I] (m1 m2 : List (I × Nat)) (i : I) :
    alookup (m1 ++ m2) i =
      match alookup m1 i with
      | some v => some v
      | none => alookup m2 i := by
  induction m1 with
  | nil => simp [alookup]
  | cons p rest ih =>
    obtain ⟨k, v⟩ := p
    by_cases h : k = i
    · simp [alookup, h]
    · simpa [alookup, h] using ih

theorem getD_set_ne {α : Type} (l : List α) (x d : α) {i j : Nat} (h : i ≠ j) :
    (l.set i x).getD j d = l.getD j d := by
  rw [List.getD_eq_getD_get?, List.getD_eq_getD_get?, List.get?_eq_getElem?,
    List.get?_eq_getElem?, List.getElem?_set_ne h]

theorem getD_set_self {α : Type} (l : List α) (x d : α) {i : Nat}
    (h : i < l.length) : (l.set i x).getD i d = x := by
  rw [List.getD_eq_getD_get?, List.get?_eq_getElem?,
    List.getElem?_set_eq_of_lt x h]
  rfl

theorem pairMem_unique {β : Type} [DecidableEq I] :
    ∀ {l : List (I × β)}, (l.map Prod.fst).Nodup →
      ∀ {i : I} {a b : β}, (i, a) ∈ l → (i, b) ∈ l → a = b := by
  intro l
  induction l with
  | nil => intro _ i a b ha; simp at ha
  | cons p rest ih =>
    intro hnd i a b ha hb
    simp only [List.map_cons, List.nodup_cons] at hnd
    rcases List.mem_cons.mp ha with h1 | h1 <;> rcases List.mem_cons.mp hb with h2 | h2
    · rw [← h1] at h2
      exact (congrArg Prod.snd h2).symm
    · exfalso
      apply hnd.1
      have hpi : p.1 = i := by rw [← h1]
      rw [hpi]
      exact List.mem_map_of_mem Prod.fst h2
    · exfalso
      apply hnd.1
      have hpi : p.1 = i := by rw [← h2]
      rw [hpi]
      exact List.mem_map_of_mem Prod.fst h1
    · exact ih hnd.2 h1 h2

theorem addItemsLoop_ok_iff [DecidableEq I] :
    ∀ (l : List (I × HeaderType)) (idx : Nat) (hs : List (Header I))
      (m : List (I × Nat)) (b : List (Node N)),
      (∃ r, addItemsLoop l idx (hs, m, b) = Except.ok r) ↔
        ((l.map Prod.fst).Nodup ∧ ∀ p ∈ l, alookup m p.1 = none) := by
  intro l
  induction l with
  | nil => intro idx hs m b; simp [addItemsLoop]
  | cons p rest ih =>
    obtain ⟨i, ht⟩ := p
    intro idx hs m b
    by_cases h : (alookup m i).isSome
    · rw [Option.isSome_iff_exists] at h
      obtain ⟨v, hv⟩ := h
      constructor
      · rintro ⟨r, hr⟩
        simp [addItemsLoop, hv] at hr
      · rintro ⟨_, hfresh⟩
        have hthis := hfresh (i, ht) (by simp)
        simp only at hthis
        rw [hthis] at hv
        exact absurd hv (by simp)
    · have hnone : alookup m i = none := by
        cases hvv : alookup m i
        · rfl
        · rw [hvv] at h; simp at h
      have hstep : addItemsLoop ((i, ht) :: rest) idx (hs, m, b) =
          addItemsLoop rest (idx + 1)
            (hs ++ [⟨some i, ⟨(idx + 1 + (U32 - 1)) % U32, (idx + 1 + 1) % U32⟩, ht⟩],
             m ++ [(i, idx + 1)],
             b ++ [Node.Normal ⟨idx + 1, idx + 1⟩ (NodeType.Header 0)]) := by
        simp [addItemsLoop, hnone]
      rw [hstep, ih]
      constructor
      · rintro ⟨hnd, hfresh⟩
        refine ⟨?_, ?_⟩
        · simp only [List.map_cons, List.nodup_cons]
          refine ⟨?_, hnd⟩
          intro hmem
          obtain ⟨q, hq, hq1⟩ := List.mem_map.mp hmem
          have hthis := hfresh q hq
          rw [alookup_append, hq1, hnone] at hthis
          simp [alookup] at hthis
        · intro q hq
          rcases List.mem_cons.mp hq with h1 | h1
          · rw [h1]; exact hnone
          · have hres := hfresh q h1
            rw [alookup_append] at hres
            cases hvv : alookup m q.1
            · rfl
            · rw [hvv] at hres; simp at hres
      · rintro ⟨hnd, hfresh⟩
        simp only [List.map_cons, List.nodup_cons] at hnd
        refine ⟨hnd.2, ?_⟩
        intro q hq
        rw [alookup_append]
        have hqm : alookup m q.1 = none := hfresh q (by simp [hq])
        rw [hqm]
        have hqi : (i : I) ≠ q.1 := by
          intro hcontra
          exact hnd.1 (hcontra ▸ List.mem_map_of_mem Prod.fst hq)
        simp [alookup, hqi]

theorem addItemsLoop_error_dup [DecidableEq I] :
    ∀ (l : List (I × HeaderType)) (idx : Nat) (hs : List (Header I))
      (m : List (I × Nat)) (b : List (Node N)) (e : ConstructError),
      addItemsLoop l idx (hs, m, b) = Except.error e →
      e = ConstructError.DuplicateItem := by
  intro l
  induction l with
  | nil => intro idx hs m b e h; simp [addItemsLoop] at h
  | cons p rest ih =>
    obtain ⟨i, ht⟩ := p
    intro idx hs m b e h
    cases hv : alookup m i
    · rw [show addItemsLoop ((i, ht) :: rest) idx (hs, m, b) =
          addItemsLoop rest (idx + 1)
            (hs ++ [⟨some i, ⟨(idx + 1 + (U32 - 1)) % U32, (idx + 1 + 1) % U32⟩, ht⟩],
             m ++ [(i, idx + 1)],
             b ++ [Node.Normal ⟨idx + 1, idx + 1⟩ (NodeType.Header 0)])
        from by simp [addItemsLoop, hv]] at h
      exact ih _ _ _ _ _ h
    · simp [addItemsLoop, hv] at h
      exact h.symm

theorem addItemsLoop_ok_spec [DecidableEq I] :
    ∀ (l : List (I × HeaderType)) (idx : Nat) (hs : List (Header I))
      (m : List (I × Nat)) (b : List (Node N))
      (r : List (Header I) × List (I × Nat) × List (Node N)),
      addItemsLoop l idx (hs, m, b) = Except.ok r →
      hs.length = idx + 1 →
      r.1.length = hs.length + l.length ∧
      (∀ j, j < hs.length → r.1.getD j hdrD = hs.getD j hdrD) ∧
      (∀ i k, alookup r.2.1 i = some k →
        alookup m i = some k ∨
        ∃ ht, (i, ht) ∈ l ∧ hs.length ≤ k ∧ k < r.1.length ∧
          (r.1.getD k hdrD).header_type = ht ∧ (r.1.getD k hdrD).item = some i) ∧
      (∀ p ∈ l, (alookup r.2.1 p.1).isSome) ∧
      (∀ i k, alookup m i = some k → alookup r.2.1 i = some k) := by
  intro l
  induction l with
  | nil =>
    intro idx hs m b r h hlen
    simp only [addItemsLoop] at h
    cases h
    refine ⟨by simp, by intro j _; rfl, ?_, by intro p hp; simp at hp, ?_⟩
    · intro i k hk; exact Or.inl hk
    · intro i k hk; exact hk
  | cons p rest ih =>
    obtain ⟨i, ht⟩ := p
    intro idx hs m b r h hlen
    cases hv : alookup m i
    case some v => simp [addItemsLoop, hv] at h
    case none =>
    rw [show addItemsLoop ((i, ht) :: rest) idx (hs, m, b) =
        addItemsLoop rest (idx + 1)
          (hs ++ [⟨some i, ⟨(idx + 1 + (U32 - 1)) % U32, (idx + 1 + 1) % U32⟩, ht⟩],
           m ++ [(i, idx + 1)],
           b ++ [Node.Normal ⟨idx + 1, idx + 1⟩ (NodeType.Header 0)])
      from by simp [addItemsLoop, hv]] at h
    set hdr : Header I :=
      ⟨some i, ⟨(idx + 1 + (U32 - 1)) % U32, (idx + 1 + 1) % U32⟩, ht⟩ with hhdr
    have hlen2 : (hs ++ [hdr]).length = (idx + 1) + 1 := by simp [hlen]
    obtain ⟨hA, hB, hC, hD, hE⟩ :=
      ih (idx + 1) (hs ++ [hdr]) (m ++ [(i, idx + 1)])
        (b ++ [Node.Normal ⟨idx + 1, idx + 1⟩ (NodeType.Header 0)]) r h hlen2
    have hgetNew : r.1.getD hs.length hdrD = hdr := by
      have hb := hB hs.length (by simp)
      rw [hb, List.getD_append_right _ _ _ _ (Nat.le_refl hs.length)]
      simp
    refine ⟨?_, ?_, ?_, ?_, ?_⟩
    · rw [hA, hlen2, hlen]; simp; omega
    · intro j hj
      have hb := hB j (by simp; omega)
      rw [hb, List.getD_append _ _ _ _ hj]
    · intro i' k hk
      rcases hC i' k hk with hold | ⟨ht', hmem, hk1, hk2, hk3, hk4⟩
      · rw [alookup_append] at hold
        cases hvv : alookup m i'
        · rw [hvv] at hold
          simp only [alookup] at hold
          by_cases hii : i = i'
          · rw [if_pos hii] at hold
            have hk' : idx + 1 = k := Option.some.inj hold
            right
            refine ⟨ht, ?_, by omega, ?_, ?_, ?_⟩
            · rw [← hii]; simp
            · rw [hA, hlen2]; omega
            · rw [← hk', ← hlen, hgetNew]
            · rw [← hk', ← hlen, hgetNew, ← hii]
          · rw [if_neg hii] at hold
            exact absurd hold (by simp)
        · rw [hvv] at hold
          simp only at hold
          exact Or.inl hold
      · right
        refine ⟨ht', by simp [hmem], ?_, hk2, hk3, hk4⟩
        simp at hk1; omega
    · intro q hq
      rcases List.mem_cons.mp hq with h1 | h1
      · have hlook : alookup (m ++ [(i, idx + 1)]) q.1 = some (idx + 1) := by
          rw [alookup_append, h1]
          simp [hv, alookup]
        have hres := hE q.1 (idx + 1) hlook
        rw [hres]; rfl
      · exact hD q h1
    · intro i' k hk
      apply hE
      rw [alookup_append, hk]

theorem hmod_headerType (hs : List (Header I)) (j : Nat) (f : Header I → Header I)
    (hf : ∀ h, (f h).header_type = h.header_type) (k : Nat) :
    ((hmod hs j f).getD k hdrD).header_type = (hs.getD k hdrD).header_type := by
  unfold hmod
  by_cases hk : j = k
  · subst hk
    by_cases hj : j < hs.length
    · rw [getD_set_self _ _ _ hj]
      exact hf _
    · have hlen : (hs.set j (f (hs.getD j hdrD))).length = hs.length := by simp
      rw [List.getD_eq_default _ _ (by rw [hlen]; omega),
        List.getD_eq_default _ _ (by omega)]
  · rw [getD_set_ne _ _ _ hk]

theorem kindMatches_iff (ht : HeaderType) (c : Constraint I) :
    kindMatches ht c = true ↔
      ((∃ i, c = Constraint.Primary i) ↔ ht = HeaderType.Primary) := by
  cases ht <;> cases c <;> simp [kindMatches]

theorem addConstraint_cases [DecidableEq I] (m : List (I × Nat))
    (hs : List (Header I)) (b : List (Node N)) (c : Constraint I) :
    (alookup m (Constraint.item c) = none ∧
      addConstraint m hs b c = Except.error ConstructError.UnknownItem) ∨
    (∃ k, alookup m (Constraint.item c) = some k ∧
      kindMatches ((hs.getD k hdrD)).header_type c = false ∧
      addConstraint m hs b c = Except.error ConstructError.KindMismatch) ∨
    (∃ k, alookup m (Constraint.item c) = some k ∧
      kindMatches ((hs.getD k hdrD)).header_type c = true ∧
      ∃ b', addConstraint m hs b c = Except.ok b') := by
  cases halook : alookup m (Constraint.item c)
  · left
    refine ⟨rfl, ?_⟩
    unfold addConstraint
    rw [halook]
  case some k =>
    by_cases hkind : kindMatches ((hs.getD k hdrD)).header_type c = true
    · right; right
      refine ⟨k, rfl, hkind, ?_⟩
      cases haux : addConstraint m hs b c with
      | error e =>
        exfalso
        have hkind' : kindMatches ((hs[k]?.getD hdrD)).header_type c = true := by
          rw [← List.getD_eq_getElem?_getD]; exact hkind
        unfold addConstraint at haux
        rw [halook] at haux
        simp [hkind'] at haux
      | ok b' => exact ⟨b', rfl⟩
    · right; left
      refine ⟨k, rfl, by simpa using hkind, ?_⟩
      unfold addConstraint
      rw [halook]
      simp only [hkind, if_false]
      simp [Bool.not_eq_true] at hkind
      simp [hkind]

theorem addConstraints_ok_iff [DecidableEq I] (m : List (I × Nat))
    (hs : List (Header I)) :
    ∀ (cs : List (Constraint I)) (b : List (Node N)),
      (∃ b', addConstraints m hs b cs = Except.ok b') ↔
        ∀ c ∈ cs, constraintOk m hs c := by
  intro cs
  induction cs with
  | nil => intro b; simp [addConstraints]
  | cons c rest ih =>
    intro b
    rcases addConstraint_cases m hs b c with ⟨hl, he⟩ | ⟨k, hl, hkind, he⟩ |
      ⟨k, hl, hkind, b1, he⟩
    · constructor
      · rintro ⟨b', hb'⟩
        simp [addConstraints, he] at hb'
      · intro hall
        obtain ⟨k, hk, _⟩ := hall c (by simp)
        rw [hl] at hk
        exact absurd hk (by simp)
    · constructor
      · rintro ⟨b', hb'⟩
        simp [addConstraints, he] at hb'
      · intro hall
        obtain ⟨k', hk', hkind'⟩ := hall c (by simp)
        rw [hl] at hk'
        obtain rfl : k = k' := Option.some.inj hk'
        rw [hkind'] at hkind
        exact absurd hkind (by simp)
    · have hstep : addConstraints m hs b (c :: rest) = addConstraints m hs b1 rest := by
        simp [addConstraints, he]
      rw [hstep, ih]
      constructor
      · intro hall c' hc'
        rcases List.mem_cons.mp hc' with h1 | h1
        · subst h1; exact ⟨k, hl, hkind⟩
        · exact hall c' h1
      · intro hall c' hc'
        exact hall c' (by simp [hc'])

theorem addConstraints_error [DecidableEq I] (m : List (I × Nat))
    (hs : List (Header I)) :
    ∀ (cs : List (Constraint I)) (b : List (Node N)) (e : ConstructError),
      addConstraints m hs b cs = Except.error e →
      (e = ConstructError.UnknownItem ∧
        ∃ c ∈ cs, alookup m (Constraint.item c) = none) ∨
      (e = ConstructError.KindMismatch ∧ ∃ c ∈ cs, ∃ k,
        alookup m (Constraint.item c) = some k ∧
        kindMatches ((hs.getD k hdrD)).header_type c = false) := by
  intro cs
  induction cs with
  | nil => intro b e h; simp [addConstraints] at h
  | cons c rest ih =>
    intro b e h
    rcases addConstraint_cases m hs b c with ⟨hl, he⟩ | ⟨k, hl, hkind, he⟩ |
      ⟨k, hl, hkind, b1, he⟩
    · left
      simp [addConstraints, he] at h
      exact ⟨h.symm, c, by simp, hl⟩
    · right
      simp [addConstraints, he] at h
      exact ⟨h.symm, c, by simp, k, hl, hkind⟩
    · have hstep : addConstraints m hs b (c :: rest) = addConstraints m hs b1 rest := by
        simp [addConstraints, he]
      rw [hstep] at h
      rcases ih b1 e h with ⟨he', c', hc', hdef⟩ | ⟨he', c', hc', hdef⟩
      · exact Or.inl ⟨he', c', by simp [hc'], hdef⟩
      · exact Or.inr ⟨he', c', by simp [hc'], hdef⟩

theorem addSubsets_ok_iff [DecidableEq I] [DecidableEq N] (m : List (I × Nat))
    (hs : List (Header I)) :
    ∀ (ss : List (N × List (Constraint I))) (seen : List N) (b : List (Node N)),
      (∃ r, addSubsets m hs seen b ss = Except.ok r) ↔
        ((∀ n ∈ ss.map Prod.fst, n ∉ seen) ∧ (ss.map Prod.fst).Nodup ∧
          ∀ s ∈ ss, ∀ c ∈ s.2, constraintOk m hs c) := by
  intro ss
  induction ss with
  | nil => intro seen b; simp [addSubsets]
  | cons s rest ih =>
    obtain ⟨name, cs⟩ := s
    intro seen b
    by_cases hmem : name ∈ seen
    · constructor
      · rintro ⟨r, hr⟩
        simp [addSubsets, addSubset, hmem] at hr
      · rintro ⟨hfresh, _, _⟩
        exact absurd hmem (hfresh name (by simp))
    · cases haux : addConstraints m hs b cs with
      | error e =>
        constructor
        · rintro ⟨r, hr⟩
          simp [addSubsets, addSubset, hmem, haux] at hr
        · rintro ⟨_, _, hok⟩
          have hcs : ∀ c ∈ cs, constraintOk m hs c := hok (name, cs) (by simp)
          obtain ⟨b', hb'⟩ := (addConstraints_ok_iff m hs cs b).mpr hcs
          rw [haux] at hb'
          exact absurd hb' (by simp)
      | ok b1 =>
        have hstep : addSubsets m hs seen b ((name, cs) :: rest) =
            addSubsets m hs (seen ++ [name])
              ((match b1.getD (b.length - 1) nodeD with
                | Node.Boundary nm f _ =>
                    b1.set (b.length - 1) (Node.Boundary nm f (b1.length - 1))
                | _ => b1) ++ [Node.Boundary (some name) b.length 0]) rest := by
          simp [addSubsets, addSubset, hmem, haux]
        rw [hstep, ih]
        constructor
        · rintro ⟨hfresh, hnd, hok⟩
          refine ⟨?_, ?_, ?_⟩
          · intro n hn
            rcases List.mem_cons.mp hn with h1 | h1
            · rw [h1]; exact hmem
            · intro hcontra
              exact absurd (by simp [hcontra] : n ∈ seen ++ [name]) (by
                intro hx
                exact hfresh n h1 hx)
          · simp only [List.map_cons, List.nodup_cons]
            refine ⟨?_, hnd⟩
            intro hcontra
            exact hfresh name hcontra (by simp)
          · intro s hsmem
            rcases List.mem_cons.mp hsmem with h1 | h1
            · subst h1
              exact (addConstraints_ok_iff m hs cs b).mp ⟨b1, haux⟩
            · exact hok s h1
        · rintro ⟨hfresh, hnd, hok⟩
          simp only [List.map_cons, List.nodup_cons] at hnd
          refine ⟨?_, hnd.2, ?_⟩
          · intro n hn hseen
            rcases List.mem_append.mp hseen with h1 | h1
            · exact hfresh n (by simp [hn]) h1
            · rcases List.mem_singleton.mp h1 with rfl
              exact hnd.1 hn
          · intro s hsmem
            exact hok s (by simp [hsmem])

theorem addSubsets_error [DecidableEq I] [DecidableEq N] (m : List (I × Nat))
    (hs : List (Header I)) :
    ∀ (ss : List (N × List (Constraint I))) (seen : List N) (b : List (Node N))
      (e : ConstructError),
      addSubsets m hs seen b ss = Except.error e →
      (e = ConstructError.DuplicateSubsetName ∧
        ¬((∀ n ∈ ss.map Prod.fst, n ∉ seen) ∧ (ss.map Prod.fst).Nodup)) ∨
      (e = ConstructError.UnknownItem ∧
        ∃ s ∈ ss, ∃ c ∈ s.2, alookup m (Constraint.item c) = none) ∨
      (e = ConstructError.KindMismatch ∧ ∃ s ∈ ss, ∃ c ∈ s.2, ∃ k,
        alookup m (Constraint.item c) = some k ∧
        kindMatches ((hs.getD k hdrD)).header_type c = false) := by
  intro ss
  induction ss with
  | nil => intro seen b e h; simp [addSubsets] at h
  | cons s rest ih =>
    obtain ⟨name, cs⟩ := s
    intro seen b e h
    by_cases hmem : name ∈ seen
    · left
      simp [addSubsets, addSubset, hmem] at h
      refine ⟨h.symm, ?_⟩
      rintro ⟨hfresh, _⟩
      exact absurd hmem (hfresh name (by simp))
    · cases haux : addConstraints m hs b cs with
      | error e' =>
        have hx : e' = e := by
          simp [addSubsets, addSubset, hmem, haux] at h
          exact h
        subst hx
        rcases addConstraints_error m hs cs b e' haux with ⟨he', c', hc', hdef⟩ |
          ⟨he', c', hc', hdef⟩
        · exact Or.inr (Or.inl ⟨he', (name, cs), by simp, c', hc', hdef⟩)
        · exact Or.inr (Or.inr ⟨he', (name, cs), by simp, c', hc', hdef⟩)
      | ok b1 =>
        have hstep : addSubsets m hs seen b ((name, cs) :: rest) =
            addSubsets m hs (seen ++ [name])
              ((match b1.getD (b.length - 1) nodeD with
                | Node.Boundary nm f _ =>
                    b1.set (b.length - 1) (Node.Boundary nm f (b1.length - 1))
                | _ => b1) ++ [Node.Boundary (some name) b.length 0]) rest := by
          simp [addSubsets, addSubset, hmem, haux]
        rw [hstep] at h
        rcases ih _ _ e h with ⟨he', hdef⟩ | ⟨he', s', hs', hdef⟩ | ⟨he', s', hs', hdef⟩
        · left
          refine ⟨he', ?_⟩
          rintro ⟨hfresh, hnd⟩
          apply hdef
          simp only [List.map_cons, List.nodup_cons] at hnd
          refine ⟨?_, hnd.2⟩
          intro n hn hseen
          rcases List.mem_append.mp hseen with h1 | h1
          · exact hfresh n (by simp [hn]) h1
          · rcases List.mem_singleton.mp h1 with rfl
            exact hnd.1 hn
        · exact Or.inr (Or.inl ⟨he', s', by simp [hs'], hdef⟩)
        · exact Or.inr (Or.inr ⟨he', s', by simp [hs'], hdef⟩)

theorem list_set_getD_self {α : Type} :
    ∀ (l : List α) (i : Nat) (d : α), l.set i (l.getD i d) = l := by
  intro l
  induction l with
  | nil => intro i d; rfl
  | cons a rest ih =>
    intro i d
    cases i with
    | zero => rfl
    | succ n =>
      show a :: rest.set n ((a :: rest).getD (n + 1) d) = a :: rest
      rw [show (a :: rest).getD (n + 1) d = rest.getD n d from rfl, ih n d]

theorem bnode_lt_length (d : Dlx I N) (i : Nat) (inode : ListNodeI) (t : NodeType)
    (h : d.bnode i = Node.Normal inode t) : i < d.body.length := by
  by_contra hcon
  rw [Dlx.bnode, List.getD_eq_default _ _ (by omega)] at h
  exact absurd h (by simp [nodeD])

theorem bnode_setBody (d : Dlx I N) (i : Nat) (n : Node N) (j : Nat) :
    (d.setBody i n).bnode j = if j = i ∧ i < d.body.length then n else d.bnode j := by
  unfold Dlx.setBody Dlx.bnode
  by_cases hj : j = i
  · subst hj
    by_cases hlen : j < d.body.length
    · simp only [hlen, and_true, if_pos rfl]
      exact getD_set_self _ _ _ (by simpa using hlen)
    · rw [List.set_eq_of_length_le (by omega)]
      simp [hlen]
  · rw [getD_set_ne _ _ _ (fun hcon => hj hcon.symm)]
    simp [hj]

theorem headers_setBody (d : Dlx I N) (i : Nat) (n : Node N) :
    (d.setBody i n).headers = d.headers := rfl

theorem length_setBody (d : Dlx I N) (i : Nat) (n : Node N) :
    (d.setBody i n).body.length = d.body.length := by
  simp [Dlx.setBody]

theorem bnode_set_next (d : Dlx I N) (i v j : Nat) :
    (d.set_next i v).bnode j =
      if j = i then
        match d.bnode i with
        | Node.Normal inode t => Node.Normal ⟨inode.prev, v⟩ t
        | b => b
      else d.bnode j := by
  unfold Dlx.set_next
  cases hb : d.bnode i with
  | Boundary nm f l =>
    by_cases hj : j = i
    · subst hj; simp [hb]
    · simp [hj]
  | Normal inode t =>
    rw [bnode_setBody]
    by_cases hj : j = i
    · subst hj
      simp [bnode_lt_length d j inode t hb, hb]
    · simp [hj]

theorem bnode_set_prev (d : Dlx I N) (i v j : Nat) :
    (d.set_prev i v).bnode j =
      if j = i then
        match d.bnode i with
        | Node.Normal inode t => Node.Normal ⟨v, inode.next⟩ t
        | b => b
      else d.bnode j := by
  unfold Dlx.set_prev
  cases hb : d.bnode i with
  | Boundary nm f l =>
    by_cases hj : j = i
    · subst hj; simp [hb]
    · simp [hj]
  | Normal inode t =>
    rw [bnode_setBody]
    by_cases hj : j = i
    · subst hj
      simp [bnode_lt_length d j inode t hb, hb]
    · simp [hj]

theorem bnode_decSize (d : Dlx I N) (t j : Nat) :
    (d.decSize t).bnode j =
      if j = t then
        match d.bnode t with
        | Node.Normal inode (NodeType.Header s) =>
            Node.Normal inode (NodeType.Header ((s + (USZ - 1)) % USZ))
        | b => b
      else d.bnode j := by
  unfold Dlx.decSize
  cases hb : d.bnode t with
  | Boundary nm f l =>
    by_cases hj : j = t
    · subst hj; simp [hb]
    · simp [hj]
  | Normal inode tt =>
    cases tt with
    | Header s =>
      rw [bnode_setBody]
      by_cases hj : j = t
      · subst hj
        simp [bnode_lt_length d j inode (NodeType.Header s) hb, hb]
      · simp [hj]
    | Body c tp =>
      by_cases hj : j = t
      · subst hj; simp [hb]
      · simp [hj]

theorem bnode_incSize (d : Dlx I N) (t j : Nat) :
    (d.incSize t).bnode j =
      if j = t then
        match d.bnode t with
        | Node.Normal inode (NodeType.Header s) =>
            Node.Normal inode (NodeType.Header ((s + 1) % USZ))
        | b => b
      else d.bnode j := by
  unfold Dlx.incSize
  cases hb : d.bnode t with
  | Boundary nm f l =>
    by_cases hj : j = t
    · subst hj; simp [hb]
    · simp [hj]
  | Normal inode tt =>
    cases tt with
    | Header s =>
      rw [bnode_setBody]
      by_cases hj : j = t
      · subst hj
        simp [bnode_lt_length d j inode (NodeType.Header s) hb, hb]
      · simp [hj]
    | Body c tp =>
      by_cases hj : j = t
      · subst hj; simp [hb]
      · simp [hj]

theorem bnode_setColor (d : Dlx I N) (i : Nat) (c : Option Nat) (j : Nat) :
    (d.setColor i c).bnode j =
      if j = i then
        match d.bnode i with
        | Node.Normal inode (NodeType.Body _ tp) =>
            Node.Normal inode (NodeType.Body c tp)
        | b => b
      else d.bnode j := by
  unfold Dlx.setColor
  cases hb : d.bnode i with
  | Boundary nm f l =>
    by_cases hj : j = i
    · subst hj; simp [hb]
    · simp [hj]
  | Normal inode tt =>
    cases tt with
    | Header s =>
      by_cases hj : j = i
      · subst hj; simp [hb]
      · simp [hj]
    | Body c0 tp =>
      rw [bnode_setBody]
      by_cases hj : j = i
      · subst hj
        simp [bnode_lt_length d j inode (NodeType.Body c0 tp) hb, hb]
      · simp [hj]

theorem headers_set_next (d : Dlx I N) (i v : Nat) :
    (d.set_next i v).headers = d.headers := by
  unfold Dlx.set_next; cases d.bnode i <;> rfl

theorem headers_set_prev (d : Dlx I N) (i v : Nat) :
    (d.set_prev i v).headers = d.headers := by
  unfold Dlx.set_prev; cases d.bnode i <;> rfl

theorem headers_decSize (d : Dlx I N) (t : Nat) :
    (d.decSize t).headers = d.headers := by
  unfold Dlx.decSize
  cases hb : d.bnode t with
  | Boundary nm f l => rfl
  | Normal inode tt => cases tt <;> rfl

theorem headers_incSize (d : Dlx I N) (t : Nat) :
    (d.incSize t).headers = d.headers := by
  unfold Dlx.incSize
  cases hb : d.bnode t with
  | Boundary nm f l => rfl
  | Normal inode tt => cases tt <;> rfl

theorem headers_setColor (d : Dlx I N) (i : Nat) (c : Option Nat) :
    (d.setColor i c).headers = d.headers := by
  unfold Dlx.setColor
  cases hb : d.bnode i with
  | Boundary nm f l => rfl
  | Normal inode tt => cases tt <;> rfl

theorem length_set_next (d : Dlx I N) (i v : Nat) :
    (d.set_next i v).body.length = d.body.length := by
  unfold Dlx.set_next
  cases d.bnode i <;> simp [Dlx.setBody]

theorem length_set_prev (d : Dlx I N) (i v : Nat) :
    (d.set_prev i v).body.length = d.body.length := by
  unfold Dlx.set_prev
  cases d.bnode i <;> simp [Dlx.setBody]

theorem length_decSize (d : Dlx I N) (t : Nat) :
    (d.decSize t).body.length = d.body.length := by
  unfold Dlx.decSize
  cases d.bnode t with
  | Boundary nm f l => simp
  | Normal inode tt => cases tt <;> simp [Dlx.setBody]

theorem length_incSize (d : Dlx I N) (t : Nat) :
    (d.incSize t).body.length = d.body.length := by
  unfold Dlx.incSize
  cases d.bnode t with
  | Boundary nm f l => simp
  | Normal inode tt => cases tt <;> simp [Dlx.setBody]

theorem length_setColor (d : Dlx I N) (i : Nat) (c : Option Nat) :
    (d.setColor i c).body.length = d.body.length := by
  unfold Dlx.setColor
  cases d.bnode i with
  | Boundary nm f l => simp
  | Normal inode tt => cases tt <;> simp [Dlx.setBody]

theorem nshape_set_next (d : Dlx I N) (i v j : Nat) :
    nshape ((d.set_next i v).bnode j) = nshape (d.bnode j) := by
  rw [bnode_set_next]
  by_cases hj : j = i
  · subst hj
    simp only [if_pos rfl]
    cases d.bnode j with
    | Boundary nm f l => rfl
    | Normal inode t => cases t <;> rfl
  · simp [hj]

theorem nshape_set_prev (d : Dlx I N) (i v j : Nat) :
    nshape ((d.set_prev i v).bnode j) = nshape (d.bnode j) := by
  rw [bnode_set_prev]
  by_cases hj : j = i
  · subst hj
    simp only [if_pos rfl]
    cases d.bnode j with
    | Boundary nm f l => rfl
    | Normal inode t => cases t <;> rfl
  · simp [hj]

theorem nshape_decSize (d : Dlx I N) (t j : Nat) :
    nshape ((d.decSize t).bnode j) = nshape (d.bnode j) := by
  rw [bnode_decSize]
  by_cases hj : j = t
  · subst hj
    simp only [if_pos rfl]
    cases d.bnode j with
    | Boundary nm f l => rfl
    | Normal inode tt => cases tt <;> simp [nshape]
  · simp [hj]

theorem nshape_incSize (d : Dlx I N) (t j : Nat) :
    nshape ((d.incSize t).bnode j) = nshape (d.bnode j) := by
  rw [bnode_incSize]
  by_cases hj : j = t
  · subst hj
    simp only [if_pos rfl]
    cases d.bnode j with
    | Boundary nm f l => rfl
    | Normal inode tt => cases tt <;> simp [nshape]
  · simp [hj]

theorem nshape_setColor (d : Dlx I N) (i : Nat) (c : Option Nat) (j : Nat) :
    nshape ((d.setColor i c).bnode j) = nshape (d.bnode j) := by
  rw [bnode_setColor]
  by_cases hj : j = i
  · subst hj
    simp only [if_pos rfl]
    cases d.bnode j with
    | Boundary nm f l => rfl
    | Normal inode tt => cases tt <;> rfl
  · simp [hj]

theorem bKind_eq_nshape (d : Dlx I N) (j : Nat) : d.bKind j = (nshape (d.bnode j)).1 := by
  unfold Dlx.bKind nshape
  cases d.bnode j with
  | Boundary nm f l => rfl
  | Normal inode t => cases t <;> rfl

theorem ffpF_eq_nshape (d : Dlx I N) (j : Nat) : d.ffpF j = (nshape (d.bnode j)).2.1 := by
  unfold Dlx.ffpF nshape
  cases d.bnode j with
  | Boundary nm f l => rfl
  | Normal inode t => cases t <;> rfl

theorem lfnF_eq_nshape (d : Dlx I N) (j : Nat) : d.lfnF j = (nshape (d.bnode j)).2.2 := by
  unfold Dlx.lfnF nshape
  cases d.bnode j with
  | Boundary nm f l => rfl
  | Normal inode t => cases t <;> rfl

theorem sameShape_refl (d : Dlx I N) : sameShape d d := ⟨rfl, fun _ => ⟨rfl, rfl, rfl⟩⟩

theorem sameShape_trans {d1 d2 d3 : Dlx I N} (h1 : sameShape d1 d2)
    (h2 : sameShape d2 d3) : sameShape d1 d3 := by
  refine ⟨h1.1.trans h2.1, fun j => ?_⟩
  obtain ⟨a1, b1, c1⟩ := h1.2 j
  obtain ⟨a2, b2, c2⟩ := h2.2 j
  exact ⟨a1.trans a2, b1.trans b2, c1.trans c2⟩

theorem sameShape_of_nshape {d d' : Dlx I N} (hlen : d.body.length = d'.body.length)
    (h : ∀ j, nshape (d'.bnode j) = nshape (d.bnode j)) : sameShape d d' := by
  refine ⟨hlen, fun j => ?_⟩
  rw [bKind_eq_nshape, bKind_eq_nshape, ffpF_eq_nshape, ffpF_eq_nshape,
    lfnF_eq_nshape, lfnF_eq_nshape, h j]
  exact ⟨rfl, rfl, rfl⟩

theorem sameShape_hideCellOp (d : Dlx I N) (q : Nat) :
    sameShape d (d.hideCellOp q) := by
  unfold Dlx.hideCellOp
  split
  · split
    · refine sameShape_of_nshape ?_ ?_
      · rw [length_decSize, length_set_prev, length_set_next]
      · intro j
        rw [nshape_decSize, nshape_set_prev, nshape_set_next]
    · refine sameShape_of_nshape ?_ ?_
      · rw [length_decSize]
      · intro j
        rw [nshape_decSize]
  · exact sameShape_refl d

theorem sameShape_unhideCellOp (d : Dlx I N) (q : Nat) :
    sameShape d (d.unhideCellOp q) := by
  unfold Dlx.unhideCellOp
  split
  · split
    · refine sameShape_of_nshape ?_ ?_
      · rw [length_incSize, length_set_prev, length_set_next]
      · intro j
        rw [nshape_incSize, nshape_set_prev, nshape_set_next]
    · refine sameShape_of_nshape ?_ ?_
      · rw [length_incSize]
      · intro j
        rw [nshape_incSize]
  · exact sameShape_refl d

theorem bnode_boundary_of_kind (d : Dlx I N) (j : Nat) (h : d.bKind j = 0) :
    ∃ nm, d.bnode j = Node.Boundary nm (d.ffpF j) (d.lfnF j) := by
  unfold Dlx.bKind at h
  cases hb : d.bnode j with
  | Boundary nm f l => exact ⟨nm, by simp [Dlx.ffpF, Dlx.lfnF, hb]⟩
  | Normal inode t => rw [hb] at h; cases t <;> simp at h

theorem bnode_body_of_kind (d : Dlx I N) (j : Nat) (h : d.bKind j = 2) :
    ∃ inode c t, d.bnode j = Node.Normal inode (NodeType.Body c t) := by
  unfold Dlx.bKind at h
  cases hb : d.bnode j with
  | Boundary nm f l => rw [hb] at h; simp at h
  | Normal inode t =>
    cases t with
    | Header s => rw [hb] at h; simp at h
    | Body c tp => exact ⟨inode, c, tp, rfl⟩

theorem wrapDecInc (s : Nat) (h : s < USZ) :
    ((s + (USZ - 1)) % USZ + 1) % USZ = s := by
  have hpos : 0 < USZ := by norm_num [USZ]
  rw [Nat.mod_add_mod]
  have h1 : s + (USZ - 1) + 1 = s + USZ := by omega
  rw [h1, Nat.add_mod_right, Nat.mod_eq_of_lt h]

theorem setBody_self (d : Dlx I N) (i : Nat) (n : Node N) (h : d.bnode i = n) :
    d.setBody i n = d := by
  unfold Dlx.setBody
  unfold Dlx.bnode at h
  rw [← h, list_set_getD_self]

theorem setBody_setBody (d : Dlx I N) (i : Nat) (a b : Node N) :
    (d.setBody i a).setBody i b = d.setBody i b := by
  simp [Dlx.setBody, List.set_set]

theorem setBody_comm (d : Dlx I N) {i j : Nat} (a b : Node N) (h : i ≠ j) :
    (d.setBody i a).setBody j b = (d.setBody j b).setBody i a := by
  simp only [Dlx.setBody]
  rw [List.set_comm a b d.body h]

theorem set_next_eq (d : Dlx I N) (i v : Nat) (inode : ListNodeI) (t : NodeType)
    (h : d.bnode i = Node.Normal inode t) :
    d.set_next i v = d.setBody i (Node.Normal ⟨inode.prev, v⟩ t) := by
  unfold Dlx.set_next
  rw [h]

theorem set_prev_eq (d : Dlx I N) (i v : Nat) (inode : ListNodeI) (t : NodeType)
    (h : d.bnode i = Node.Normal inode t) :
    d.set_prev i v = d.setBody i (Node.Normal ⟨v, inode.next⟩ t) := by
  unfold Dlx.set_prev
  rw [h]

theorem set_next_eq_mod (d : Dlx I N) (i v : Nat) :
    d.set_next i v = modLinkOp (fun inode => ⟨inode.prev, v⟩) d i := by
  unfold Dlx.set_next modLinkOp
  cases d.bnode i <;> rfl

theorem set_prev_eq_mod (d : Dlx I N) (i v : Nat) :
    d.set_prev i v = modLinkOp (fun inode => ⟨v, inode.next⟩) d i := by
  unfold Dlx.set_prev modLinkOp
  cases d.bnode i <;> rfl

theorem decSize_eq_mod (d : Dlx I N) (t : Nat) :
    d.decSize t = modSizeOp (fun s => (s + (USZ - 1)) % USZ) d t := by
  unfold Dlx.decSize modSizeOp
  cases hb : d.bnode t with
  | Boundary nm f l => rfl
  | Normal inode tt => cases tt <;> rfl

theorem incSize_eq_mod (d : Dlx I N) (t : Nat) :
    d.incSize t = modSizeOp (fun s => (s + 1) % USZ) d t := by
  unfold Dlx.incSize modSizeOp
  cases hb : d.bnode t with
  | Boundary nm f l => rfl
  | Normal inode tt => cases tt <;> rfl

theorem modSizeOp_bnode_ne (gs : Nat → Nat) (d : Dlx I N) (t j : Nat) (h : j ≠ t) :
    (modSizeOp gs d t).bnode j = d.bnode j := by
  unfold modSizeOp
  cases hb : d.bnode t with
  | Boundary nm f l => rfl
  | Normal inode tt =>
    cases tt with
    | Header s =>
      rw [bnode_setBody]
      simp [h]
    | Body c tp => rfl

theorem modLinkOp_bnode_ne (gl : ListNodeI → ListNodeI) (d : Dlx I N) (i j : Nat)
    (h : j ≠ i) : (modLinkOp gl d i).bnode j = d.bnode j := by
  unfold modLinkOp
  cases hb : d.bnode i with
  | Boundary nm f l => rfl
  | Normal inode tt =>
    rw [bnode_setBody]
    simp [h]

theorem modSize_modLink_comm (gs : Nat → Nat) (gl : ListNodeI → ListNodeI)
    (d : Dlx I N) (i t : Nat) :
    modSizeOp gs (modLinkOp gl d i) t = modLinkOp gl (modSizeOp gs d t) i := by
  by_cases hit : t = i
  · subst hit
    cases hb : d.bnode t with
    | Boundary nm f l =>
      have e1 : modLinkOp gl d t = d := by unfold modLinkOp; rw [hb]
      have e2 : modSizeOp gs d t = d := by unfold modSizeOp; rw [hb]
      rw [e1, e2, e1]
    | Normal inode tt =>
      cases tt with
      | Header s =>
        have hlt := bnode_lt_length d t inode (NodeType.Header s) hb
        have e1 : modLinkOp gl d t =
            d.setBody t (Node.Normal (gl inode) (NodeType.Header s)) := by
          unfold modLinkOp; rw [hb]
        have e2 : modSizeOp gs d t =
            d.setBody t (Node.Normal inode (NodeType.Header (gs s))) := by
          unfold modSizeOp; rw [hb]
        have h1 : (d.setBody t (Node.Normal (gl inode) (NodeType.Header s))).bnode t =
            Node.Normal (gl inode) (NodeType.Header s) := by
          rw [bnode_setBody]; simp [hlt]
        have h2 : (d.setBody t (Node.Normal inode (NodeType.Header (gs s)))).bnode t =
            Node.Normal inode (NodeType.Header (gs s)) := by
          rw [bnode_setBody]; simp [hlt]
        rw [e1, e2]
        rw [show modSizeOp gs (d.setBody t (Node.Normal (gl inode) (NodeType.Header s))) t =
            (d.setBody t (Node.Normal (gl inode) (NodeType.Header s))).setBody t
              (Node.Normal (gl inode) (NodeType.Header (gs s)))
          from by unfold modSizeOp; rw [h1]]
        rw [show modLinkOp gl (d.setBody t (Node.Normal inode (NodeType.Header (gs s)))) t =
            (d.setBody t (Node.Normal inode (NodeType.Header (gs s)))).setBody t
              (Node.Normal (gl inode) (NodeType.Header (gs s)))
          from by unfold modLinkOp; rw [h2]]
        rw [setBody_setBody, setBody_setBody]
      | Body c tp =>
        have hlt := bnode_lt_length d t inode (NodeType.Body c tp) hb
        have e1 : modLinkOp gl d t =
            d.setBody t (Node.Normal (gl inode) (NodeType.Body c tp)) := by
          unfold modLinkOp; rw [hb]
        have e2 : modSizeOp gs d t = d := by unfold modSizeOp; rw [hb]
        have h1 : (d.setBody t (Node.Normal (gl inode) (NodeType.Body c tp))).bnode t =
            Node.Normal (gl inode) (NodeType.Body c tp) := by
          rw [bnode_setBody]; simp [hlt]
        rw [e1, e2, e1]
        rw [show modSizeOp gs (d.setBody t (Node.Normal (gl inode) (NodeType.Body c tp))) t =
            d.setBody t (Node.Normal (gl inode) (NodeType.Body c tp))
          from by unfold modSizeOp; rw [h1]]
  · cases hb : d.bnode i with
    | Boundary nm f l =>
      have hne : i ≠ t := fun hh => hit hh.symm
      have e1 : modLinkOp gl d i = d := by unfold modLinkOp; rw [hb]
      have e2 : modLinkOp gl (modSizeOp gs d t) i = modSizeOp gs d t := by
        unfold modLinkOp
        rw [modSizeOp_bnode_ne gs d t i hne, hb]
      rw [e1, e2]
    | Normal inode tt =>
      have hne : i ≠ t := fun hh => hit hh.symm
      have e1 : modLinkOp gl d i = d.setBody i (Node.Normal (gl inode) tt) := by
        unfold modLinkOp; rw [hb]
      have e2 : modLinkOp gl (modSizeOp gs d t) i =
          (modSizeOp gs d t).setBody i (Node.Normal (gl inode) tt) := by
        unfold modLinkOp
        rw [modSizeOp_bnode_ne gs d t i hne, hb]
      rw [e1, e2]
      cases hbt : d.bnode t with
      | Boundary nm f l =>
        have e3 : modSizeOp gs d t = d := by unfold modSizeOp; rw [hbt]
        have e4 : modSizeOp gs (d.setBody i (Node.Normal (gl inode) tt)) t =
            d.setBody i (Node.Normal (gl inode) tt) := by
          unfold modSizeOp
          rw [show (d.setBody i (Node.Normal (gl inode) tt)).bnode t = d.bnode t from by
            rw [bnode_setBody]; simp [hit], hbt]
        rw [e3, e4]
      | Normal ti ts =>
        cases ts with
        | Header s =>
          have e3 : modSizeOp gs d t =
              d.setBody t (Node.Normal ti (NodeType.Header (gs s))) := by
            unfold modSizeOp; rw [hbt]
          have e4 : modSizeOp gs (d.setBody i (Node.Normal (gl inode) tt)) t =
              (d.setBody i (Node.Normal (gl inode) tt)).setBody t
                (Node.Normal ti (NodeType.Header (gs s))) := by
            unfold modSizeOp
            rw [show (d.setBody i (Node.Normal (gl inode) tt)).bnode t = d.bnode t from by
              rw [bnode_setBody]; simp [hit], hbt]
          rw [e3, e4]
          exact setBody_comm d _ _ hne
        | Body c tp =>
          have e3 : modSizeOp gs d t = d := by unfold modSizeOp; rw [hbt]
          have e4 : modSizeOp gs (d.setBody i (Node.Normal (gl inode) tt)) t =
              d.setBody i (Node.Normal (gl inode) tt) := by
            unfold modSizeOp
            rw [show (d.setBody i (Node.Normal (gl inode) tt)).bnode t = d.bnode t from by
              rw [bnode_setBody]; simp [hit], hbt]
          rw [e3, e4]

theorem decSize_set_next_comm (d : Dlx I N) (i v t : Nat) :
    (d.set_next i v).decSize t = (d.decSize t).set_next i v := by
  rw [set_next_eq_mod, set_next_eq_mod, decSize_eq_mod, decSize_eq_mod,
    modSize_modLink_comm]

theorem decSize_set_prev_comm (d : Dlx I N) (i v t : Nat) :
    (d.set_prev i v).decSize t = (d.decSize t).set_prev i v := by
  rw [set_prev_eq_mod, set_prev_eq_mod, decSize_eq_mod, decSize_eq_mod,
    modSize_modLink_comm]

theorem incSize_set_next_comm (d : Dlx I N) (i v t : Nat) :
    (d.set_next i v).incSize t = (d.incSize t).set_next i v := by
  rw [set_next_eq_mod, set_next_eq_mod, incSize_eq_mod, incSize_eq_mod,
    modSize_modLink_comm]

theorem incSize_set_prev_comm (d : Dlx I N) (i v t : Nat) :
    (d.set_prev i v).incSize t = (d.incSize t).set_prev i v := by
  rw [set_prev_eq_mod, set_prev_eq_mod, incSize_eq_mod, incSize_eq_mod,
    modSize_modLink_comm]

theorem partItems_perm (items : List (I × HeaderType)) :
    (partItems items).Perm items := by
  unfold partItems
  rw [List.partition_eq_filter_filter]
  have h := List.filter_append_perm isPrimaryPair items
  simpa [Function.comp] using h

theorem hmod_node_headerType (hs : List (Header I)) (j : Nat)
    (g : Header I → ListNodeI) (k : Nat) :
    ((hmod hs j (fun h => { h with node := g h })).getD k hdrD).header_type =
      (hs.getD k hdrD).header_type :=
  hmod_headerType hs j (fun h => { h with node := g h }) (fun _ => rfl) k

theorem buildHeaders_headerType (headers1 : List (Header I)) (p : Nat) (k : Nat)
    (hk : k < headers1.length) :
    ((buildHeaders headers1 p).getD k hdrD).header_type =
      (headers1.getD k hdrD).header_type := by
  simp only [buildHeaders]
  rw [hmod_node_headerType, hmod_node_headerType, hmod_node_headerType,
    hmod_node_headerType, List.getD_append _ _ _ _ hk]

theorem constraintOk_iff_spec [DecidableEq I] (items : List (I × HeaderType))
    (r : List (Header I) × List (I × Nat) × List (Node N))
    (h1 : addItemsLoop (partItems items) 0 (initHs, [], initB) = Except.ok r)
    (hnd : ((partItems items).map Prod.fst).Nodup) (c : Constraint I) :
    constraintOk r.2.1 (buildHeaders r.1 (plen32Of items)) c ↔
      ∃ it ∈ items, it.1 = Constraint.item c ∧ kindMatches it.2 c = true := by
  obtain ⟨hA, hB, hC, hD, hE⟩ :=
    addItemsLoop_ok_spec (partItems items) 0 initHs [] initB r h1 (by simp [initHs])
  have htype6 : ∀ k, k < r.1.length →
      ((buildHeaders r.1 (plen32Of items)).getD k hdrD).header_type =
        (r.1.getD k hdrD).header_type := by
    intro k hk
    exact buildHeaders_headerType r.1 (plen32Of items) k hk
  have hperm := partItems_perm items
  constructor
  · rintro ⟨k, hlook, hkind⟩
    rcases hC _ _ hlook with hfalse | ⟨ht, hmem, hk1, hk2, hk3, _⟩
    · simp [alookup] at hfalse
    · rw [htype6 k hk2, hk3] at hkind
      exact ⟨(Constraint.item c, ht), hperm.mem_iff.mp hmem, rfl, hkind⟩
  · rintro ⟨it, hmem, hit, hkm⟩
    obtain ⟨i, ht⟩ := it
    simp only at hit hkm
    subst hit
    have hsome := hD (Constraint.item c, ht) (hperm.mem_iff.mpr hmem)
    rw [Option.isSome_iff_exists] at hsome
    obtain ⟨k, hk⟩ := hsome
    rcases hC _ _ hk with hfalse | ⟨ht', hmem', hk1, hk2, hk3, _⟩
    · simp [alookup] at hfalse
    · refine ⟨k, hk, ?_⟩
      have hht : ht' = ht := pairMem_unique hnd hmem' (hperm.mem_iff.mpr hmem)
      rw [htype6 k hk2, hk3, hht]
      exact hkm

theorem construct_ok_iff [DecidableEq I] [DecidableEq N]
    (items : List (I × HeaderType)) (subsets : List (N × List (Constraint I))) :
    (∃ g, construct items subsets = Except.ok g) ↔ specValidInput items subsets := by
  have hperm := partItems_perm items
  have hpermf := hperm.map Prod.fst
  constructor
  · rintro ⟨g, hg⟩
    unfold construct at hg
    split at hg
    · exact absurd hg (by simp)
    · next hs1 im b1 heq =>
      simp only [] at hg
      split at hg
      · exact absurd hg (by simp)
      · next b3 heq2 =>
        have hstage1 := (addItemsLoop_ok_iff (partItems items) 0 initHs [] initB).mp
          ⟨(hs1, im, b1), heq⟩
        have hplnd : ((partItems items).map Prod.fst).Nodup := hstage1.1
        have hstage2 := (addSubsets_ok_iff im (buildHeaders hs1 (plen32Of items))
          subsets [] (b1 ++ [Node.Boundary none 0 0])).mp ⟨b3, heq2⟩
        refine ⟨hpermf.nodup_iff.mp hplnd, hstage2.2.1, ?_⟩
        intro s hsm c hc
        have hcok := hstage2.2.2 s hsm c hc
        have hiff := constraintOk_iff_spec items (hs1, im, b1) heq hplnd c
        obtain ⟨it, hmem, hit, hkm⟩ := hiff.mp hcok
        exact ⟨it, hmem, hit, (kindMatches_iff it.2 c).mp hkm⟩
  · rintro ⟨hndI, hndN, hdecl⟩
    have hplnd : ((partItems items).map Prod.fst).Nodup := hpermf.nodup_iff.mpr hndI
    obtain ⟨r, h1⟩ := (addItemsLoop_ok_iff (partItems items) 0 initHs [] (initB : List (Node N))).mpr
      ⟨hplnd, fun p _ => rfl⟩
    obtain ⟨hs1, im, b1⟩ := r
    have hcok : ∀ s ∈ subsets, ∀ c ∈ s.2,
        constraintOk im (buildHeaders hs1 (plen32Of items)) c := by
      intro s hsm c hc
      rw [constraintOk_iff_spec items (hs1, im, b1) h1 hplnd c]
      obtain ⟨it, hmem, hit, hkm⟩ := hdecl s hsm c hc
      exact ⟨it, hmem, hit, (kindMatches_iff it.2 c).mpr hkm⟩
    obtain ⟨b3, h2⟩ := (addSubsets_ok_iff im (buildHeaders hs1 (plen32Of items))
      subsets [] (b1 ++ [Node.Boundary none 0 0])).mpr ⟨by simp, hndN, hcok⟩
    refine ⟨⟨((buildHeaders hs1 (plen32Of items)).getD 0 hdrD).node.prev,
      buildHeaders hs1 (plen32Of items), b3⟩, ?_⟩
    unfold construct
    rw [h1]
    simp only []
    rw [h2]

theorem construct_error_defect [DecidableEq I] [DecidableEq N]
    (items : List (I × HeaderType)) (subsets : List (N × List (Constraint I)))
    (e : ConstructError) (h : construct items subsets = Except.error e) :
    (e = ConstructError.DuplicateItem → ¬(items.map Prod.fst).Nodup) ∧
    (e = ConstructError.DuplicateSubsetName → ¬(subsets.map Prod.fst).Nodup) ∧
    (e = ConstructError.UnknownItem →
      ∃ s ∈ subsets, ∃ c ∈ s.2, ∀ it ∈ items, it.1 ≠ Constraint.item c) ∧
    (e = ConstructError.KindMismatch →
      ∃ s ∈ subsets, ∃ c ∈ s.2, ∃ it ∈ items, it.1 = Constraint.item c ∧
        kindMatches it.2 c = false) := by
  have hperm := partItems_perm items
  have hpermf := hperm.map Prod.fst
  unfold construct at h
  split at h
  · next e' heq =>
    have he : e' = e := by
      simpa using h
    subst he
    have hdup := addItemsLoop_error_dup (partItems items) 0 initHs [] initB e' heq
    subst hdup
    refine ⟨?_, (by intro hcontra; cases hcontra), (by intro hcontra; cases hcontra),
      (by intro hcontra; cases hcontra)⟩
    intro _ hndI
    have hplnd : ((partItems items).map Prod.fst).Nodup := hpermf.nodup_iff.mpr hndI
    obtain ⟨r, hok⟩ := (addItemsLoop_ok_iff (partItems items) 0 initHs [] (initB : List (Node N))).mpr
      ⟨hplnd, fun p _ => rfl⟩
    rw [heq] at hok
    exact absurd hok (by simp)
  · next hs1 im b1 heq =>
    simp only [] at h
    split at h
    · next e' heq2 =>
      have he : e' = e := by simpa using h
      subst he
      obtain ⟨hA, hB, hC, hD, hE⟩ :=
        addItemsLoop_ok_spec (partItems items) 0 initHs [] initB (hs1, im, b1) heq
          (by simp [initHs])
      rcases addSubsets_error im (buildHeaders hs1 (plen32Of items)) subsets []
          (b1 ++ [Node.Boundary none 0 0]) e' heq2 with
        ⟨he', hdef⟩ | ⟨he', s, hsm, c, hc, hdef⟩ | ⟨he', s, hsm, c, hc, k, hk, hdef⟩
      · subst he'
        refine ⟨(by intro hcontra; cases hcontra), ?_, (by intro hcontra; cases hcontra),
          (by intro hcontra; cases hcontra)⟩
        intro _ hndN
        exact hdef ⟨by simp, hndN⟩
      · subst he'
        refine ⟨(by intro hcontra; cases hcontra), (by intro hcontra; cases hcontra), ?_,
          (by intro hcontra; cases hcontra)⟩
        intro _
        refine ⟨s, hsm, c, hc, ?_⟩
        intro it hmem hcontra
        have hsome := hD (Constraint.item c, it.2)
          (hperm.mem_iff.mpr (by rw [← hcontra]; exact hmem))
        rw [hdef] at hsome
        exact absurd hsome (by simp)
      · subst he'
        refine ⟨(by intro hcontra; cases hcontra), (by intro hcontra; cases hcontra),
          (by intro hcontra; cases hcontra), ?_⟩
        intro _
        refine ⟨s, hsm, c, hc, ?_⟩
        rcases hC _ _ hk with hfalse | ⟨ht, hmem, hk1, hk2, hk3, _⟩
        · simp [alookup] at hfalse
        · refine ⟨(Constraint.item c, ht), hperm.mem_iff.mp hmem, rfl, ?_⟩
          rw [buildHeaders_headerType hs1 (plen32Of items) k hk2, hk3] at hdef
          exact hdef
    · exact absurd h (by simp)

/-- C3: grid construction either produces a grid or aborts with one of the
four construction errors: it succeeds exactly on valid inputs (unique item
identifiers, unique subset names, every constraint referencing a declared
item of matching kind), and each error names a defect actually present —
DuplicateItem a repeated item identifier, DuplicateSubsetName a repeated
subset name, UnknownItem a constraint on an undeclared item, KindMismatch a
constraint whose primary/secondary kind differs from its item's declared
kind; on every invalid input some error is returned and no grid is
produced. -/
theorem C3_construct_validation [DecidableEq I] [DecidableEq N]
    (items : List (I × HeaderType)) (subsets : List (N × List (Constraint I))) :
    ((∃ g, construct items subsets = Except.ok g) ↔ specValidInput items subsets) ∧
    (¬specValidInput items subsets → ∃ e, construct items subsets = Except.error e) ∧
    (∀ e, construct items subsets = Except.error e →
      (e = ConstructError.DuplicateItem → ¬(items.map Prod.fst).Nodup) ∧
      (e = ConstructError.DuplicateSubsetName → ¬(subsets.map Prod.fst).Nodup) ∧
      (e = ConstructError.UnknownItem →
        ∃ s ∈ subsets, ∃ c ∈ s.2, ∀ it ∈ items, it.1 ≠ Constraint.item c) ∧
      (e = ConstructError.KindMismatch →
        ∃ s ∈ subsets, ∃ c ∈ s.2, ∃ it ∈ items, it.1 = Constraint.item c ∧
          kindMatches it.2 c = false)) := by
  refine ⟨construct_ok_iff items subsets, ?_, ?_⟩
  · intro hnv
    cases hc : construct items subsets with
    | error e => exact ⟨e, rfl⟩
    | ok g =>
      exact absurd ((construct_ok_iff items subsets).mp ⟨g, hc⟩) hnv
  · intro e he
    exact construct_error_defect items subsets e he

/-- Witness for C3: a concrete valid input constructs, and each concrete
defective input aborts with the matching error. -/
theorem C3_construct_validation_witness :
    (∃ g, construct [(1, HeaderType.Primary)] [(0, [Constraint.Primary 1])] =
      Except.ok (g : Dlx Nat Nat)) ∧
    (∃ e, construct [(1, HeaderType.Primary), (1, HeaderType.Secondary)]
      ([] : List (Nat × List (Constraint Nat))) = Except.error e) := by
  constructor
  · exact (C3_construct_validation [(1, HeaderType.Primary)]
      [(0, [Constraint.Primary 1])]).1.mpr (by
        refine ⟨by decide, by decide, ?_⟩
        intro s hs c hc
        simp at hs
        subst hs
        simp at hc
        subst hc
        exact ⟨(1, HeaderType.Primary), by simp, rfl, by simp⟩)
  · exact (C3_construct_validation [(1, HeaderType.Primary), (1, HeaderType.Secondary)]
      ([] : List (Nat × List (Constraint Nat)))).2.1 (by
        rintro ⟨hnd, _⟩
        simp at hnd)

/-- C7 counterexample: at the third yield of the stepwise driver on the
two-solutions input, the selection stack is [13, 6] — both entries are body
cells, so the stack does not alternate header-index, body-index, and the
first element of the yielded solution is not the primary header chosen at
that depth. -/
theorem C7_stack_alternation_cex :
    (stepwiseNext (stepwiseIterate 2 (Explorer.init twoSolD))).2 =
      some (StepwiseDlxIterResult.Solution [13, 6]) ∧
    twoSolD.isBody 13 = true ∧ twoSolD.isBody 6 = true ∧
    twoSolD.isHeaderCell 13 = false := by
  decide


theorem set_next_eq2 (d : Dlx I N) (i v a b : Nat) (t : NodeType)
    (h : d.bnode i = Node.Normal ⟨a, b⟩ t) :
    d.set_next i v = d.setBody i (Node.Normal ⟨a, v⟩ t) := by
  unfold Dlx.set_next
  rw [h]

theorem set_prev_eq2 (d : Dlx I N) (i v a b : Nat) (t : NodeType)
    (h : d.bnode i = Node.Normal ⟨a, b⟩ t) :
    d.set_prev i v = d.setBody i (Node.Normal ⟨v, b⟩ t) := by
  unfold Dlx.set_prev
  rw [h]

theorem hideCellOp_eq2 (d : Dlx I N) (q a b : Nat) (color : Option Nat) (top : Nat)
    (hq : d.bnode q = Node.Normal ⟨a, b⟩ (NodeType.Body color top)) :
    d.hideCellOp q =
      if d.isPrimary top || color.isSome then
        ((d.set_next a b).set_prev b a).decSize top
      else d.decSize top := by
  unfold Dlx.hideCellOp
  rw [hq]

theorem unhideCellOp_eq2 (d : Dlx I N) (q a b : Nat) (color : Option Nat) (top : Nat)
    (hq : d.bnode q = Node.Normal ⟨a, b⟩ (NodeType.Body color top)) :
    d.unhideCellOp q =
      if d.isPrimary top || color.isSome then
        ((d.set_next a q).set_prev b q).incSize top
      else d.incSize top := by
  unfold Dlx.unhideCellOp
  rw [hq]

theorem isPrimary_decSize (d : Dlx I N) (t j : Nat) :
    (d.decSize t).isPrimary j = d.isPrimary j := by
  unfold Dlx.isPrimary Dlx.header
  rw [headers_decSize]

theorem isPrimary_setBody (d : Dlx I N) (i : Nat) (n : Node N) (j : Nat) :
    (d.setBody i n).isPrimary j = d.isPrimary j := by
  unfold Dlx.isPrimary Dlx.header
  rw [headers_setBody]

theorem incSize_decSize (d : Dlx I N) (t : Nat) (ti : ListNodeI) (s : Nat)
    (hb : d.bnode t = Node.Normal ti (NodeType.Header s)) (hs : s < USZ) :
    (d.decSize t).incSize t = d := by
  have hlt := bnode_lt_length d t ti _ hb
  have e1 : d.decSize t =
      d.setBody t (Node.Normal ti (NodeType.Header ((s + (USZ - 1)) % USZ))) := by
    unfold Dlx.decSize
    rw [hb]
  have h1 : (d.decSize t).bnode t =
      Node.Normal ti (NodeType.Header ((s + (USZ - 1)) % USZ)) := by
    rw [e1, bnode_setBody, if_pos ⟨rfl, hlt⟩]
  have e2 : (d.decSize t).incSize t =
      (d.decSize t).setBody t
        (Node.Normal ti (NodeType.Header (((s + (USZ - 1)) % USZ + 1) % USZ))) := by
    unfold Dlx.incSize
    rw [h1]
  rw [e2, wrapDecInc s hs, e1, setBody_setBody]
  exact setBody_self d t _ hb

theorem unhideCellOp_hideCellOp (avoid : List Nat) (d : Dlx I N) (q : Nat)
    (h : hideCellAvoidOkB avoid d q = true) :
    (d.hideCellOp q).unhideCellOp q = d := by
  cases hq : d.bnode q with
  | Boundary nm f l =>
    unfold hideCellAvoidOkB at h
    rw [hq] at h
    simp at h
  | Normal inode tt =>
    cases tt with
    | Header s =>
      unfold hideCellAvoidOkB at h
      rw [hq] at h
      simp at h
    | Body color top =>
      obtain ⟨ia, ib⟩ := inode
      unfold hideCellAvoidOkB at h
      rw [hq] at h
      simp only [Bool.and_eq_true] at h
      obtain ⟨h1, h2⟩ := h
      cases htop : d.bnode top with
      | Boundary nm f l =>
        rw [htop] at h1
        simp at h1
      | Normal ti ts =>
        cases ts with
        | Body c2 t2 =>
          rw [htop] at h1
          simp at h1
        | Header s =>
          rw [htop] at h1
          have hsz : s < USZ := by simpa using h1
          have hqt : q ≠ top := by
            intro e
            rw [e, htop] at hq
            simp at hq
          by_cases hg : (d.isPrimary top || Option.isSome color) = true
          · rw [if_pos hg] at h2
            simp only [Bool.and_eq_true] at h2
            have hA := h2.1.1.1
            have hB := h2.1.1.2
            cases hP : d.bnode ia with
            | Boundary nm f l =>
              rw [hP] at hA
              simp at hA
            | Normal pn tp =>
              rw [hP] at hA
              obtain ⟨pa, pb⟩ := pn
              have hpq : pb = q := by simpa using hA
              rw [hpq] at hP
              cases hN : d.bnode ib with
              | Boundary nm f l =>
                rw [hN] at hB
                simp at hB
              | Normal nx tn =>
                rw [hN] at hB
                obtain ⟨na, nb⟩ := nx
                have hnq : na = q := by simpa using hB
                rw [hnq] at hN
                by_cases hiaq : ia = q
                · rw [hiaq] at hq hP
                  rw [hq] at hP
                  injection hP with hP1 hP2
                  injection hP1 with hP1a hP1b
                  rw [hP1b] at hq
                  rw [hideCellOp_eq2 d q q q color top hq, if_pos hg]
                  have es1 : d.set_next q q = d := by
                    rw [set_next_eq2 d q q q q _ hq]
                    exact setBody_self d q _ hq
                  have es2 : d.set_prev q q = d := by
                    rw [set_prev_eq2 d q q q q _ hq]
                    exact setBody_self d q _ hq
                  rw [es1, es2]
                  have hbq : (d.decSize top).bnode q =
                      Node.Normal ⟨q, q⟩ (NodeType.Body color top) := by
                    rw [bnode_decSize, if_neg hqt]
                    exact hq
                  rw [unhideCellOp_eq2 (d.decSize top) q q q color top hbq,
                    if_pos (show ((d.decSize top).isPrimary top ||
                        Option.isSome color) = true from by
                      rw [isPrimary_decSize]
                      exact hg)]
                  have es3 : (d.decSize top).set_next q q = d.decSize top := by
                    rw [set_next_eq2 (d.decSize top) q q q q _ hbq]
                    exact setBody_self (d.decSize top) q _ hbq
                  have es4 : (d.decSize top).set_prev q q = d.decSize top := by
                    rw [set_prev_eq2 (d.decSize top) q q q q _ hbq]
                    exact setBody_self (d.decSize top) q _ hbq
                  rw [es3, es4]
                  exact incSize_decSize d top ti s htop hsz
                · have hibq : ib ≠ q := by
                    intro e
                    rw [e] at hN
                    rw [hq] at hN
                    injection hN with hN1 hN2
                    injection hN1 with hN1a hN1b
                    exact hiaq hN1a
                  by_cases hab : ia = ib
                  · rw [hab] at hq hP
                    rw [hP] at hN
                    injection hN with hh1 hh2
                    injection hh1 with ha hb
                    rw [ha] at hP
                    have hlenb : ib < d.body.length :=
                      bnode_lt_length d ib _ _ hP
                    rw [hideCellOp_eq2 d q ib ib color top hq, if_pos hg]
                    have e1 : d.set_next ib ib =
                        d.setBody ib (Node.Normal ⟨q, ib⟩ tp) :=
                      set_next_eq2 d ib ib q q tp hP
                    have hb1 : (d.setBody ib (Node.Normal ⟨q, ib⟩ tp)).bnode ib =
                        Node.Normal ⟨q, ib⟩ tp := by
                      rw [bnode_setBody, if_pos ⟨rfl, hlenb⟩]
                    have e2 : (d.setBody ib (Node.Normal ⟨q, ib⟩ tp)).set_prev ib ib =
                        (d.setBody ib (Node.Normal ⟨q, ib⟩ tp)).setBody ib
                          (Node.Normal ⟨ib, ib⟩ tp) :=
                      set_prev_eq2 _ ib ib q ib tp hb1
                    rw [e1, e2, setBody_setBody]
                    have hbq : ((d.setBody ib (Node.Normal ⟨ib, ib⟩ tp)).decSize top).bnode q =
                        Node.Normal ⟨ib, ib⟩ (NodeType.Body color top) := by
                      rw [bnode_decSize, if_neg hqt, bnode_setBody,
                        if_neg (fun hc => hibq hc.1.symm)]
                      exact hq
                    rw [unhideCellOp_eq2 _ q ib ib color top hbq,
                      if_pos (show (((d.setBody ib (Node.Normal ⟨ib, ib⟩ tp)).decSize top).isPrimary top ||
                          Option.isSome color) = true from by
                        rw [isPrimary_decSize, isPrimary_setBody]
                        exact hg)]
                    rw [← decSize_set_next_comm (d.setBody ib (Node.Normal ⟨ib, ib⟩ tp)) ib q top]
                    rw [← decSize_set_prev_comm ((d.setBody ib (Node.Normal ⟨ib, ib⟩ tp)).set_next ib q) ib q top]
                    have hbW : (d.setBody ib (Node.Normal ⟨ib, ib⟩ tp)).bnode ib =
                        Node.Normal ⟨ib, ib⟩ tp := by
                      rw [bnode_setBody, if_pos ⟨rfl, hlenb⟩]
                    have e4 : (d.setBody ib (Node.Normal ⟨ib, ib⟩ tp)).set_next ib q =
                        (d.setBody ib (Node.Normal ⟨ib, ib⟩ tp)).setBody ib
                          (Node.Normal ⟨ib, q⟩ tp) :=
                      set_next_eq2 _ ib q ib ib tp hbW
                    rw [e4, setBody_setBody]
                    have hb5 : (d.setBody ib (Node.Normal ⟨ib, q⟩ tp)).bnode ib =
                        Node.Normal ⟨ib, q⟩ tp := by
                      rw [bnode_setBody, if_pos ⟨rfl, hlenb⟩]
                    have e6 : (d.setBody ib (Node.Normal ⟨ib, q⟩ tp)).set_prev ib q =
                        (d.setBody ib (Node.Normal ⟨ib, q⟩ tp)).setBody ib
                          (Node.Normal ⟨q, q⟩ tp) :=
                      set_prev_eq2 _ ib q ib q tp hb5
                    rw [e6, setBody_setBody, setBody_self d ib (Node.Normal ⟨q, q⟩ tp) hP]
                    exact incSize_decSize d top ti s htop hsz
                  · have hlena : ia < d.body.length := bnode_lt_length d ia _ _ hP
                    have hlenb : ib < d.body.length := bnode_lt_length d ib _ _ hN
                    rw [hideCellOp_eq2 d q ia ib color top hq, if_pos hg]
                    have f1 : d.set_next ia ib =
                        d.setBody ia (Node.Normal ⟨pa, ib⟩ tp) :=
                      set_next_eq2 d ia ib pa q tp hP
                    have hbf1 : (d.setBody ia (Node.Normal ⟨pa, ib⟩ tp)).bnode ib =
                        Node.Normal ⟨q, nb⟩ tn := by
                      rw [bnode_setBody, if_neg (fun hc => hab hc.1.symm)]
                      exact hN
                    have f2 : (d.setBody ia (Node.Normal ⟨pa, ib⟩ tp)).set_prev ib ia =
                        (d.setBody ia (Node.Normal ⟨pa, ib⟩ tp)).setBody ib
                          (Node.Normal ⟨ia, nb⟩ tn) :=
                      set_prev_eq2 _ ib ia q nb tn hbf1
                    rw [f1, f2]
                    have hbq : (((d.setBody ia (Node.Normal ⟨pa, ib⟩ tp)).setBody ib
                          (Node.Normal ⟨ia, nb⟩ tn)).decSize top).bnode q =
                        Node.Normal ⟨ia, ib⟩ (NodeType.Body color top) := by
                      rw [bnode_decSize, if_neg hqt, bnode_setBody,
                        if_neg (fun hc => hibq hc.1.symm), bnode_setBody,
                        if_neg (fun hc => hiaq hc.1.symm)]
                      exact hq
                    rw [unhideCellOp_eq2 _ q ia ib color top hbq,
                      if_pos (show ((((d.setBody ia (Node.Normal ⟨pa, ib⟩ tp)).setBody ib
                            (Node.Normal ⟨ia, nb⟩ tn)).decSize top).isPrimary top ||
                          Option.isSome color) = true from by
                        rw [isPrimary_decSize, isPrimary_setBody, isPrimary_setBody]
                        exact hg)]
                    rw [← decSize_set_next_comm ((d.setBody ia (Node.Normal ⟨pa, ib⟩ tp)).setBody ib
                      (Node.Normal ⟨ia, nb⟩ tn)) ia q top]
                    rw [← decSize_set_prev_comm (((d.setBody ia (Node.Normal ⟨pa, ib⟩ tp)).setBody ib
                      (Node.Normal ⟨ia, nb⟩ tn)).set_next ia q) ib q top]
                    have hbV : ((d.setBody ia (Node.Normal ⟨pa, ib⟩ tp)).setBody ib
                        (Node.Normal ⟨ia, nb⟩ tn)).bnode ia =
                        Node.Normal ⟨pa, ib⟩ tp := by
                      rw [bnode_setBody, if_neg (fun hc => hab hc.1), bnode_setBody,
                        if_pos ⟨rfl, hlena⟩]
                    have g1 : ((d.setBody ia (Node.Normal ⟨pa, ib⟩ tp)).setBody ib
                        (Node.Normal ⟨ia, nb⟩ tn)).set_next ia q =
                        ((d.setBody ia (Node.Normal ⟨pa, ib⟩ tp)).setBody ib
                          (Node.Normal ⟨ia, nb⟩ tn)).setBody ia
                          (Node.Normal ⟨pa, q⟩ tp) :=
                      set_next_eq2 _ ia q pa ib tp hbV
                    have g2 : ((d.setBody ia (Node.Normal ⟨pa, ib⟩ tp)).setBody ib
                        (Node.Normal ⟨ia, nb⟩ tn)).setBody ia
                        (Node.Normal ⟨pa, q⟩ tp) =
                        d.setBody ib (Node.Normal ⟨ia, nb⟩ tn) := by
                      rw [setBody_comm (d.setBody ia (Node.Normal ⟨pa, ib⟩ tp))
                        (Node.Normal ⟨ia, nb⟩ tn) (Node.Normal ⟨pa, q⟩ tp)
                        (fun hc => hab hc.symm), setBody_setBody,
                        setBody_self d ia (Node.Normal ⟨pa, q⟩ tp) hP]
                    rw [g1, g2]
                    have hb6 : (d.setBody ib (Node.Normal ⟨ia, nb⟩ tn)).bnode ib =
                        Node.Normal ⟨ia, nb⟩ tn := by
                      rw [bnode_setBody, if_pos ⟨rfl, hlenb⟩]
                    have g3 : (d.setBody ib (Node.Normal ⟨ia, nb⟩ tn)).set_prev ib q =
                        (d.setBody ib (Node.Normal ⟨ia, nb⟩ tn)).setBody ib
                          (Node.Normal ⟨q, nb⟩ tn) :=
                      set_prev_eq2 _ ib q ia nb tn hb6
                    rw [g3, setBody_setBody, setBody_self d ib (Node.Normal ⟨q, nb⟩ tn) hN]
                    exact incSize_decSize d top ti s htop hsz
          · rw [hideCellOp_eq2 d q ia ib color top hq, if_neg hg]
            have hbq : (d.decSize top).bnode q =
                Node.Normal ⟨ia, ib⟩ (NodeType.Body color top) := by
              rw [bnode_decSize, if_neg hqt]
              exact hq
            rw [unhideCellOp_eq2 (d.decSize top) q ia ib color top hbq,
              if_neg (show ¬((d.decSize top).isPrimary top ||
                  Option.isSome color) = true from by
                rw [isPrimary_decSize]
                exact hg)]
            exact incSize_decSize d top ti s htop hsz

theorem wadd1_eq (q : Nat) (h : q + 1 < USZ) : wadd1 q = q + 1 :=
  Nat.mod_eq_of_lt h

theorem wsub1_eq (q : Nat) (h1 : 1 ≤ q) (h2 : q < USZ) : wsub1 q = q - 1 := by
  unfold wsub1
  have h4 : 1 ≤ USZ := by norm_num [USZ]
  have h3 : q + (USZ - 1) = (q - 1) + USZ := by omega
  rw [h3, Nat.add_mod_right]
  exact Nat.mod_eq_of_lt (by omega)

theorem hideLoop_stop (d : Dlx I N) (idx fuel : Nat) :
    Dlx.hideLoop d idx idx (fuel + 1) = d := by
  simp only [Dlx.hideLoop]
  simp

theorem hideLoop_body_step (d : Dlx I N) (idx q fuel : Nat) (hne : q ≠ idx)
    (i : ListNodeI) (c : Option Nat) (t : Nat)
    (hb : d.bnode q = Node.Normal i (NodeType.Body c t)) :
    Dlx.hideLoop d idx q (fuel + 1) =
      Dlx.hideLoop (d.hideCellOp q) idx (wadd1 q) fuel := by
  simp only [Dlx.hideLoop]
  rw [if_neg hne, hb]

theorem hideLoop_boundary_step (d : Dlx I N) (idx q fuel : Nat) (hne : q ≠ idx)
    (nm : Option N) (f l : Nat) (hb : d.bnode q = Node.Boundary nm f l) :
    Dlx.hideLoop d idx q (fuel + 1) = Dlx.hideLoop d idx f fuel := by
  simp only [Dlx.hideLoop]
  rw [if_neg hne, hb]

theorem unhideLoop_stop (d : Dlx I N) (idx fuel : Nat) :
    Dlx.unhideLoop d idx idx (fuel + 1) = d := by
  simp only [Dlx.unhideLoop]
  simp

theorem unhideLoop_body_step (d : Dlx I N) (idx q fuel : Nat) (hne : q ≠ idx)
    (i : ListNodeI) (c : Option Nat) (t : Nat)
    (hb : d.bnode q = Node.Normal i (NodeType.Body c t)) :
    Dlx.unhideLoop d idx q (fuel + 1) =
      Dlx.unhideLoop (d.unhideCellOp q) idx (wsub1 q) fuel := by
  simp only [Dlx.unhideLoop]
  rw [if_neg hne, hb]

theorem unhideLoop_boundary_step (d : Dlx I N) (idx q fuel : Nat) (hne : q ≠ idx)
    (nm : Option N) (f l : Nat) (hb : d.bnode q = Node.Boundary nm f l) :
    Dlx.unhideLoop d idx q (fuel + 1) = Dlx.unhideLoop d idx l fuel := by
  simp only [Dlx.unhideLoop]
  rw [if_neg hne, hb]

theorem headers_hideCellOp (d : Dlx I N) (q : Nat) :
    (d.hideCellOp q).headers = d.headers := by
  unfold Dlx.hideCellOp
  split
  · split
    · rw [headers_decSize, headers_set_prev, headers_set_next]
    · rw [headers_decSize]
  · rfl

theorem headers_unhideCellOp (d : Dlx I N) (q : Nat) :
    (d.unhideCellOp q).headers = d.headers := by
  unfold Dlx.unhideCellOp
  split
  · split
    · rw [headers_incSize, headers_set_prev, headers_set_next]
    · rw [headers_incSize]
  · rfl

theorem headers_hideFold : ∀ (l : List Nat) (d : Dlx I N),
    (hideFold d l).headers = d.headers := by
  intro l
  induction l with
  | nil => intro d; rfl
  | cons q rest ih =>
    intro d
    show (hideFold (d.hideCellOp q) rest).headers = d.headers
    rw [ih, headers_hideCellOp]

theorem headers_unhideFold : ∀ (l : List Nat) (d : Dlx I N),
    (unhideFold d l).headers = d.headers := by
  intro l
  induction l with
  | nil => intro d; rfl
  | cons q rest ih =>
    intro d
    show (unhideFold (d.unhideCellOp q) rest).headers = d.headers
    rw [ih, headers_unhideCellOp]

theorem sameShape_hideFold : ∀ (l : List Nat) (d : Dlx I N),
    sameShape d (hideFold d l) := by
  intro l
  induction l with
  | nil => intro d; exact sameShape_refl d
  | cons q rest ih =>
    intro d
    exact sameShape_trans (sameShape_hideCellOp d q) (ih (d.hideCellOp q))

theorem sameShape_unhideFold : ∀ (l : List Nat) (d : Dlx I N),
    sameShape d (unhideFold d l) := by
  intro l
  induction l with
  | nil => intro d; exact sameShape_refl d
  | cons q rest ih =>
    intro d
    exact sameShape_trans (sameShape_unhideCellOp d q) (ih (d.unhideCellOp q))

theorem foldl_inverse {σ : Type} (f g : σ → Nat → σ) (P : σ → Nat → Bool)
    (hinv : ∀ s q, P s q = true → g (f s q) q = s) :
    ∀ (l : List Nat) (s : σ), SeqOkB f P s l = true →
      (l.reverse).foldl g (l.foldl f s) = s := by
  intro l
  induction l with
  | nil => intro s _; rfl
  | cons q rest ih =>
    intro s hok
    unfold SeqOkB at hok
    rw [Bool.and_eq_true] at hok
    obtain ⟨hP, hrest⟩ := hok
    rw [List.reverse_cons, List.foldl_cons, List.foldl_append, ih (f s q) hrest]
    exact hinv s q hP

theorem hideLoop_chunk (idx : Nat) :
    ∀ (cnt : Nat) (d : Dlx I N) (j fuel : Nat), cnt + 1 ≤ fuel →
      (∀ m, m < cnt → d.bKind (j + m) = 2 ∧ j + m ≠ idx) →
      j + cnt < USZ →
      Dlx.hideLoop d idx j fuel =
        Dlx.hideLoop (hideFold d (List.range' j cnt)) idx (j + cnt) (fuel - cnt) := by
  intro cnt
  induction cnt with
  | zero =>
    intro d j fuel hf hm hu
    simp [hideFold]
  | succ n ih =>
    intro d j fuel hf hm hu
    obtain ⟨f1, rfl⟩ : ∃ f1, fuel = f1 + 1 := ⟨fuel - 1, by omega⟩
    obtain ⟨hk0, hne0⟩ := hm 0 (Nat.succ_pos n)
    obtain ⟨i, c, t, hb⟩ := bnode_body_of_kind d (j + 0) hk0
    rw [hideLoop_body_step d idx j f1 (by simpa using hne0) i c t (by simpa using hb)]
    rw [wadd1_eq j (by omega)]
    have hsh := sameShape_hideCellOp d j
    have hkinds : ∀ m, m < n → (d.hideCellOp j).bKind (j + 1 + m) = 2 ∧
        j + 1 + m ≠ idx := by
      intro m hmn
      obtain ⟨hk, hne⟩ := hm (m + 1) (by omega)
      have harith : j + 1 + m = j + (m + 1) := by omega
      refine ⟨?_, by rw [harith]; exact hne⟩
      rw [← (hsh.2 (j + 1 + m)).1, harith]
      exact hk
    have hres := ih (d.hideCellOp j) (j + 1) f1 (by omega) hkinds (by omega)
    rw [hres, List.range'_succ]
    have e1 : j + 1 + n = j + (n + 1) := by omega
    have e2 : f1 - n = f1 + 1 - (n + 1) := by omega
    rw [← e1, ← e2]
    rfl

theorem unhideLoop_chunk (idx : Nat) :
    ∀ (cnt : Nat) (d : Dlx I N) (j fuel : Nat), cnt + 1 ≤ fuel → cnt ≤ j →
      (∀ m, m < cnt → d.bKind (j - m) = 2 ∧ j - m ≠ idx) →
      j < USZ →
      Dlx.unhideLoop d idx j fuel =
        Dlx.unhideLoop (unhideFold d (List.range' (j - cnt + 1) cnt).reverse) idx
          (j - cnt) (fuel - cnt) := by
  intro cnt
  induction cnt with
  | zero =>
    intro d j fuel hf hj hm hu
    simp [unhideFold]
  | succ n ih =>
    intro d j fuel hf hj hm hu
    obtain ⟨f1, rfl⟩ : ∃ f1, fuel = f1 + 1 := ⟨fuel - 1, by omega⟩
    obtain ⟨hk0, hne0⟩ := hm 0 (Nat.succ_pos n)
    obtain ⟨i, c, t, hb⟩ := bnode_body_of_kind d (j - 0) hk0
    rw [unhideLoop_body_step d idx j f1 (by simpa using hne0) i c t (by simpa using hb)]
    rw [wsub1_eq j (by omega) hu]
    have hsh := sameShape_unhideCellOp d j
    have hkinds : ∀ m, m < n → (d.unhideCellOp j).bKind (j - 1 - m) = 2 ∧
        j - 1 - m ≠ idx := by
      intro m hmn
      obtain ⟨hk, hne⟩ := hm (m + 1) (by omega)
      have harith : j - 1 - m = j - (m + 1) := by omega
      refine ⟨?_, by rw [harith]; exact hne⟩
      rw [← (hsh.2 (j - 1 - m)).1, harith]
      exact hk
    have hres := ih (d.unhideCellOp j) (j - 1) f1 (by omega) (by omega) hkinds (by omega)
    rw [hres]
    have e1 : j - 1 - n = j - (n + 1) := by omega
    have e2 : f1 - n = f1 + 1 - (n + 1) := by omega
    rw [e1, e2]
    have e4 : List.range' (j - (n + 1) + 1) (n + 1) =
        List.range' (j - (n + 1) + 1) n ++ [j] := by
      rw [List.range'_1_concat]
      have : j - (n + 1) + 1 + n = j := by omega
      rw [this]
    rw [e4, List.reverse_append]
    rfl

theorem isBody_eq_kind (d : Dlx I N) (j : Nat) :
    d.isBody j = (d.bKind j == 2) := by
  unfold Dlx.isBody Dlx.bKind
  cases d.bnode j with
  | Boundary nm f l => rfl
  | Normal i t => cases t <;> rfl

theorem rowStart_eq_of_sameShape {d d' : Dlx I N} (h : sameShape d d') :
    ∀ idx, rowStart d idx = rowStart d' idx := by
  intro idx
  induction idx with
  | zero => rfl
  | succ n ih =>
    have hk := (h.2 n).1
    unfold Dlx.bKind at hk
    unfold rowStart
    cases hb : d.bnode n with
    | Boundary nm f l =>
      cases hb' : d'.bnode n with
      | Boundary nm' f' l' => rfl
      | Normal i' t' =>
        rw [hb, hb'] at hk
        cases t' <;> simp at hk
    | Normal i t =>
      cases hb' : d'.bnode n with
      | Boundary nm' f' l' =>
        rw [hb, hb'] at hk
        cases t <;> simp at hk
      | Normal i' t' => exact ih

theorem rowEndAux_eq_of_sameShape {d d' : Dlx I N} (h : sameShape d d') :
    ∀ fuel idx, rowEndAux d fuel idx = rowEndAux d' fuel idx := by
  intro fuel
  induction fuel with
  | zero => intro idx; rfl
  | succ n ih =>
    intro idx
    have hk := (h.2 (idx + 1)).1
    unfold Dlx.bKind at hk
    unfold rowEndAux
    cases hb : d.bnode (idx + 1) with
    | Boundary nm f l =>
      cases hb' : d'.bnode (idx + 1) with
      | Boundary nm' f' l' => rfl
      | Normal i' t' =>
        rw [hb, hb'] at hk
        cases t' <;> simp at hk
    | Normal i t =>
      cases hb' : d'.bnode (idx + 1) with
      | Boundary nm' f' l' =>
        rw [hb, hb'] at hk
        cases t <;> simp at hk
      | Normal i' t' => exact ih (idx + 1)

theorem rowEnd_eq_of_sameShape {d d' : Dlx I N} (h : sameShape d d') (idx : Nat) :
    rowEnd d idx = rowEnd d' idx := by
  unfold rowEnd
  rw [h.1, rowEndAux_eq_of_sameShape h]

theorem rowOkB_eq_of_sameShape {d d' : Dlx I N} (h : sameShape d d')
    (hh : d.headers.length = d'.headers.length) (idx : Nat) :
    rowOkB d idx = rowOkB d' idx := by
  have hk : ∀ j, d.bKind j = d'.bKind j := fun j => (h.2 j).1
  have hf : ∀ j, d.ffpF j = d'.ffpF j := fun j => (h.2 j).2.1
  have hl : ∀ j, d.lfnF j = d'.lfnF j := fun j => (h.2 j).2.2
  have hib : ∀ j, d.isBody j = d'.isBody j := by
    intro j
    rw [isBody_eq_kind, isBody_eq_kind, hk]
  simp only [rowOkB]
  rw [rowStart_eq_of_sameShape h, rowEnd_eq_of_sameShape h, h.1, hh]
  simp only [hk, hf, hl, hib]

theorem bKind_of_isBody (d : Dlx I N) (q : Nat) (h : d.isBody q = true) :
    d.bKind q = 2 := by
  rw [isBody_eq_kind] at h
  simpa using h

theorem rowOkB_spec (d : Dlx I N) (idx : Nat) (h : rowOkB d idx = true) :
    1 ≤ rowStart d idx ∧ d.headers.length ≤ rowStart d idx ∧
    rowStart d idx ≤ idx ∧ idx ≤ rowEnd d idx ∧
    rowEnd d idx + 1 < d.body.length ∧ d.body.length + 1 < USZ ∧
    (∀ q ∈ List.range' (rowStart d idx) (rowEnd d idx + 1 - rowStart d idx),
      d.isBody q = true) ∧
    d.bKind (rowEnd d idx + 1) = 0 ∧ d.ffpF (rowEnd d idx + 1) = rowStart d idx ∧
    d.bKind (rowStart d idx - 1) = 0 ∧ d.lfnF (rowStart d idx - 1) = rowEnd d idx := by
  simp only [rowOkB, Bool.and_eq_true, decide_eq_true_eq, beq_iff_eq,
    List.all_eq_true] at h
  tauto

theorem hide_eq_fold (d : Dlx I N) (idx : Nat) (hrow : rowOkB d idx = true) :
    d.hide idx = hideFold d (visitF (rowStart d idx) (rowEnd d idx) idx) := by
  obtain ⟨hs1, hhs, hsi, hie, hel, hlu, hbody, hkE, hfE, hkS, hlS⟩ :=
    rowOkB_spec d idx hrow
  unfold Dlx.hide visitF
  rw [wadd1_eq idx (by omega)]
  have hkind1 : ∀ m, m < rowEnd d idx - idx →
      d.bKind (idx + 1 + m) = 2 ∧ idx + 1 + m ≠ idx := by
    intro m hm
    refine ⟨bKind_of_isBody d _ (hbody _ ?_), by omega⟩
    rw [List.mem_range'_1]
    omega
  rw [hideLoop_chunk idx (rowEnd d idx - idx) d (idx + 1) (d.body.length + 2)
    (by omega) hkind1 (by omega)]
  have harr1 : idx + 1 + (rowEnd d idx - idx) = rowEnd d idx + 1 := by omega
  rw [harr1]
  have hsh1 : sameShape d (hideFold d (List.range' (idx + 1) (rowEnd d idx - idx))) :=
    sameShape_hideFold _ d
  have hkE1 : (hideFold d (List.range' (idx + 1) (rowEnd d idx - idx))).bKind
      (rowEnd d idx + 1) = 0 := by
    rw [← (hsh1.2 _).1]
    exact hkE
  obtain ⟨nm, hbE⟩ := bnode_boundary_of_kind _ _ hkE1
  obtain ⟨f2, hf2⟩ : ∃ f2, d.body.length + 2 - (rowEnd d idx - idx) = f2 + 1 :=
    ⟨d.body.length + 1 - (rowEnd d idx - idx), by omega⟩
  rw [hf2, hideLoop_boundary_step _ idx (rowEnd d idx + 1) f2 (by omega) nm _ _ hbE]
  have hfE1 : (hideFold d (List.range' (idx + 1) (rowEnd d idx - idx))).ffpF
      (rowEnd d idx + 1) = rowStart d idx := by
    rw [← (hsh1.2 _).2.1]
    exact hfE
  rw [hfE1]
  have hkind2 : ∀ m, m < idx - rowStart d idx →
      (hideFold d (List.range' (idx + 1) (rowEnd d idx - idx))).bKind
        (rowStart d idx + m) = 2 ∧ rowStart d idx + m ≠ idx := by
    intro m hm
    refine ⟨?_, by omega⟩
    rw [← (hsh1.2 _).1]
    refine bKind_of_isBody d _ (hbody _ ?_)
    rw [List.mem_range'_1]
    omega
  rw [hideLoop_chunk idx (idx - rowStart d idx) _ (rowStart d idx) f2
    (by omega) hkind2 (by omega)]
  have harr2 : rowStart d idx + (idx - rowStart d idx) = idx := by omega
  rw [harr2]
  obtain ⟨f3, hf3⟩ : ∃ f3, f2 - (idx - rowStart d idx) = f3 + 1 :=
    ⟨f2 - (idx - rowStart d idx) - 1, by omega⟩
  rw [hf3, hideLoop_stop]
  unfold hideFold
  rw [List.foldl_append]

theorem unhide_eq_fold (d : Dlx I N) (idx : Nat) (hrow : rowOkB d idx = true) :
    d.unhide idx =
      unhideFold d (visitF (rowStart d idx) (rowEnd d idx) idx).reverse := by
  obtain ⟨hs1, hhs, hsi, hie, hel, hlu, hbody, hkE, hfE, hkS, hlS⟩ :=
    rowOkB_spec d idx hrow
  unfold Dlx.unhide visitF
  rw [List.reverse_append]
  rw [wsub1_eq idx (by omega) (by omega)]
  have hkind1 : ∀ m, m < idx - rowStart d idx →
      d.bKind (idx - 1 - m) = 2 ∧ idx - 1 - m ≠ idx := by
    intro m hm
    refine ⟨bKind_of_isBody d _ (hbody _ ?_), by omega⟩
    rw [List.mem_range'_1]
    omega
  rw [unhideLoop_chunk idx (idx - rowStart d idx) d (idx - 1) (d.body.length + 2)
    (by omega) (by omega) hkind1 (by omega)]
  have harr0 : idx - 1 - (idx - rowStart d idx) + 1 = rowStart d idx := by omega
  have harr1 : idx - 1 - (idx - rowStart d idx) = rowStart d idx - 1 := by omega
  rw [harr0, harr1]
  have hsh1 : sameShape d
      (unhideFold d (List.range' (rowStart d idx) (idx - rowStart d idx)).reverse) :=
    sameShape_unhideFold _ d
  have hkS1 : (unhideFold d
      (List.range' (rowStart d idx) (idx - rowStart d idx)).reverse).bKind
      (rowStart d idx - 1) = 0 := by
    rw [← (hsh1.2 _).1]
    exact hkS
  obtain ⟨nm, hbS⟩ := bnode_boundary_of_kind _ _ hkS1
  obtain ⟨f2, hf2⟩ : ∃ f2, d.body.length + 2 - (idx - rowStart d idx) = f2 + 1 :=
    ⟨d.body.length + 1 - (idx - rowStart d idx), by omega⟩
  rw [hf2, unhideLoop_boundary_step _ idx (rowStart d idx - 1) f2 (by omega) nm _ _ hbS]
  have hlS1 : (unhideFold d
      (List.range' (rowStart d idx) (idx - rowStart d idx)).reverse).lfnF
      (rowStart d idx - 1) = rowEnd d idx := by
    rw [← (hsh1.2 _).2.2]
    exact hlS
  rw [hlS1]
  have hkind2 : ∀ m, m < rowEnd d idx - idx →
      (unhideFold d
        (List.range' (rowStart d idx) (idx - rowStart d idx)).reverse).bKind
        (rowEnd d idx - m) = 2 ∧ rowEnd d idx - m ≠ idx := by
    intro m hm
    refine ⟨?_, by omega⟩
    rw [← (hsh1.2 _).1]
    refine bKind_of_isBody d _ (hbody _ ?_)
    rw [List.mem_range'_1]
    omega
  rw [unhideLoop_chunk idx (rowEnd d idx - idx) _ (rowEnd d idx) f2
    (by omega) (by omega) hkind2 (by omega)]
  have harr2 : rowEnd d idx - (rowEnd d idx - idx) = idx := by omega
  have harr3 : rowEnd d idx - (rowEnd d idx - idx) + 1 = idx + 1 := by omega
  rw [harr3, harr2]
  obtain ⟨f3, hf3⟩ : ∃ f3, f2 - (rowEnd d idx - idx) = f3 + 1 :=
    ⟨f2 - (rowEnd d idx - idx) - 1, by omega⟩
  rw [hf3, unhideLoop_stop]
  unfold unhideFold
  rw [List.foldl_append]

theorem unhide_hide (avoid : List Nat) (d : Dlx I N) (idx : Nat)
    (h : hideLegalAvoidB avoid d idx = true) :
    (d.hide idx).unhide idx = d := by
  unfold hideLegalAvoidB at h
  rw [Bool.and_eq_true] at h
  obtain ⟨hrow, hseq⟩ := h
  rw [hide_eq_fold d idx hrow]
  have hsh : sameShape d
      (hideFold d (visitF (rowStart d idx) (rowEnd d idx) idx)) :=
    sameShape_hideFold _ d
  have hrow2 : rowOkB (hideFold d (visitF (rowStart d idx) (rowEnd d idx) idx))
      idx = true := by
    rw [← rowOkB_eq_of_sameShape hsh (by rw [headers_hideFold])]
    exact hrow
  rw [unhide_eq_fold _ idx hrow2]
  rw [← rowStart_eq_of_sameShape hsh idx, ← rowEnd_eq_of_sameShape hsh idx]
  exact foldl_inverse Dlx.hideCellOp Dlx.unhideCellOp (hideCellAvoidOkB avoid)
    (unhideCellOp_hideCellOp avoid)
    (visitF (rowStart d idx) (rowEnd d idx) idx) d hseq

/-- C4: for a body cell idx in a well-formed subset row, hide(idx) is the fold
of the per-cell hide operation over the forward visit list, which contains
exactly the row's cells other than idx (walking forward from idx+1 and looping
at the right boundary back to the row start); the per-cell operation stitches
prev(q) to next(q) precisely when q's item is primary or q's color is present,
and decrements the item header size unconditionally; unhide(idx) is the exact
mirror: the fold of the inverse per-cell operation over the reversed visit
list. -/
theorem C4_hide_row_walk (d : Dlx I N) (idx : Nat) (hrow : rowOkB d idx = true) :
    d.hide idx = hideFold d (visitF (rowStart d idx) (rowEnd d idx) idx) ∧
    d.unhide idx =
      unhideFold d (visitF (rowStart d idx) (rowEnd d idx) idx).reverse ∧
    (∀ q, q ∈ visitF (rowStart d idx) (rowEnd d idx) idx ↔
      (rowStart d idx ≤ q ∧ q ≤ rowEnd d idx ∧ q ≠ idx)) ∧
    (∀ (st : Dlx I N) (q a b : Nat) (c : Option Nat) (t : Nat),
      st.bnode q = Node.Normal ⟨a, b⟩ (NodeType.Body c t) →
      st.hideCellOp q =
        (if st.isPrimary t || c.isSome then
          ((st.set_next a b).set_prev b a).decSize t
        else st.decSize t) ∧
      st.unhideCellOp q =
        (if st.isPrimary t || c.isSome then
          ((st.set_next a q).set_prev b q).incSize t
        else st.incSize t)) := by
  obtain ⟨hs1, hhs, hsi, hie, hel, hlu, hbody, hkE, hfE, hkS, hlS⟩ :=
    rowOkB_spec d idx hrow
  refine ⟨hide_eq_fold d idx hrow, unhide_eq_fold d idx hrow, ?_, ?_⟩
  · intro q
    unfold visitF
    rw [List.mem_append, List.mem_range'_1, List.mem_range'_1]
    omega
  · intro st q a b c t hb
    exact ⟨hideCellOp_eq2 st q a b c t hb, unhideCellOp_eq2 st q a b c t hb⟩

/-- Witness for C4 at the concrete two-solution grid and the first body cell
of its first subset row. -/
theorem C4_hide_row_walk_witness :
    rowOkB twoSolD 5 = true ∧
    twoSolD.hide 5 = hideFold twoSolD (visitF (rowStart twoSolD 5) (rowEnd twoSolD 5) 5) :=
  ⟨by decide, (C4_hide_row_walk twoSolD 5 (by decide)).1⟩

theorem nextF_decSize (d : Dlx I N) (t j : Nat) :
    (d.decSize t).nextF j = d.nextF j := by
  unfold Dlx.nextF
  rw [bnode_decSize]
  by_cases hj : j = t
  · subst hj
    cases hb : d.bnode j with
    | Boundary nm f l => simp [hb]
    | Normal i tt => cases tt <;> simp [hb]
  · simp [hj]

theorem prevF_decSize (d : Dlx I N) (t j : Nat) :
    (d.decSize t).prevF j = d.prevF j := by
  unfold Dlx.prevF
  rw [bnode_decSize]
  by_cases hj : j = t
  · subst hj
    cases hb : d.bnode j with
    | Boundary nm f l => simp [hb]
    | Normal i tt => cases tt <;> simp [hb]
  · simp [hj]

theorem nextF_incSize (d : Dlx I N) (t j : Nat) :
    (d.incSize t).nextF j = d.nextF j := by
  unfold Dlx.nextF
  rw [bnode_incSize]
  by_cases hj : j = t
  · subst hj
    cases hb : d.bnode j with
    | Boundary nm f l => simp [hb]
    | Normal i tt => cases tt <;> simp [hb]
  · simp [hj]

theorem prevF_incSize (d : Dlx I N) (t j : Nat) :
    (d.incSize t).prevF j = d.prevF j := by
  unfold Dlx.prevF
  rw [bnode_incSize]
  by_cases hj : j = t
  · subst hj
    cases hb : d.bnode j with
    | Boundary nm f l => simp [hb]
    | Normal i tt => cases tt <;> simp [hb]
  · simp [hj]

theorem prevF_set_next (d : Dlx I N) (i v j : Nat) :
    (d.set_next i v).prevF j = d.prevF j := by
  unfold Dlx.prevF
  rw [bnode_set_next]
  by_cases hj : j = i
  · subst hj
    cases hb : d.bnode j with
    | Boundary nm f l => simp [hb]
    | Normal i tt => simp [hb]
  · simp [hj]

theorem nextF_set_prev (d : Dlx I N) (i v j : Nat) :
    (d.set_prev i v).nextF j = d.nextF j := by
  unfold Dlx.nextF
  rw [bnode_set_prev]
  by_cases hj : j = i
  · subst hj
    cases hb : d.bnode j with
    | Boundary nm f l => simp [hb]
    | Normal i tt => simp [hb]
  · simp [hj]

theorem nextF_set_next_ne (d : Dlx I N) (i v j : Nat) (h : j ≠ i) :
    (d.set_next i v).nextF j = d.nextF j := by
  unfold Dlx.nextF
  rw [bnode_set_next]
  simp [h]

theorem prevF_set_prev_ne (d : Dlx I N) (i v j : Nat) (h : j ≠ i) :
    (d.set_prev i v).prevF j = d.prevF j := by
  unfold Dlx.prevF
  rw [bnode_set_prev]
  simp [h]

theorem nextF_setColor (d : Dlx I N) (i : Nat) (c : Option Nat) (j : Nat) :
    (d.setColor i c).nextF j = d.nextF j := by
  unfold Dlx.nextF
  rw [bnode_setColor]
  by_cases hj : j = i
  · subst hj
    cases hb : d.bnode j with
    | Boundary nm f l => simp [hb]
    | Normal i tt => cases tt <;> simp [hb]
  · simp [hj]

theorem prevF_setColor (d : Dlx I N) (i : Nat) (c : Option Nat) (j : Nat) :
    (d.setColor i c).prevF j = d.prevF j := by
  unfold Dlx.prevF
  rw [bnode_setColor]
  by_cases hj : j = i
  · subst hj
    cases hb : d.bnode j with
    | Boundary nm f l => simp [hb]
    | Normal i tt => cases tt <;> simp [hb]
  · simp [hj]

theorem colorF_decSize (d : Dlx I N) (t j : Nat) :
    (d.decSize t).colorF j = d.colorF j := by
  unfold Dlx.colorF
  rw [bnode_decSize]
  by_cases hj : j = t
  · subst hj
    cases hb : d.bnode j with
    | Boundary nm f l => simp [hb]
    | Normal i tt => cases tt <;> simp [hb]
  · simp [hj]

theorem colorF_incSize (d : Dlx I N) (t j : Nat) :
    (d.incSize t).colorF j = d.colorF j := by
  unfold Dlx.colorF
  rw [bnode_incSize]
  by_cases hj : j = t
  · subst hj
    cases hb : d.bnode j with
    | Boundary nm f l => simp [hb]
    | Normal i tt => cases tt <;> simp [hb]
  · simp [hj]

theorem colorF_set_next (d : Dlx I N) (i v j : Nat) :
    (d.set_next i v).colorF j = d.colorF j := by
  unfold Dlx.colorF
  rw [bnode_set_next]
  by_cases hj : j = i
  · subst hj
    cases hb : d.bnode j with
    | Boundary nm f l => simp [hb]
    | Normal i tt => cases tt <;> simp [hb]
  · simp [hj]

theorem colorF_set_prev (d : Dlx I N) (i v j : Nat) :
    (d.set_prev i v).colorF j = d.colorF j := by
  unfold Dlx.colorF
  rw [bnode_set_prev]
  by_cases hj : j = i
  · subst hj
    cases hb : d.bnode j with
    | Boundary nm f l => simp [hb]
    | Normal i tt => cases tt <;> simp [hb]
  · simp [hj]

theorem colorF_setColor_ne (d : Dlx I N) (i : Nat) (c : Option Nat) (j : Nat)
    (h : j ≠ i) : (d.setColor i c).colorF j = d.colorF j := by
  unfold Dlx.colorF
  rw [bnode_setColor]
  simp [h]

theorem hideCellAvoidOkB_spec (avoid : List Nat) (d : Dlx I N) (q : Nat)
    (h : hideCellAvoidOkB avoid d q = true) :
    ∃ a b c t, d.bnode q = Node.Normal ⟨a, b⟩ (NodeType.Body c t) ∧
      (∃ ti s, d.bnode t = Node.Normal ti (NodeType.Header s) ∧ s < USZ) ∧
      ((d.isPrimary t || c.isSome) = true → a ∉ avoid ∧ b ∉ avoid) := by
  cases hq : d.bnode q with
  | Boundary nm f l =>
    unfold hideCellAvoidOkB at h
    rw [hq] at h
    simp at h
  | Normal inode tt =>
    cases tt with
    | Header s =>
      unfold hideCellAvoidOkB at h
      rw [hq] at h
      simp at h
    | Body color top =>
      obtain ⟨ia, ib⟩ := inode
      unfold hideCellAvoidOkB at h
      rw [hq] at h
      simp only [Bool.and_eq_true] at h
      obtain ⟨h1, h2⟩ := h
      refine ⟨ia, ib, color, top, rfl, ?_, ?_⟩
      · cases htop : d.bnode top with
        | Boundary nm f l => rw [htop] at h1; simp at h1
        | Normal ti ts =>
          cases ts with
          | Body c2 t2 => rw [htop] at h1; simp at h1
          | Header s =>
            rw [htop] at h1
            exact ⟨ti, s, rfl, by simpa using h1⟩
      · intro hg
        rw [if_pos hg] at h2
        simp only [Bool.and_eq_true] at h2
        refine ⟨by simpa using h2.1.2, by simpa using h2.2⟩

theorem hideCellOp_pres (avoid : List Nat) (st : Dlx I N) (q : Nat)
    (h : hideCellAvoidOkB avoid st q = true) (j : Nat) (hj : j ∈ avoid) :
    (st.hideCellOp q).nextF j = st.nextF j ∧
    (st.hideCellOp q).prevF j = st.prevF j ∧
    (st.hideCellOp q).colorF j = st.colorF j := by
  obtain ⟨a, b, c, t, hq, ⟨ti, s, htop, hsz⟩, havoid⟩ :=
    hideCellAvoidOkB_spec avoid st q h
  rw [hideCellOp_eq2 st q a b c t hq]
  by_cases hg : (st.isPrimary t || c.isSome) = true
  · rw [if_pos hg]
    obtain ⟨ha, hb⟩ := havoid hg
    have hja : j ≠ a := fun e => ha (e ▸ hj)
    have hjb : j ≠ b := fun e => hb (e ▸ hj)
    refine ⟨?_, ?_, ?_⟩
    · rw [nextF_decSize, nextF_set_prev, nextF_set_next_ne _ _ _ _ hja]
    · rw [prevF_decSize, prevF_set_prev_ne _ _ _ _ hjb, prevF_set_next]
    · rw [colorF_decSize, colorF_set_prev, colorF_set_next]
  · rw [if_neg hg]
    exact ⟨nextF_decSize st t j, prevF_decSize st t j, colorF_decSize st t j⟩

theorem SeqOkB_append {σ : Type} (f : σ → Nat → σ) (P : σ → Nat → Bool) :
    ∀ (A B : List Nat) (s : σ),
      SeqOkB f P s (A ++ B) = (SeqOkB f P s A && SeqOkB f P (A.foldl f s) B) := by
  intro A
  induction A with
  | nil => intro B s; simp [SeqOkB]
  | cons q rest ih =>
    intro B s
    simp only [List.cons_append, SeqOkB, List.foldl_cons, List.append_eq]
    rw [ih B (f s q), Bool.and_assoc]

theorem hideFold_pres (avoid : List Nat) :
    ∀ (l : List Nat) (st : Dlx I N),
      SeqOkB Dlx.hideCellOp (hideCellAvoidOkB avoid) st l = true →
      ∀ j ∈ avoid, (hideFold st l).nextF j = st.nextF j ∧
        (hideFold st l).prevF j = st.prevF j ∧
        (hideFold st l).colorF j = st.colorF j := by
  intro l
  induction l with
  | nil => intro st _ j _; exact ⟨rfl, rfl, rfl⟩
  | cons q rest ih =>
    intro st hok j hj
    unfold SeqOkB at hok
    rw [Bool.and_eq_true] at hok
    obtain ⟨hP, hrest⟩ := hok
    obtain ⟨e1, e2, e3⟩ := ih (st.hideCellOp q) hrest j hj
    obtain ⟨f1, f2, f3⟩ := hideCellOp_pres avoid st q hP j hj
    exact ⟨e1.trans f1, e2.trans f2, e3.trans f3⟩

theorem hide_pres (avoid : List Nat) (st : Dlx I N) (p : Nat)
    (h : hideLegalAvoidB avoid st p = true) (j : Nat) (hj : j ∈ avoid) :
    (st.hide p).nextF j = st.nextF j ∧ (st.hide p).prevF j = st.prevF j ∧
    (st.hide p).colorF j = st.colorF j := by
  unfold hideLegalAvoidB at h
  rw [Bool.and_eq_true] at h
  obtain ⟨hrow, hseq⟩ := h
  rw [hide_eq_fold st p hrow]
  exact hideFold_pres avoid _ st hseq j hj

theorem header_setHeader (d : Dlx I N) (i : Nat) (x : Header I) (j : Nat) :
    (d.setHeader i x).header j =
      if j = i ∧ i < d.headers.length then x else d.header j := by
  unfold Dlx.setHeader Dlx.header
  by_cases hj : j = i
  · subst hj
    by_cases hlen : j < d.headers.length
    · simp only [hlen, and_true, if_pos rfl]
      exact getD_set_self _ _ _ (by simpa using hlen)
    · rw [List.set_eq_of_length_le (by omega)]
      simp [hlen]
  · rw [getD_set_ne _ _ _ (fun hcon => hj hcon.symm)]
    simp [hj]

theorem headersLen_setHeader (d : Dlx I N) (i : Nat) (x : Header I) :
    (d.setHeader i x).headers.length = d.headers.length := by
  simp [Dlx.setHeader]

theorem body_setHeader (d : Dlx I N) (i : Nat) (x : Header I) :
    (d.setHeader i x).body = d.body := rfl

theorem bnode_setHeader (d : Dlx I N) (i : Nat) (x : Header I) (j : Nat) :
    (d.setHeader i x).bnode j = d.bnode j := rfl

theorem setHeader_self (d : Dlx I N) (i : Nat) (x : Header I)
    (h : d.header i = x) : d.setHeader i x = d := by
  unfold Dlx.setHeader
  unfold Dlx.header at h
  rw [← h, list_set_getD_self]

theorem setHeader_setHeader (d : Dlx I N) (i : Nat) (a b : Header I) :
    (d.setHeader i a).setHeader i b = d.setHeader i b := by
  simp [Dlx.setHeader, List.set_set]

theorem setHeader_comm (d : Dlx I N) {i j : Nat} (a b : Header I) (h : i ≠ j) :
    (d.setHeader i a).setHeader j b = (d.setHeader j b).setHeader i a := by
  simp only [Dlx.setHeader]
  rw [List.set_comm a b d.headers h]

theorem headers_hideLoop : ∀ (fuel : Nat) (d : Dlx I N) (idx q : Nat),
    (Dlx.hideLoop d idx q fuel).headers = d.headers := by
  intro fuel
  induction fuel with
  | zero => intro d idx q; rfl
  | succ n ih =>
    intro d idx q
    simp only [Dlx.hideLoop]
    split
    · rfl
    · split
      · exact ih d idx _
      · rfl
      · rw [ih, headers_hideCellOp]

theorem headers_unhideLoop : ∀ (fuel : Nat) (d : Dlx I N) (idx q : Nat),
    (Dlx.unhideLoop d idx q fuel).headers = d.headers := by
  intro fuel
  induction fuel with
  | zero => intro d idx q; rfl
  | succ n ih =>
    intro d idx q
    simp only [Dlx.unhideLoop]
    split
    · rfl
    · split
      · exact ih d idx _
      · rfl
      · rw [ih, headers_unhideCellOp]

theorem headers_hide (d : Dlx I N) (p : Nat) : (d.hide p).headers = d.headers := by
  unfold Dlx.hide
  exact headers_hideLoop _ d p _

theorem headers_unhide (d : Dlx I N) (p : Nat) :
    (d.unhide p).headers = d.headers := by
  unfold Dlx.unhide
  exact headers_unhideLoop _ d p _

theorem headers_foldlHide : ∀ (l : List Nat) (d : Dlx I N),
    (l.foldl Dlx.hide d).headers = d.headers := by
  intro l
  induction l with
  | nil => intro d; rfl
  | cons q rest ih =>
    intro d
    show ((rest.foldl Dlx.hide (d.hide q)).headers) = d.headers
    rw [ih, headers_hide]

theorem foldlHide_pres (avoid : List Nat) :
    ∀ (l : List Nat) (st : Dlx I N),
      SeqOkB Dlx.hide (hideLegalAvoidB avoid) st l = true →
      ∀ j ∈ avoid, (l.foldl Dlx.hide st).nextF j = st.nextF j ∧
        (l.foldl Dlx.hide st).prevF j = st.prevF j ∧
        (l.foldl Dlx.hide st).colorF j = st.colorF j := by
  intro l
  induction l with
  | nil => intro st _ j _; exact ⟨rfl, rfl, rfl⟩
  | cons q rest ih =>
    intro st hok j hj
    unfold SeqOkB at hok
    rw [Bool.and_eq_true] at hok
    obtain ⟨hP, hrest⟩ := hok
    obtain ⟨e1, e2, e3⟩ := ih (st.hide q) hrest j hj
    obtain ⟨f1, f2, f3⟩ := hide_pres avoid st q hP j hj
    exact ⟨e1.trans f1, e2.trans f2, e3.trans f3⟩

theorem walkNextB_congr (idx : Nat) :
    ∀ (L : List Nat) (st st2 : Dlx I N) (p : Nat),
      (∀ j ∈ L, st2.nextF j = st.nextF j) →
      walkNextB st2 idx p L = walkNextB st idx p L := by
  intro L
  induction L with
  | nil => intro st st2 p _; rfl
  | cons q rest ih =>
    intro st st2 p hag
    show (p == q && walkNextB st2 idx (st2.nextF q) rest) = _
    rw [hag q (by simp), ih st st2 _ (fun j hj => hag j (by simp [hj]))]
    rfl

theorem walkPrevB_congr (idx : Nat) :
    ∀ (L : List Nat) (st st2 : Dlx I N) (p : Nat),
      (∀ j ∈ L, st2.prevF j = st.prevF j) →
      walkPrevB st2 idx p L = walkPrevB st idx p L := by
  intro L
  induction L with
  | nil => intro st st2 p _; rfl
  | cons q rest ih =>
    intro st st2 p hag
    show (p == q && walkPrevB st2 idx (st2.prevF q) rest) = _
    rw [hag q (by simp), ih st st2 _ (fun j hj => hag j (by simp [hj]))]
    rfl

theorem chain_walkNext (d : Dlx I N) (last : Nat) :
    ∀ (l : List Nat) (a : Nat), chainOkB d a l last = true →
      walkNextB d last (d.nextF a) l = true := by
  intro l
  induction l with
  | nil =>
    intro a h
    unfold chainOkB at h
    rw [Bool.and_eq_true] at h
    exact h.1
  | cons q rest ih =>
    intro a h
    unfold chainOkB at h
    simp only [Bool.and_eq_true] at h
    obtain ⟨⟨h1, h2⟩, h3⟩ := h
    show (d.nextF a == q && walkNextB d last (d.nextF q) rest) = true
    rw [Bool.and_eq_true]
    exact ⟨h1, ih q h3⟩

theorem walkPrevB_append_single (d : Dlx I N) (a q : Nat) :
    ∀ (M : List Nat) (p : Nat),
      walkPrevB d a p (M ++ [q]) =
        (walkPrevB d q p M && (d.prevF q == a)) := by
  intro M
  induction M with
  | nil =>
    intro p
    show (p == q && walkPrevB d a (d.prevF q) []) = _
    rfl
  | cons r rest ih =>
    intro p
    show (p == r && walkPrevB d a (d.prevF r) (rest ++ [q])) = _
    rw [ih (d.prevF r), ← Bool.and_assoc]
    rfl

theorem chain_walkPrev (d : Dlx I N) (last : Nat) :
    ∀ (l : List Nat) (a : Nat), chainOkB d a l last = true →
      walkPrevB d a (d.prevF last) l.reverse = true := by
  intro l
  induction l with
  | nil =>
    intro a h
    unfold chainOkB at h
    rw [Bool.and_eq_true] at h
    exact h.2
  | cons q rest ih =>
    intro a h
    unfold chainOkB at h
    simp only [Bool.and_eq_true] at h
    obtain ⟨⟨h1, h2⟩, h3⟩ := h
    rw [List.reverse_cons, walkPrevB_append_single, Bool.and_eq_true]
    exact ⟨ih q h3, h2⟩

theorem coverLoop_stop (d : Dlx I N) (idx fuel : Nat) :
    Dlx.coverLoop d idx idx (fuel + 1) = d := by
  simp only [Dlx.coverLoop]
  simp

theorem coverLoop_step (d : Dlx I N) (idx p fuel : Nat) (hne : p ≠ idx) :
    Dlx.coverLoop d idx p (fuel + 1) =
      Dlx.coverLoop (d.hide p) idx ((d.hide p).nextF p) fuel := by
  simp only [Dlx.coverLoop]
  rw [if_neg hne]

theorem uncoverLoop_stop (d : Dlx I N) (idx fuel : Nat) :
    Dlx.uncoverLoop d idx idx (fuel + 1) = d := by
  simp only [Dlx.uncoverLoop]
  simp

theorem uncoverLoop_step (d : Dlx I N) (idx p fuel : Nat) (hne : p ≠ idx) :
    Dlx.uncoverLoop d idx p (fuel + 1) =
      Dlx.uncoverLoop (d.unhide p) idx ((d.unhide p).prevF p) fuel := by
  simp only [Dlx.uncoverLoop]
  rw [if_neg hne]

theorem coverLoop_eq_fold (idx : Nat) (avoid : List Nat) :
    ∀ (L : List Nat) (st : Dlx I N) (p fuel : Nat),
      L.length + 1 ≤ fuel →
      (∀ q ∈ L, q ∈ avoid ∧ q ≠ idx) →
      walkNextB st idx p L = true →
      SeqOkB Dlx.hide (hideLegalAvoidB avoid) st L = true →
      Dlx.coverLoop st idx p fuel = L.foldl Dlx.hide st := by
  intro L
  induction L with
  | nil =>
    intro st p fuel hf _ hw _
    obtain ⟨f1, rfl⟩ : ∃ f1, fuel = f1 + 1 := ⟨fuel - 1, by omega⟩
    have hp : p = idx := by simpa [walkNextB] using hw
    rw [hp, coverLoop_stop]
    rfl
  | cons q L2 ih =>
    intro st p fuel hf hmem hw hseq
    obtain ⟨f1, rfl⟩ : ∃ f1, fuel = f1 + 1 := ⟨fuel - 1, by omega⟩
    have hw2 : (p == q && walkNextB st idx (st.nextF q) L2) = true := hw
    rw [Bool.and_eq_true] at hw2
    obtain ⟨hpq, hwrest⟩ := hw2
    have hpq2 : p = q := by simpa using hpq
    subst hpq2
    unfold SeqOkB at hseq
    rw [Bool.and_eq_true] at hseq
    obtain ⟨hlegal, hseqrest⟩ := hseq
    obtain ⟨hqa, hqne⟩ := hmem p (by simp)
    rw [coverLoop_step st idx p f1 hqne]
    have hnp : (st.hide p).nextF p = st.nextF p := (hide_pres avoid st p hlegal p hqa).1
    rw [hnp]
    have hwrest2 : walkNextB (st.hide p) idx (st.nextF p) L2 = true := by
      rw [walkNextB_congr idx L2 st (st.hide p) _
        (fun j hj => (hide_pres avoid st p hlegal j (hmem j (by simp [hj])).1).1)]
      exact hwrest
    rw [List.length_cons] at hf
    have := ih (st.hide p) (st.nextF p) f1 (by omega)
      (fun j hj => hmem j (by simp [hj])) hwrest2 hseqrest
    rw [this]
    rfl

theorem uncoverLoop_fold (idx : Nat) (avoid : List Nat) :
    ∀ (M : List Nat) (st : Dlx I N) (p fuel : Nat),
      M.length + 1 ≤ fuel →
      (∀ q ∈ M, q ∈ avoid ∧ q ≠ idx) →
      walkPrevB st idx p M = true →
      SeqOkB Dlx.hide (hideLegalAvoidB avoid) st M.reverse = true →
      Dlx.uncoverLoop (M.reverse.foldl Dlx.hide st) idx p fuel = st := by
  intro M
  induction M with
  | nil =>
    intro st p fuel hf _ hw _
    obtain ⟨f1, rfl⟩ : ∃ f1, fuel = f1 + 1 := ⟨fuel - 1, by omega⟩
    have hp : p = idx := by simpa [walkPrevB] using hw
    rw [hp, uncoverLoop_stop]
    rfl
  | cons q M2 ih =>
    intro st p fuel hf hmem hw hseq
    obtain ⟨f1, rfl⟩ : ∃ f1, fuel = f1 + 1 := ⟨fuel - 1, by omega⟩
    have hw2 : (p == q && walkPrevB st idx (st.prevF q) M2) = true := hw
    rw [Bool.and_eq_true] at hw2
    obtain ⟨hpq, hwrest⟩ := hw2
    have hpq2 : p = q := by simpa using hpq
    subst hpq2
    rw [List.reverse_cons] at hseq ⊢
    rw [SeqOkB_append, Bool.and_eq_true] at hseq
    obtain ⟨hseqpre, hseqlast⟩ := hseq
    have hlegal : hideLegalAvoidB avoid (M2.reverse.foldl Dlx.hide st) p = true := by
      have : SeqOkB Dlx.hide (hideLegalAvoidB avoid)
          (M2.reverse.foldl Dlx.hide st) [p] = true := hseqlast
      unfold SeqOkB at this
      rw [Bool.and_eq_true] at this
      exact this.1
    obtain ⟨hqa, hqne⟩ := hmem p (by simp)
    rw [List.foldl_append]
    show Dlx.uncoverLoop ((M2.reverse.foldl Dlx.hide st).hide p) idx p (f1 + 1) = st
    rw [uncoverLoop_step _ idx p f1 hqne]
    rw [unhide_hide avoid (M2.reverse.foldl Dlx.hide st) p hlegal]
    have hprev : (M2.reverse.foldl Dlx.hide st).prevF p = st.prevF p :=
      (foldlHide_pres avoid M2.reverse st hseqpre p hqa).2.1
    rw [hprev]
    rw [List.length_cons] at hf
    exact ih st (st.prevF p) f1 (by omega)
      (fun j hj => hmem j (by simp [hj])) hwrest hseqpre

theorem sameShape_hideLoop : ∀ (fuel : Nat) (d : Dlx I N) (idx q : Nat),
    sameShape d (Dlx.hideLoop d idx q fuel) := by
  intro fuel
  induction fuel with
  | zero => intro d idx q; exact sameShape_refl d
  | succ n ih =>
    intro d idx q
    simp only [Dlx.hideLoop]
    split
    · exact sameShape_refl d
    · split
      · exact ih d idx _
      · exact sameShape_refl d
      · exact sameShape_trans (sameShape_hideCellOp d q) (ih _ idx _)

theorem sameShape_hide (d : Dlx I N) (p : Nat) : sameShape d (d.hide p) := by
  unfold Dlx.hide
  exact sameShape_hideLoop _ d p _

theorem sameShape_unhideLoop : ∀ (fuel : Nat) (d : Dlx I N) (idx q : Nat),
    sameShape d (Dlx.unhideLoop d idx q fuel) := by
  intro fuel
  induction fuel with
  | zero => intro d idx q; exact sameShape_refl d
  | succ n ih =>
    intro d idx q
    simp only [Dlx.unhideLoop]
    split
    · exact sameShape_refl d
    · split
      · exact ih d idx _
      · exact sameShape_refl d
      · exact sameShape_trans (sameShape_unhideCellOp d q) (ih _ idx _)

theorem sameShape_unhide (d : Dlx I N) (p : Nat) : sameShape d (d.unhide p) := by
  unfold Dlx.unhide
  exact sameShape_unhideLoop _ d p _

theorem sameShape_foldlHide : ∀ (l : List Nat) (d : Dlx I N),
    sameShape d (l.foldl Dlx.hide d) := by
  intro l
  induction l with
  | nil => intro d; exact sameShape_refl d
  | cons q rest ih =>
    intro d
    exact sameShape_trans (sameShape_hide d q) (ih (d.hide q))

theorem uncover_cover (extra : List Nat) (d : Dlx I N) (idx : Nat)
    (h : coverLegalAvoidB extra d idx = true) :
    (d.cover idx).uncover idx = d := by
  simp only [coverLegalAvoidB, Bool.and_eq_true, decide_eq_true_eq, beq_iff_eq,
    List.all_eq_true] at h
  obtain ⟨⟨⟨⟨⟨⟨⟨⟨⟨hA1, hA2⟩, hA3⟩, hA4⟩, hA5⟩, hA6⟩, hA7⟩, hA8⟩, hA9⟩, hA10⟩ := h
  have hchain : chainOkB d idx (d.ringNextList idx) idx = true := hA1
  have hmod : idx % U32 = idx := Nat.mod_eq_of_lt hA5
  have hmemR : ∀ q ∈ d.ringNextList idx,
      q ∈ extra ++ idx :: d.ringNextList idx ∧ q ≠ idx := by
    intro q hq
    have h2 := hA2 q hq
    exact ⟨by simp [hq], h2.1⟩
  have hwnext := chain_walkNext d idx (d.ringNextList idx) idx hchain
  have hloop := coverLoop_eq_fold idx (extra ++ idx :: d.ringNextList idx)
    (d.ringNextList idx) d (d.nextF idx) (d.body.length + 2)
    (by omega) hmemR hwnext hA10
  have hwprev := chain_walkPrev d idx (d.ringNextList idx) idx hchain
  have hback := uncoverLoop_fold idx (extra ++ idx :: d.ringNextList idx)
    (d.ringNextList idx).reverse d (d.prevF idx) (d.body.length + 2)
    (by rw [List.length_reverse]; omega)
    (fun q hq => hmemR q (by rw [List.mem_reverse] at hq; exact hq))
    hwprev
    (by rw [List.reverse_reverse]; exact hA10)
  rw [List.reverse_reverse] at hback
  have hsh : sameShape d ((d.ringNextList idx).foldl Dlx.hide d) :=
    sameShape_foldlHide _ d
  have hAh : ((d.ringNextList idx).foldl Dlx.hide d).headers = d.headers :=
    headers_foldlHide _ d
  have hAhead : ∀ j, ((d.ringNextList idx).foldl Dlx.hide d).header j =
      d.header j := by
    intro j
    unfold Dlx.header
    rw [hAh]
  have hAlen : ((d.ringNextList idx).foldl Dlx.hide d).headers.length =
      d.headers.length := by rw [hAh]
  have hAblen : ((d.ringNextList idx).foldl Dlx.hide d).body.length =
      d.body.length := hsh.1.symm
  have hAprev : ((d.ringNextList idx).foldl Dlx.hide d).prevF idx = d.prevF idx :=
    (foldlHide_pres _ _ d hA10 idx (by simp)).2.1
  rcases hH : d.header idx with ⟨Hit, ⟨hp, hn⟩, Hty⟩
  have hHp : (d.header idx).node.prev = hp := by rw [hH]
  have hHn : (d.header idx).node.next = hn := by rw [hH]
  rw [hHp] at hA6 hA8
  rw [hHn] at hA7 hA9
  simp only [Dlx.cover]
  rw [hloop]
  simp only [Dlx.uncover]
  simp only [hAhead]
  rw [hHp, hHn, hmod]
  by_cases hpidx : hp = idx
  · have hnidx : hn = idx := by
      rw [hpidx, hHn] at hA8
      exact hA8
    rw [hpidx] at hH
    rw [hnidx] at hH
    rw [hpidx, hnidx]
    have eS1 : ((d.ringNextList idx).foldl Dlx.hide d).setHeader idx
        (⟨(d.header idx).item, ⟨(d.header idx).node.prev, idx⟩,
          (d.header idx).header_type⟩ : Header I) =
        (d.ringNextList idx).foldl Dlx.hide d := by
      refine setHeader_self _ idx _ ?_
      rw [hAhead, hH]
    rw [eS1]
    have eS2 : ((d.ringNextList idx).foldl Dlx.hide d).setHeader idx
        (⟨(((d.ringNextList idx).foldl Dlx.hide d).header idx).item,
          ⟨idx, (((d.ringNextList idx).foldl Dlx.hide d).header idx).node.next⟩,
          (((d.ringNextList idx).foldl Dlx.hide d).header idx).header_type⟩ :
            Header I) =
        (d.ringNextList idx).foldl Dlx.hide d := by
      refine setHeader_self _ idx _ ?_
      simp only [hAhead]
      rw [hH]
    rw [eS2]
    simp only [hAhead]
    rw [hHp, hHn, hpidx, hnidx]
    rw [eS1]
    rw [eS2]
    rw [hAprev, hAblen]
    exact hback
  · have hnidx : hn ≠ idx := by
      intro e
      apply hpidx
      rw [e, hHp] at hA9
      exact hA9
    rcases hP : d.header hp with ⟨Pit, ⟨pp, pn⟩, Pty⟩
    dsimp only
    have hpn : pn = idx := by
      rw [hP] at hA8
      simpa using hA8
    rw [hpn] at hP
    by_cases hpair : hp = hn
    · have hpp : pp = idx := by
        rw [← hpair, hP] at hA9
        simpa using hA9
      rw [hpp] at hP
      rw [← hpair, hpp]
      have hread2 : (((d.ringNextList idx).foldl Dlx.hide d).setHeader hp
          (⟨Pit, ⟨idx, hp⟩, Pty⟩ : Header I)).header hp =
          ⟨Pit, ⟨idx, hp⟩, Pty⟩ := by
        rw [header_setHeader, if_pos ⟨rfl, by rw [hAlen]; exact hA6⟩]
      have eP2 : (((d.ringNextList idx).foldl Dlx.hide d).setHeader hp
          (⟨Pit, ⟨idx, hp⟩, Pty⟩ : Header I)).setHeader hp
          (⟨((((d.ringNextList idx).foldl Dlx.hide d).setHeader hp
              (⟨Pit, ⟨idx, hp⟩, Pty⟩ : Header I)).header hp).item,
            ⟨hp, ((((d.ringNextList idx).foldl Dlx.hide d).setHeader hp
              (⟨Pit, ⟨idx, hp⟩, Pty⟩ : Header I)).header hp).node.next⟩,
            ((((d.ringNextList idx).foldl Dlx.hide d).setHeader hp
              (⟨Pit, ⟨idx, hp⟩, Pty⟩ : Header I)).header hp).header_type⟩ :
              Header I) =
          ((d.ringNextList idx).foldl Dlx.hide d).setHeader hp
            ⟨Pit, ⟨hp, hp⟩, Pty⟩ := by
        rw [hread2, setHeader_setHeader]
      rw [eP2]
      have hB2H : (((d.ringNextList idx).foldl Dlx.hide d).setHeader hp
          (⟨Pit, ⟨hp, hp⟩, Pty⟩ : Header I)).header idx = d.header idx := by
        rw [header_setHeader, if_neg (fun hc => hpidx hc.1.symm), hAhead]
      rw [hB2H, hHp, hHn, ← hpair]
      have hread3 : (((d.ringNextList idx).foldl Dlx.hide d).setHeader hp
          (⟨Pit, ⟨hp, hp⟩, Pty⟩ : Header I)).header hp =
          ⟨Pit, ⟨hp, hp⟩, Pty⟩ := by
        rw [header_setHeader, if_pos ⟨rfl, by rw [hAlen]; exact hA6⟩]
      have eU1 : (((d.ringNextList idx).foldl Dlx.hide d).setHeader hp
          (⟨Pit, ⟨hp, hp⟩, Pty⟩ : Header I)).setHeader hp
          (⟨((((d.ringNextList idx).foldl Dlx.hide d).setHeader hp
              (⟨Pit, ⟨hp, hp⟩, Pty⟩ : Header I)).header hp).item,
            ⟨((((d.ringNextList idx).foldl Dlx.hide d).setHeader hp
              (⟨Pit, ⟨hp, hp⟩, Pty⟩ : Header I)).header hp).node.prev, idx⟩,
            ((((d.ringNextList idx).foldl Dlx.hide d).setHeader hp
              (⟨Pit, ⟨hp, hp⟩, Pty⟩ : Header I)).header hp).header_type⟩ :
              Header I) =
          ((d.ringNextList idx).foldl Dlx.hide d).setHeader hp
            ⟨Pit, ⟨hp, idx⟩, Pty⟩ := by
        rw [hread3, setHeader_setHeader]
      rw [eU1]
      have hread4 : (((d.ringNextList idx).foldl Dlx.hide d).setHeader hp
          (⟨Pit, ⟨hp, idx⟩, Pty⟩ : Header I)).header hp =
          ⟨Pit, ⟨hp, idx⟩, Pty⟩ := by
        rw [header_setHeader, if_pos ⟨rfl, by rw [hAlen]; exact hA6⟩]
      have eU2 : (((d.ringNextList idx).foldl Dlx.hide d).setHeader hp
          (⟨Pit, ⟨hp, idx⟩, Pty⟩ : Header I)).setHeader hp
          (⟨((((d.ringNextList idx).foldl Dlx.hide d).setHeader hp
              (⟨Pit, ⟨hp, idx⟩, Pty⟩ : Header I)).header hp).item,
            ⟨idx, ((((d.ringNextList idx).foldl Dlx.hide d).setHeader hp
              (⟨Pit, ⟨hp, idx⟩, Pty⟩ : Header I)).header hp).node.next⟩,
            ((((d.ringNextList idx).foldl Dlx.hide d).setHeader hp
              (⟨Pit, ⟨hp, idx⟩, Pty⟩ : Header I)).header hp).header_type⟩ :
              Header I) =
          (d.ringNextList idx).foldl Dlx.hide d := by
        rw [hread4, setHeader_setHeader]
        refine setHeader_self _ hp _ ?_
        rw [hAhead, hP]
      rw [eU2]
      rw [hAprev, hAblen]
      exact hback
    · rcases hX : d.header hn with ⟨Xit, ⟨xp, xn⟩, Xty⟩
      have hxp : xp = idx := by
        rw [hX] at hA9
        simpa using hA9
      rw [hxp] at hX
      have hread2 : (((d.ringNextList idx).foldl Dlx.hide d).setHeader hp
          (⟨Pit, ⟨pp, hn⟩, Pty⟩ : Header I)).header hn = d.header hn := by
        rw [header_setHeader, if_neg (fun hc => hpair hc.1.symm), hAhead]
      have eD2 : (((d.ringNextList idx).foldl Dlx.hide d).setHeader hp
          (⟨Pit, ⟨pp, hn⟩, Pty⟩ : Header I)).setHeader hn
          (⟨((((d.ringNextList idx).foldl Dlx.hide d).setHeader hp
              (⟨Pit, ⟨pp, hn⟩, Pty⟩ : Header I)).header hn).item,
            ⟨hp, ((((d.ringNextList idx).foldl Dlx.hide d).setHeader hp
              (⟨Pit, ⟨pp, hn⟩, Pty⟩ : Header I)).header hn).node.next⟩,
            ((((d.ringNextList idx).foldl Dlx.hide d).setHeader hp
              (⟨Pit, ⟨pp, hn⟩, Pty⟩ : Header I)).header hn).header_type⟩ :
              Header I) =
          (((d.ringNextList idx).foldl Dlx.hide d).setHeader hp
            (⟨Pit, ⟨pp, hn⟩, Pty⟩ : Header I)).setHeader hn
            ⟨Xit, ⟨hp, xn⟩, Xty⟩ := by
        rw [hread2, hX]
      rw [eD2]
      have hB2H : ((((d.ringNextList idx).foldl Dlx.hide d).setHeader hp
          (⟨Pit, ⟨pp, hn⟩, Pty⟩ : Header I)).setHeader hn
          (⟨Xit, ⟨hp, xn⟩, Xty⟩ : Header I)).header idx = d.header idx := by
        rw [header_setHeader, if_neg (fun hc => hnidx hc.1.symm),
          header_setHeader, if_neg (fun hc => hpidx hc.1.symm), hAhead]
      rw [hB2H, hHp, hHn]
      have hread3 : ((((d.ringNextList idx).foldl Dlx.hide d).setHeader hp
          (⟨Pit, ⟨pp, hn⟩, Pty⟩ : Header I)).setHeader hn
          (⟨Xit, ⟨hp, xn⟩, Xty⟩ : Header I)).header hp =
          ⟨Pit, ⟨pp, hn⟩, Pty⟩ := by
        rw [header_setHeader, if_neg (fun hc => hpair hc.1),
          header_setHeader, if_pos ⟨rfl, by rw [hAlen]; exact hA6⟩]
      have eU1 : ((((d.ringNextList idx).foldl Dlx.hide d).setHeader hp
          (⟨Pit, ⟨pp, hn⟩, Pty⟩ : Header I)).setHeader hn
          (⟨Xit, ⟨hp, xn⟩, Xty⟩ : Header I)).setHeader hp
          (⟨(((((d.ringNextList idx).foldl Dlx.hide d).setHeader hp
              (⟨Pit, ⟨pp, hn⟩, Pty⟩ : Header I)).setHeader hn
              (⟨Xit, ⟨hp, xn⟩, Xty⟩ : Header I)).header hp).item,
            ⟨(((((d.ringNextList idx).foldl Dlx.hide d).setHeader hp
              (⟨Pit, ⟨pp, hn⟩, Pty⟩ : Header I)).setHeader hn
              (⟨Xit, ⟨hp, xn⟩, Xty⟩ : Header I)).header hp).node.prev, idx⟩,
            (((((d.ringNextList idx).foldl Dlx.hide d).setHeader hp
              (⟨Pit, ⟨pp, hn⟩, Pty⟩ : Header I)).setHeader hn
              (⟨Xit, ⟨hp, xn⟩, Xty⟩ : Header I)).header hp).header_type⟩ :
              Header I) =
          ((d.ringNextList idx).foldl Dlx.hide d).setHeader hn
            ⟨Xit, ⟨hp, xn⟩, Xty⟩ := by
        rw [hread3]
        rw [setHeader_comm (((d.ringNextList idx).foldl Dlx.hide d).setHeader hp
          (⟨Pit, ⟨pp, hn⟩, Pty⟩ : Header I)) (⟨Xit, ⟨hp, xn⟩, Xty⟩ : Header I)
          (⟨Pit, ⟨pp, idx⟩, Pty⟩ : Header I) (fun hc => hpair hc.symm)]
        rw [setHeader_setHeader]
        rw [setHeader_self _ hp (⟨Pit, ⟨pp, idx⟩, Pty⟩ : Header I)
          (by rw [hAhead, hP])]
      rw [eU1]
      have hread4 : (((d.ringNextList idx).foldl Dlx.hide d).setHeader hn
          (⟨Xit, ⟨hp, xn⟩, Xty⟩ : Header I)).header hn =
          ⟨Xit, ⟨hp, xn⟩, Xty⟩ := by
        rw [header_setHeader, if_pos ⟨rfl, by rw [hAlen]; exact hA7⟩]
      have eU2 : (((d.ringNextList idx).foldl Dlx.hide d).setHeader hn
          (⟨Xit, ⟨hp, xn⟩, Xty⟩ : Header I)).setHeader hn
          (⟨((((d.ringNextList idx).foldl Dlx.hide d).setHeader hn
              (⟨Xit, ⟨hp, xn⟩, Xty⟩ : Header I)).header hn).item,
            ⟨idx, ((((d.ringNextList idx).foldl Dlx.hide d).setHeader hn
              (⟨Xit, ⟨hp, xn⟩, Xty⟩ : Header I)).header hn).node.next⟩,
            ((((d.ringNextList idx).foldl Dlx.hide d).setHeader hn
              (⟨Xit, ⟨hp, xn⟩, Xty⟩ : Header I)).header hn).header_type⟩ :
              Header I) =
          (d.ringNextList idx).foldl Dlx.hide d := by
        rw [hread4, setHeader_setHeader]
        refine setHeader_self _ hn _ ?_
        rw [hAhead, hX]
      rw [eU2]
      rw [hAprev, hAblen]
      exact hback

theorem topF_decSize (d : Dlx I N) (t j : Nat) :
    (d.decSize t).topF j = d.topF j := by
  unfold Dlx.topF
  rw [bnode_decSize]
  by_cases hj : j = t
  · subst hj
    cases hb : d.bnode j with
    | Boundary nm f l => simp [hb]
    | Normal i tt => cases tt <;> simp [hb]
  · simp [hj]

theorem topF_incSize (d : Dlx I N) (t j : Nat) :
    (d.incSize t).topF j = d.topF j := by
  unfold Dlx.topF
  rw [bnode_incSize]
  by_cases hj : j = t
  · subst hj
    cases hb : d.bnode j with
    | Boundary nm f l => simp [hb]
    | Normal i tt => cases tt <;> simp [hb]
  · simp [hj]

theorem topF_set_next (d : Dlx I N) (i v j : Nat) :
    (d.set_next i v).topF j = d.topF j := by
  unfold Dlx.topF
  rw [bnode_set_next]
  by_cases hj : j = i
  · subst hj
    cases hb : d.bnode j with
    | Boundary nm f l => simp [hb]
    | Normal i tt => cases tt <;> simp [hb]
  · simp [hj]

theorem topF_set_prev (d : Dlx I N) (i v j : Nat) :
    (d.set_prev i v).topF j = d.topF j := by
  unfold Dlx.topF
  rw [bnode_set_prev]
  by_cases hj : j = i
  · subst hj
    cases hb : d.bnode j with
    | Boundary nm f l => simp [hb]
    | Normal i tt => cases tt <;> simp [hb]
  · simp [hj]

theorem topF_setColor (d : Dlx I N) (i : Nat) (c : Option Nat) (j : Nat) :
    (d.setColor i c).topF j = d.topF j := by
  unfold Dlx.topF
  rw [bnode_setColor]
  by_cases hj : j = i
  · subst hj
    cases hb : d.bnode j with
    | Boundary nm f l => simp [hb]
    | Normal i tt => cases tt <;> simp [hb]
  · simp [hj]

theorem colorF_hideCellOp (d : Dlx I N) (q j : Nat) :
    (d.hideCellOp q).colorF j = d.colorF j := by
  unfold Dlx.hideCellOp
  split
  · split
    · rw [colorF_decSize, colorF_set_prev, colorF_set_next]
    · rw [colorF_decSize]
  · rfl

theorem colorF_unhideCellOp (d : Dlx I N) (q j : Nat) :
    (d.unhideCellOp q).colorF j = d.colorF j := by
  unfold Dlx.unhideCellOp
  split
  · split
    · rw [colorF_incSize, colorF_set_prev, colorF_set_next]
    · rw [colorF_incSize]
  · rfl

theorem topF_hideCellOp (d : Dlx I N) (q j : Nat) :
    (d.hideCellOp q).topF j = d.topF j := by
  unfold Dlx.hideCellOp
  split
  · split
    · rw [topF_decSize, topF_set_prev, topF_set_next]
    · rw [topF_decSize]
  · rfl

theorem topF_unhideCellOp (d : Dlx I N) (q j : Nat) :
    (d.unhideCellOp q).topF j = d.topF j := by
  unfold Dlx.unhideCellOp
  split
  · split
    · rw [topF_incSize, topF_set_prev, topF_set_next]
    · rw [topF_incSize]
  · rfl

theorem colorF_hideLoop : ∀ (fuel : Nat) (d : Dlx I N) (idx q j : Nat),
    (Dlx.hideLoop d idx q fuel).colorF j = d.colorF j := by
  intro fuel
  induction fuel with
  | zero => intro d idx q j; rfl
  | succ n ih =>
    intro d idx q j
    simp only [Dlx.hideLoop]
    split
    · rfl
    · split
      · exact ih d idx _ j
      · rfl
      · rw [ih, colorF_hideCellOp]

theorem colorF_hide (d : Dlx I N) (p j : Nat) :
    (d.hide p).colorF j = d.colorF j := by
  unfold Dlx.hide
  exact colorF_hideLoop _ d p _ j

theorem colorF_unhideLoop : ∀ (fuel : Nat) (d : Dlx I N) (idx q j : Nat),
    (Dlx.unhideLoop d idx q fuel).colorF j = d.colorF j := by
  intro fuel
  induction fuel with
  | zero => intro d idx q j; rfl
  | succ n ih =>
    intro d idx q j
    simp only [Dlx.unhideLoop]
    split
    · rfl
    · split
      · exact ih d idx _ j
      · rfl
      · rw [ih, colorF_unhideCellOp]

theorem colorF_unhide (d : Dlx I N) (p j : Nat) :
    (d.unhide p).colorF j = d.colorF j := by
  unfold Dlx.unhide
  exact colorF_unhideLoop _ d p _ j

theorem topF_hideLoop : ∀ (fuel : Nat) (d : Dlx I N) (idx q j : Nat),
    (Dlx.hideLoop d idx q fuel).topF j = d.topF j := by
  intro fuel
  induction fuel with
  | zero => intro d idx q j; rfl
  | succ n ih =>
    intro d idx q j
    simp only [Dlx.hideLoop]
    split
    · rfl
    · split
      · exact ih d idx _ j
      · rfl
      · rw [ih, topF_hideCellOp]

theorem topF_hide (d : Dlx I N) (p j : Nat) :
    (d.hide p).topF j = d.topF j := by
  unfold Dlx.hide
  exact topF_hideLoop _ d p _ j

theorem topF_unhideLoop : ∀ (fuel : Nat) (d : Dlx I N) (idx q j : Nat),
    (Dlx.unhideLoop d idx q fuel).topF j = d.topF j := by
  intro fuel
  induction fuel with
  | zero => intro d idx q j; rfl
  | succ n ih =>
    intro d idx q j
    simp only [Dlx.unhideLoop]
    split
    · rfl
    · split
      · exact ih d idx _ j
      · rfl
      · rw [ih, topF_unhideCellOp]

theorem topF_unhide (d : Dlx I N) (p j : Nat) :
    (d.unhide p).topF j = d.topF j := by
  unfold Dlx.unhide
  exact topF_unhideLoop _ d p _ j

theorem setColor_eq2 (d : Dlx I N) (i a b : Nat) (c0 c : Option Nat) (t : Nat)
    (h : d.bnode i = Node.Normal ⟨a, b⟩ (NodeType.Body c0 t)) :
    d.setColor i c = d.setBody i (Node.Normal ⟨a, b⟩ (NodeType.Body c t)) := by
  unfold Dlx.setColor
  rw [h]

theorem unpurifyStep_purifyStep (avoid : List Nat) (c : Nat) (st : Dlx I N)
    (p : Nat) (h : purifyStepOkB avoid c st p = true) :
    unpurifyStep c (purifyStep c st p) p = st := by
  unfold purifyStepOkB at h
  rw [Bool.and_eq_true] at h
  obtain ⟨hsome, hcond⟩ := h
  by_cases hc : st.colorF p = some c
  · rw [if_pos hc] at hcond
    unfold purifyStep
    rw [if_pos hc]
    cases hb : st.bnode p with
    | Boundary nm f l =>
      unfold Dlx.isBody at hcond
      rw [hb] at hcond
      simp at hcond
    | Normal inode tt =>
      cases tt with
      | Header s =>
        unfold Dlx.isBody at hcond
        rw [hb] at hcond
        simp at hcond
      | Body c0 t =>
        obtain ⟨a, b⟩ := inode
        have hc0 : c0 = some c := by
          unfold Dlx.colorF at hc
          rw [hb] at hc
          exact hc
        subst hc0
        have hlt := bnode_lt_length st p _ _ hb
        rw [setColor_eq2 st p a b (some c) none t hb]
        have hbn : (st.setBody p (Node.Normal ⟨a, b⟩ (NodeType.Body none t))).bnode p =
            Node.Normal ⟨a, b⟩ (NodeType.Body none t) := by
          rw [bnode_setBody, if_pos ⟨rfl, hlt⟩]
        have hcol : (st.setBody p (Node.Normal ⟨a, b⟩ (NodeType.Body none t))).colorF p =
            none := by
          unfold Dlx.colorF
          rw [hbn]
        unfold unpurifyStep
        rw [if_pos (by rw [hcol]; rfl)]
        rw [setColor_eq2 _ p a b none (some c) t hbn, setBody_setBody]
        exact setBody_self st p _ hb
  · rw [if_neg hc] at hcond
    unfold purifyStep
    rw [if_neg hc]
    unfold unpurifyStep
    have hcol : (st.hide p).colorF p = st.colorF p := colorF_hide st p p
    have hnone : ((st.hide p).colorF p).isNone = false := by
      rw [hcol]
      cases hcf : st.colorF p
      · rw [hcf] at hsome
        simp at hsome
      · rfl
    rw [if_neg (by rw [hnone]; simp)]
    exact unhide_hide avoid st p hcond

theorem purifyStep_topF (c : Nat) (st : Dlx I N) (p j : Nat) :
    (purifyStep c st p).topF j = st.topF j := by
  unfold purifyStep
  split
  · exact topF_setColor st p none j
  · exact topF_hide st p j

theorem purifyStep_colorF_ne (c : Nat) (st : Dlx I N) (p j : Nat) (hjp : j ≠ p) :
    (purifyStep c st p).colorF j = st.colorF j := by
  unfold purifyStep
  split
  · exact colorF_setColor_ne st p none j hjp
  · exact colorF_hide st p j

theorem purifyStep_pres (avoid : List Nat) (c : Nat) (st : Dlx I N) (p : Nat)
    (h : purifyStepOkB avoid c st p = true) (j : Nat) (hj : j ∈ avoid) :
    (purifyStep c st p).nextF j = st.nextF j ∧
    (purifyStep c st p).prevF j = st.prevF j := by
  unfold purifyStepOkB at h
  rw [Bool.and_eq_true] at h
  obtain ⟨hsome, hcond⟩ := h
  unfold purifyStep
  by_cases hc : st.colorF p = some c
  · rw [if_pos hc]
    exact ⟨nextF_setColor st p none j, prevF_setColor st p none j⟩
  · rw [if_neg hc] at hcond
    rw [if_neg hc]
    obtain ⟨e1, e2, _⟩ := hide_pres avoid st p hcond j hj
    exact ⟨e1, e2⟩

theorem sameShape_purifyStep (c : Nat) (st : Dlx I N) (p : Nat) :
    sameShape st (purifyStep c st p) := by
  unfold purifyStep
  split
  · refine sameShape_of_nshape ?_ ?_
    · rw [length_setColor]
    · intro j
      rw [nshape_setColor]
  · exact sameShape_hide st p

theorem purifyFold_topF (c : Nat) :
    ∀ (L : List Nat) (st : Dlx I N) (j : Nat),
      (L.foldl (purifyStep c) st).topF j = st.topF j := by
  intro L
  induction L with
  | nil => intro st j; rfl
  | cons q rest ih =>
    intro st j
    show (rest.foldl (purifyStep c) (purifyStep c st q)).topF j = st.topF j
    rw [ih, purifyStep_topF]

theorem purifyFold_colorF (c : Nat) :
    ∀ (L : List Nat) (st : Dlx I N) (j : Nat), j ∉ L →
      (L.foldl (purifyStep c) st).colorF j = st.colorF j := by
  intro L
  induction L with
  | nil => intro st j _; rfl
  | cons q rest ih =>
    intro st j hj
    show (rest.foldl (purifyStep c) (purifyStep c st q)).colorF j = st.colorF j
    rw [ih _ j (fun hc => hj (by simp [hc])),
      purifyStep_colorF_ne c st q j (fun hc => hj (by simp [hc]))]

theorem sameShape_purifyFold (c : Nat) :
    ∀ (L : List Nat) (st : Dlx I N),
      sameShape st (L.foldl (purifyStep c) st) := by
  intro L
  induction L with
  | nil => intro st; exact sameShape_refl st
  | cons q rest ih =>
    intro st
    exact sameShape_trans (sameShape_purifyStep c st q) (ih (purifyStep c st q))

theorem purifyFold_pres (avoid : List Nat) (c : Nat) :
    ∀ (L : List Nat) (st : Dlx I N),
      SeqOkB (purifyStep c) (purifyStepOkB avoid c) st L = true →
      ∀ j ∈ avoid, (L.foldl (purifyStep c) st).nextF j = st.nextF j ∧
        (L.foldl (purifyStep c) st).prevF j = st.prevF j := by
  intro L
  induction L with
  | nil => intro st _ j _; exact ⟨rfl, rfl⟩
  | cons q rest ih =>
    intro st hok j hj
    unfold SeqOkB at hok
    rw [Bool.and_eq_true] at hok
    obtain ⟨hP, hrest⟩ := hok
    obtain ⟨e1, e2⟩ := ih (purifyStep c st q) hrest j hj
    obtain ⟨f1, f2⟩ := purifyStep_pres avoid c st q hP j hj
    exact ⟨e1.trans f1, e2.trans f2⟩

theorem purifyLoop_stop (d : Dlx I N) (top c fuel : Nat) :
    Dlx.purifyLoop d top c top (fuel + 1) = d := by
  simp only [Dlx.purifyLoop]
  simp

theorem purifyLoop_step (d : Dlx I N) (top c p fuel : Nat) (hne : p ≠ top) :
    Dlx.purifyLoop d top c p (fuel + 1) =
      Dlx.purifyLoop (purifyStep c d p) top c ((purifyStep c d p).nextF p) fuel := by
  simp only [Dlx.purifyLoop]
  rw [if_neg hne]
  rfl

theorem unpurifyLoop_stop (d : Dlx I N) (top c fuel : Nat) :
    Dlx.unpurifyLoop d top c top (fuel + 1) = d := by
  simp only [Dlx.unpurifyLoop]
  simp

theorem unpurifyLoop_step (d : Dlx I N) (top c p fuel : Nat) (hne : p ≠ top) :
    Dlx.unpurifyLoop d top c p (fuel + 1) =
      Dlx.unpurifyLoop (unpurifyStep c d p) top c
        ((unpurifyStep c d p).prevF p) fuel := by
  simp only [Dlx.unpurifyLoop]
  rw [if_neg hne]
  rfl

theorem purifyLoop_eq_fold (top c : Nat) (avoid : List Nat) :
    ∀ (L : List Nat) (st : Dlx I N) (p fuel : Nat),
      L.length + 1 ≤ fuel →
      (∀ q ∈ L, q ∈ avoid ∧ q ≠ top) →
      walkNextB st top p L = true →
      SeqOkB (purifyStep c) (purifyStepOkB avoid c) st L = true →
      Dlx.purifyLoop st top c p fuel = L.foldl (purifyStep c) st := by
  intro L
  induction L with
  | nil =>
    intro st p fuel hf _ hw _
    obtain ⟨f1, rfl⟩ : ∃ f1, fuel = f1 + 1 := ⟨fuel - 1, by omega⟩
    have hp : p = top := by simpa [walkNextB] using hw
    rw [hp, purifyLoop_stop]
    rfl
  | cons q L2 ih =>
    intro st p fuel hf hmem hw hseq
    obtain ⟨f1, rfl⟩ : ∃ f1, fuel = f1 + 1 := ⟨fuel - 1, by omega⟩
    have hw2 : (p == q && walkNextB st top (st.nextF q) L2) = true := hw
    rw [Bool.and_eq_true] at hw2
    obtain ⟨hpq, hwrest⟩ := hw2
    have hpq2 : p = q := by simpa using hpq
    subst hpq2
    unfold SeqOkB at hseq
    rw [Bool.and_eq_true] at hseq
    obtain ⟨hlegal, hseqrest⟩ := hseq
    obtain ⟨hqa, hqne⟩ := hmem p (by simp)
    rw [purifyLoop_step st top c p f1 hqne]
    have hnp : (purifyStep c st p).nextF p = st.nextF p :=
      (purifyStep_pres avoid c st p hlegal p hqa).1
    rw [hnp]
    have hwrest2 : walkNextB (purifyStep c st p) top (st.nextF p) L2 = true := by
      rw [walkNextB_congr top L2 st (purifyStep c st p) _
        (fun j hj => (purifyStep_pres avoid c st p hlegal j
          (hmem j (by simp [hj])).1).1)]
      exact hwrest
    rw [List.length_cons] at hf
    have := ih (purifyStep c st p) (st.nextF p) f1 (by omega)
      (fun j hj => hmem j (by simp [hj])) hwrest2 hseqrest
    rw [this]
    rfl

theorem unpurifyLoop_fold (top c : Nat) (avoid : List Nat) :
    ∀ (M : List Nat) (st : Dlx I N) (p fuel : Nat),
      M.length + 1 ≤ fuel →
      (∀ q ∈ M, q ∈ avoid ∧ q ≠ top) →
      walkPrevB st top p M = true →
      SeqOkB (purifyStep c) (purifyStepOkB avoid c) st M.reverse = true →
      Dlx.unpurifyLoop (M.reverse.foldl (purifyStep c) st) top c p fuel = st := by
  intro M
  induction M with
  | nil =>
    intro st p fuel hf _ hw _
    obtain ⟨f1, rfl⟩ : ∃ f1, fuel = f1 + 1 := ⟨fuel - 1, by omega⟩
    have hp : p = top := by simpa [walkPrevB] using hw
    rw [hp, unpurifyLoop_stop]
    rfl
  | cons q M2 ih =>
    intro st p fuel hf hmem hw hseq
    obtain ⟨f1, rfl⟩ : ∃ f1, fuel = f1 + 1 := ⟨fuel - 1, by omega⟩
    have hw2 : (p == q && walkPrevB st top (st.prevF q) M2) = true := hw
    rw [Bool.and_eq_true] at hw2
    obtain ⟨hpq, hwrest⟩ := hw2
    have hpq2 : p = q := by simpa using hpq
    subst hpq2
    rw [List.reverse_cons] at hseq ⊢
    rw [SeqOkB_append, Bool.and_eq_true] at hseq
    obtain ⟨hseqpre, hseqlast⟩ := hseq
    have hlegal : purifyStepOkB avoid c (M2.reverse.foldl (purifyStep c) st) p = true := by
      have h2 : SeqOkB (purifyStep c) (purifyStepOkB avoid c)
          (M2.reverse.foldl (purifyStep c) st) [p] = true := hseqlast
      unfold SeqOkB at h2
      rw [Bool.and_eq_true] at h2
      exact h2.1
    obtain ⟨hqa, hqne⟩ := hmem p (by simp)
    rw [List.foldl_append]
    show Dlx.unpurifyLoop (purifyStep c (M2.reverse.foldl (purifyStep c) st) p)
      top c p (f1 + 1) = st
    rw [unpurifyLoop_step _ top c p f1 hqne]
    rw [unpurifyStep_purifyStep avoid c (M2.reverse.foldl (purifyStep c) st) p hlegal]
    have hprev : (M2.reverse.foldl (purifyStep c) st).prevF p = st.prevF p :=
      (purifyFold_pres avoid c M2.reverse st hseqpre p hqa).2
    rw [hprev]
    rw [List.length_cons] at hf
    exact ih st (st.prevF p) f1 (by omega)
      (fun j hj => hmem j (by simp [hj])) hwrest hseqpre

theorem bnode_body_eta (d : Dlx I N) (j : Nat) (h : d.isBody j = true) :
    d.bnode j = Node.Normal ⟨d.prevF j, d.nextF j⟩
      (NodeType.Body (d.colorF j) (d.topF j)) := by
  cases hb : d.bnode j with
  | Boundary nm f l =>
    unfold Dlx.isBody at h
    rw [hb] at h
    simp at h
  | Normal inode tt =>
    cases tt with
    | Header s =>
      unfold Dlx.isBody at h
      rw [hb] at h
      simp at h
    | Body c t =>
      have h1 : d.prevF j = inode.prev := by unfold Dlx.prevF; rw [hb]
      have h2 : d.nextF j = inode.next := by unfold Dlx.nextF; rw [hb]
      have h3 : d.colorF j = c := by unfold Dlx.colorF; rw [hb]
      have h4 : d.topF j = t := by unfold Dlx.topF; rw [hb]
      rw [h1, h2, h3, h4]

theorem unpurify_purify (extra : List Nat) (d : Dlx I N) (idx : Nat)
    (h : purifyLegalAvoidB extra d idx = true) :
    (d.purify idx).unpurify idx = d := by
  cases hbi : d.bnode idx with
  | Boundary nm f l =>
    unfold purifyLegalAvoidB at h
    rw [hbi] at h
    simp at h
  | Normal inode tt =>
    cases tt with
    | Header s =>
      unfold purifyLegalAvoidB at h
      rw [hbi] at h
      simp at h
    | Body copt top =>
      cases copt with
      | none =>
        unfold purifyLegalAvoidB at h
        rw [hbi] at h
        simp at h
      | some c =>
        unfold purifyLegalAvoidB at h
        rw [hbi] at h
        simp only [Bool.and_eq_true, decide_eq_true_eq, List.all_eq_true] at h
        obtain ⟨⟨⟨hB1, hB2⟩, hB3⟩, hB4⟩ := h
        have hchain : chainOkB d top (d.ringNextList top) top = true := hB1
        have hmem : ∀ q ∈ d.ringNextList top,
            q ∈ extra ++ idx :: top :: d.ringNextList top ∧ q ≠ top := by
          intro q hq
          exact ⟨by simp [hq], (hB2 q hq).1.1⟩
        have hidxR : idx ∉ d.ringNextList top := fun hc => (hB2 idx hc).1.2 rfl
        unfold Dlx.purify
        rw [hbi]
        show ((Dlx.purifyLoop d top c (d.nextF top) (d.body.length + 2)).unpurify idx) = d
        rw [purifyLoop_eq_fold top c (extra ++ idx :: top :: d.ringNextList top)
          (d.ringNextList top) d (d.nextF top) (d.body.length + 2)
          (by omega) hmem (chain_walkNext d top (d.ringNextList top) top hchain) hB4]
        have hshA : sameShape d ((d.ringNextList top).foldl (purifyStep c) d) :=
          sameShape_purifyFold c (d.ringNextList top) d
        have hbodyd : d.isBody idx = true := by
          unfold Dlx.isBody
          rw [hbi]
        have hbodyA : ((d.ringNextList top).foldl (purifyStep c) d).isBody idx = true := by
          rw [isBody_eq_kind, ← (hshA.2 idx).1, ← isBody_eq_kind]
          exact hbodyd
        have hc1 : d.colorF idx = some c := by
          unfold Dlx.colorF
          rw [hbi]
        have ht1 : d.topF idx = top := by
          unfold Dlx.topF
          rw [hbi]
        have hbA : ((d.ringNextList top).foldl (purifyStep c) d).bnode idx =
            Node.Normal ⟨((d.ringNextList top).foldl (purifyStep c) d).prevF idx,
              ((d.ringNextList top).foldl (purifyStep c) d).nextF idx⟩
              (NodeType.Body (some c) top) := by
          rw [bnode_body_eta _ idx hbodyA,
            purifyFold_colorF c (d.ringNextList top) d idx hidxR,
            purifyFold_topF c (d.ringNextList top) d idx, hc1, ht1]
        unfold Dlx.unpurify
        rw [hbA]
        show Dlx.unpurifyLoop ((d.ringNextList top).foldl (purifyStep c) d) top c
          (((d.ringNextList top).foldl (purifyStep c) d).prevF top)
          (((d.ringNextList top).foldl (purifyStep c) d).body.length + 2) = d
        have hprevtop : ((d.ringNextList top).foldl (purifyStep c) d).prevF top =
            d.prevF top :=
          (purifyFold_pres (extra ++ idx :: top :: d.ringNextList top) c
            (d.ringNextList top) d hB4 top (by simp)).2
        have hblen : ((d.ringNextList top).foldl (purifyStep c) d).body.length =
            d.body.length := hshA.1.symm
        rw [hprevtop, hblen]
        have hback := unpurifyLoop_fold top c
          (extra ++ idx :: top :: d.ringNextList top)
          (d.ringNextList top).reverse d (d.prevF top) (d.body.length + 2)
          (by rw [List.length_reverse]; omega)
          (fun q hq => hmem q (List.mem_reverse.mp hq))
          (chain_walkPrev d top (d.ringNextList top) top hchain)
          (by rw [List.reverse_reverse]; exact hB4)
        rw [List.reverse_reverse] at hback
        exact hback

theorem headers_coverLoop : ∀ (fuel : Nat) (d : Dlx I N) (idx p : Nat),
    (Dlx.coverLoop d idx p fuel).headers = d.headers := by
  intro fuel
  induction fuel with
  | zero => intro d idx p; rfl
  | succ n ih =>
    intro d idx p
    simp only [Dlx.coverLoop]
    split
    · rfl
    · rw [ih, headers_hide]

theorem headerType_setHeader_update (d : Dlx I N) (i : Nat) (b : Header I)
    (nd : ListNodeI) (j : Nat) (hb : b.header_type = (d.header i).header_type) :
    ((d.setHeader i ⟨b.item, nd, b.header_type⟩).header j).header_type =
      (d.header j).header_type := by
  rw [header_setHeader]
  split
  · rename_i hc
    show b.header_type = (d.header j).header_type
    rw [hb, hc.1]
  · rfl

theorem headerType_cover (d : Dlx I N) (idx j : Nat) :
    ((d.cover idx).header j).header_type = (d.header j).header_type := by
  simp only [Dlx.cover]
  rw [headerType_setHeader_update _ _ _ _ _ rfl]
  rw [headerType_setHeader_update _ _ _ _ _ rfl]
  unfold Dlx.header
  rw [headers_coverLoop]

theorem isPrimary_cover (d : Dlx I N) (idx j : Nat) :
    (d.cover idx).isPrimary j = d.isPrimary j := by
  unfold Dlx.isPrimary Header.is_primary
  rw [headerType_cover]

theorem headers_purifyLoop : ∀ (fuel : Nat) (d : Dlx I N) (top c p : Nat),
    (Dlx.purifyLoop d top c p fuel).headers = d.headers := by
  intro fuel
  induction fuel with
  | zero => intro d top c p; rfl
  | succ n ih =>
    intro d top c p
    simp only [Dlx.purifyLoop]
    split
    · rfl
    · rw [ih]
      split
      · rw [headers_setColor]
      · rw [headers_hide]

theorem headers_purify (d : Dlx I N) (idx : Nat) :
    (d.purify idx).headers = d.headers := by
  unfold Dlx.purify
  split
  · rw [headers_purifyLoop]
  · rfl

theorem isPrimary_purify (d : Dlx I N) (idx j : Nat) :
    (d.purify idx).isPrimary j = d.isPrimary j := by
  unfold Dlx.isPrimary Dlx.header
  rw [headers_purify]

theorem purify_colorF_self (extra : List Nat) (d : Dlx I N) (idx : Nat)
    (h : purifyLegalAvoidB extra d idx = true) :
    (d.purify idx).colorF idx = d.colorF idx := by
  cases hbi : d.bnode idx with
  | Boundary nm f l =>
    unfold purifyLegalAvoidB at h
    rw [hbi] at h
    simp at h
  | Normal inode tt =>
    cases tt with
    | Header s =>
      unfold purifyLegalAvoidB at h
      rw [hbi] at h
      simp at h
    | Body copt top =>
      cases copt with
      | none =>
        unfold purifyLegalAvoidB at h
        rw [hbi] at h
        simp at h
      | some c =>
        unfold purifyLegalAvoidB at h
        rw [hbi] at h
        simp only [Bool.and_eq_true, decide_eq_true_eq, List.all_eq_true] at h
        obtain ⟨⟨⟨hB1, hB2⟩, hB3⟩, hB4⟩ := h
        have hchain : chainOkB d top (d.ringNextList top) top = true := hB1
        have hmem : ∀ q ∈ d.ringNextList top,
            q ∈ extra ++ idx :: top :: d.ringNextList top ∧ q ≠ top := by
          intro q hq
          exact ⟨by simp [hq], (hB2 q hq).1.1⟩
        have hidxR : idx ∉ d.ringNextList top := fun hc => (hB2 idx hc).1.2 rfl
        unfold Dlx.purify
        rw [hbi]
        show (Dlx.purifyLoop d top c (d.nextF top) (d.body.length + 2)).colorF idx =
          d.colorF idx
        rw [purifyLoop_eq_fold top c (extra ++ idx :: top :: d.ringNextList top)
          (d.ringNextList top) d (d.nextF top) (d.body.length + 2)
          (by omega) hmem (chain_walkNext d top (d.ringNextList top) top hchain) hB4]
        exact purifyFold_colorF c (d.ringNextList top) d idx hidxR

theorem uncommit_commit (extra : List Nat) (d : Dlx I N) (p top : Nat)
    (h : commitLegalAvoidB extra d p top = true) :
    (d.commit p top).uncommit p top = d := by
  unfold commitLegalAvoidB at h
  unfold Dlx.commit Dlx.uncommit
  by_cases hP : d.isPrimary top = true
  · rw [if_pos hP] at h
    rw [if_pos hP]
    rw [if_pos (show (d.cover top).isPrimary top = true from by
      rw [isPrimary_cover]; exact hP)]
    exact uncover_cover extra d top h
  · rw [if_neg hP] at h
    rw [if_neg hP]
    by_cases hC : (d.colorF p).isSome = true
    · rw [if_pos hC] at h
      rw [if_pos hC]
      rw [if_neg (show ¬(d.purify p).isPrimary top = true from by
        rw [isPrimary_purify]; exact hP)]
      rw [if_pos (show ((d.purify p).colorF p).isSome = true from by
        rw [purify_colorF_self extra d p h]; exact hC)]
      exact unpurify_purify extra d p h
    · rw [if_neg hC]
      rw [if_neg hP, if_neg hC]

theorem sameShape_setHeader (d : Dlx I N) (i : Nat) (x : Header I) :
    sameShape d (d.setHeader i x) := ⟨rfl, fun _ => ⟨rfl, rfl, rfl⟩⟩

theorem sameShape_coverLoop : ∀ (fuel : Nat) (d : Dlx I N) (idx p : Nat),
    sameShape d (Dlx.coverLoop d idx p fuel) := by
  intro fuel
  induction fuel with
  | zero => intro d idx p; exact sameShape_refl d
  | succ n ih =>
    intro d idx p
    simp only [Dlx.coverLoop]
    split
    · exact sameShape_refl d
    · exact sameShape_trans (sameShape_hide d p) (ih (d.hide p) idx _)

theorem sameShape_cover (d : Dlx I N) (idx : Nat) : sameShape d (d.cover idx) := by
  simp only [Dlx.cover]
  exact sameShape_trans (sameShape_coverLoop _ d idx _)
    (sameShape_trans (sameShape_setHeader _ _ _) (sameShape_setHeader _ _ _))

theorem sameShape_uncoverLoop : ∀ (fuel : Nat) (d : Dlx I N) (idx p : Nat),
    sameShape d (Dlx.uncoverLoop d idx p fuel) := by
  intro fuel
  induction fuel with
  | zero => intro d idx p; exact sameShape_refl d
  | succ n ih =>
    intro d idx p
    simp only [Dlx.uncoverLoop]
    split
    · exact sameShape_refl d
    · exact sameShape_trans (sameShape_unhide d p) (ih (d.unhide p) idx _)

theorem sameShape_uncover (d : Dlx I N) (idx : Nat) :
    sameShape d (d.uncover idx) := by
  simp only [Dlx.uncover]
  exact sameShape_trans (sameShape_setHeader _ _ _)
    (sameShape_trans (sameShape_setHeader _ _ _) (sameShape_uncoverLoop _ _ idx _))

theorem sameShape_setColor (d : Dlx I N) (i : Nat) (c : Option Nat) :
    sameShape d (d.setColor i c) := by
  refine sameShape_of_nshape ?_ ?_
  · rw [length_setColor]
  · intro j
    rw [nshape_setColor]

theorem sameShape_purifyLoop : ∀ (fuel : Nat) (d : Dlx I N) (top c p : Nat),
    sameShape d (Dlx.purifyLoop d top c p fuel) := by
  intro fuel
  induction fuel with
  | zero => intro d top c p; exact sameShape_refl d
  | succ n ih =>
    intro d top c p
    simp only [Dlx.purifyLoop]
    split
    · exact sameShape_refl d
    · split
      · exact sameShape_trans (sameShape_setColor d p none) (ih _ top c _)
      · exact sameShape_trans (sameShape_hide d p) (ih _ top c _)

theorem sameShape_purify (d : Dlx I N) (idx : Nat) : sameShape d (d.purify idx) := by
  unfold Dlx.purify
  split
  · exact sameShape_purifyLoop _ d _ _ _
  · exact sameShape_refl d

theorem sameShape_unpurifyLoop : ∀ (fuel : Nat) (d : Dlx I N) (top c p : Nat),
    sameShape d (Dlx.unpurifyLoop d top c p fuel) := by
  intro fuel
  induction fuel with
  | zero => intro d top c p; exact sameShape_refl d
  | succ n ih =>
    intro d top c p
    simp only [Dlx.unpurifyLoop]
    split
    · exact sameShape_refl d
    · split
      · exact sameShape_trans (sameShape_setColor d p _) (ih _ top c _)
      · exact sameShape_trans (sameShape_unhide d p) (ih _ top c _)

theorem sameShape_unpurify (d : Dlx I N) (idx : Nat) :
    sameShape d (d.unpurify idx) := by
  unfold Dlx.unpurify
  split
  · exact sameShape_unpurifyLoop _ d _ _ _
  · exact sameShape_refl d

theorem sameShape_commit (d : Dlx I N) (p top : Nat) :
    sameShape d (d.commit p top) := by
  unfold Dlx.commit
  split
  · exact sameShape_cover d top
  · split
    · exact sameShape_purify d p
    · exact sameShape_refl d

theorem sameShape_uncommit (d : Dlx I N) (p top : Nat) :
    sameShape d (d.uncommit p top) := by
  unfold Dlx.uncommit
  split
  · exact sameShape_uncover d top
  · split
    · exact sameShape_unpurify d p
    · exact sameShape_refl d

theorem topF_coverLoop : ∀ (fuel : Nat) (d : Dlx I N) (idx p j : Nat),
    (Dlx.coverLoop d idx p fuel).topF j = d.topF j := by
  intro fuel
  induction fuel with
  | zero => intro d idx p j; rfl
  | succ n ih =>
    intro d idx p j
    simp only [Dlx.coverLoop]
    split
    · rfl
    · rw [ih, topF_hide]

theorem topF_setHeader (d : Dlx I N) (i : Nat) (x : Header I) (j : Nat) :
    (d.setHeader i x).topF j = d.topF j := rfl

theorem topF_cover (d : Dlx I N) (idx j : Nat) :
    (d.cover idx).topF j = d.topF j := by
  simp only [Dlx.cover]
  rw [topF_setHeader, topF_setHeader, topF_coverLoop]

theorem topF_purifyLoop : ∀ (fuel : Nat) (d : Dlx I N) (top c p j : Nat),
    (Dlx.purifyLoop d top c p fuel).topF j = d.topF j := by
  intro fuel
  induction fuel with
  | zero => intro d top c p j; rfl
  | succ n ih =>
    intro d top c p j
    simp only [Dlx.purifyLoop]
    split
    · rfl
    · rw [ih]
      split
      · rw [topF_setColor]
      · rw [topF_hide]

theorem topF_purify (d : Dlx I N) (idx j : Nat) :
    (d.purify idx).topF j = d.topF j := by
  unfold Dlx.purify
  split
  · rw [topF_purifyLoop]
  · rfl

theorem topF_commit (d : Dlx I N) (p top j : Nat) :
    (d.commit p top).topF j = d.topF j := by
  unfold Dlx.commit
  split
  · exact topF_cover d top j
  · split
    · exact topF_purify d p j
    · rfl

theorem headersLen_commit (d : Dlx I N) (p top : Nat) :
    (d.commit p top).headers.length = d.headers.length := by
  unfold Dlx.commit
  split
  · simp only [Dlx.cover]
    rw [headersLen_setHeader, headersLen_setHeader, headers_coverLoop]
  · split
    · rw [headers_purify]
    · rfl

theorem crcLoop_stop (d : Dlx I N) (idx fuel : Nat) :
    Dlx.crcLoop d idx idx (fuel + 1) = d := by
  simp only [Dlx.crcLoop]
  simp

theorem crcLoop_body_step (d : Dlx I N) (idx q fuel : Nat) (hne : q ≠ idx)
    (i : ListNodeI) (c : Option Nat) (t : Nat)
    (hb : d.bnode q = Node.Normal i (NodeType.Body c t)) :
    Dlx.crcLoop d idx q (fuel + 1) =
      Dlx.crcLoop (d.commit q t) idx (wadd1 q) fuel := by
  simp only [Dlx.crcLoop]
  rw [if_neg hne, hb]

theorem crcLoop_boundary_step (d : Dlx I N) (idx q fuel : Nat) (hne : q ≠ idx)
    (nm : Option N) (f l : Nat) (hb : d.bnode q = Node.Boundary nm f l) :
    Dlx.crcLoop d idx q (fuel + 1) = Dlx.crcLoop d idx f fuel := by
  simp only [Dlx.crcLoop]
  rw [if_neg hne, hb]

theorem urcLoop_stop (d : Dlx I N) (idx fuel : Nat) :
    Dlx.urcLoop d idx idx (fuel + 1) = d := by
  simp only [Dlx.urcLoop]
  simp

theorem urcLoop_body_step (d : Dlx I N) (idx q fuel : Nat) (hne : q ≠ idx)
    (i : ListNodeI) (c : Option Nat) (t : Nat)
    (hb : d.bnode q = Node.Normal i (NodeType.Body c t)) :
    Dlx.urcLoop d idx q (fuel + 1) =
      Dlx.urcLoop (d.uncommit q t) idx (wsub1 q) fuel := by
  simp only [Dlx.urcLoop]
  rw [if_neg hne, hb]

theorem urcLoop_boundary_step (d : Dlx I N) (idx q fuel : Nat) (hne : q ≠ idx)
    (nm : Option N) (f l : Nat) (hb : d.bnode q = Node.Boundary nm f l) :
    Dlx.urcLoop d idx q (fuel + 1) = Dlx.urcLoop d idx l fuel := by
  simp only [Dlx.urcLoop]
  rw [if_neg hne, hb]

theorem crcLoop_chunk (idx : Nat) :
    ∀ (cnt : Nat) (d : Dlx I N) (j fuel : Nat), cnt + 1 ≤ fuel →
      (∀ m, m < cnt → d.bKind (j + m) = 2 ∧ j + m ≠ idx) →
      j + cnt < USZ →
      Dlx.crcLoop d idx j fuel =
        Dlx.crcLoop
          ((List.range' j cnt).foldl (fun st p => st.commit p (st.topF p)) d)
          idx (j + cnt) (fuel - cnt) := by
  intro cnt
  induction cnt with
  | zero =>
    intro d j fuel hf hm hu
    simp
  | succ n ih =>
    intro d j fuel hf hm hu
    obtain ⟨f1, rfl⟩ : ∃ f1, fuel = f1 + 1 := ⟨fuel - 1, by omega⟩
    obtain ⟨hk0, hne0⟩ := hm 0 (Nat.succ_pos n)
    obtain ⟨i, c, t, hb⟩ := bnode_body_of_kind d (j + 0) hk0
    rw [crcLoop_body_step d idx j f1 (by simpa using hne0) i c t (by simpa using hb)]
    rw [wadd1_eq j (by omega)]
    have ht : d.topF j = t := by
      unfold Dlx.topF
      rw [show d.bnode j = Node.Normal i (NodeType.Body c t) from by simpa using hb]
    have hsh := sameShape_commit d j t
    have hkinds : ∀ m, m < n → (d.commit j t).bKind (j + 1 + m) = 2 ∧
        j + 1 + m ≠ idx := by
      intro m hmn
      obtain ⟨hk, hne⟩ := hm (m + 1) (by omega)
      have harith : j + 1 + m = j + (m + 1) := by omega
      refine ⟨?_, by rw [harith]; exact hne⟩
      rw [← (hsh.2 (j + 1 + m)).1, harith]
      exact hk
    have hres := ih (d.commit j t) (j + 1) f1 (by omega) hkinds (by omega)
    rw [hres]
    have hfold : (List.range' j (n + 1)).foldl
        (fun st p => st.commit p (st.topF p)) d =
        (List.range' (j + 1) n).foldl (fun st p => st.commit p (st.topF p))
          (d.commit j t) := by
      rw [List.range'_succ]
      show (List.range' (j + 1) n).foldl (fun st p => st.commit p (st.topF p))
        (d.commit j (d.topF j)) = _
      rw [ht]
    rw [hfold]
    have e1 : j + 1 + n = j + (n + 1) := by omega
    have e2 : f1 - n = f1 + 1 - (n + 1) := by omega
    rw [← e1, ← e2]

theorem urcLoop_chunk (idx : Nat) :
    ∀ (cnt : Nat) (d : Dlx I N) (j fuel : Nat), cnt + 1 ≤ fuel → cnt ≤ j →
      (∀ m, m < cnt → d.bKind (j - m) = 2 ∧ j - m ≠ idx) →
      j < USZ →
      Dlx.urcLoop d idx j fuel =
        Dlx.urcLoop
          (((List.range' (j - cnt + 1) cnt).reverse).foldl
            (fun st p => st.uncommit p (st.topF p)) d)
          idx (j - cnt) (fuel - cnt) := by
  intro cnt
  induction cnt with
  | zero =>
    intro d j fuel hf hj hm hu
    simp
  | succ n ih =>
    intro d j fuel hf hj hm hu
    obtain ⟨f1, rfl⟩ : ∃ f1, fuel = f1 + 1 := ⟨fuel - 1, by omega⟩
    obtain ⟨hk0, hne0⟩ := hm 0 (Nat.succ_pos n)
    obtain ⟨i, c, t, hb⟩ := bnode_body_of_kind d (j - 0) hk0
    rw [urcLoop_body_step d idx j f1 (by simpa using hne0) i c t (by simpa using hb)]
    rw [wsub1_eq j (by omega) hu]
    have ht : d.topF j = t := by
      unfold Dlx.topF
      rw [show d.bnode j = Node.Normal i (NodeType.Body c t) from by simpa using hb]
    have hsh := sameShape_uncommit d j t
    have hkinds : ∀ m, m < n → (d.uncommit j t).bKind (j - 1 - m) = 2 ∧
        j - 1 - m ≠ idx := by
      intro m hmn
      obtain ⟨hk, hne⟩ := hm (m + 1) (by omega)
      have harith : j - 1 - m = j - (m + 1) := by omega
      refine ⟨?_, by rw [harith]; exact hne⟩
      rw [← (hsh.2 (j - 1 - m)).1, harith]
      exact hk
    have hres := ih (d.uncommit j t) (j - 1) f1 (by omega) (by omega) hkinds (by omega)
    rw [hres]
    have e1 : j - 1 - n = j - (n + 1) := by omega
    have e2 : f1 - n = f1 + 1 - (n + 1) := by omega
    rw [e1, e2]
    have e4 : List.range' (j - (n + 1) + 1) (n + 1) =
        List.range' (j - (n + 1) + 1) n ++ [j] := by
      rw [List.range'_1_concat]
      have e5 : j - (n + 1) + 1 + n = j := by omega
      rw [e5]
    rw [e4, List.reverse_append]
    have hfold : ((List.range' (j - (n + 1) + 1) n).reverse).foldl
        (fun st p => st.uncommit p (st.topF p)) (d.uncommit j t) =
        ([j].reverse ++ (List.range' (j - (n + 1) + 1) n).reverse).foldl
          (fun st p => st.uncommit p (st.topF p)) d := by
      show _ = ((List.range' (j - (n + 1) + 1) n).reverse).foldl
        (fun st p => st.uncommit p (st.topF p)) (d.uncommit j (d.topF j))
      rw [ht]
    rw [hfold]

theorem sameShape_commitFold : ∀ (L : List Nat) (d : Dlx I N),
    sameShape d (L.foldl (fun st p => st.commit p (st.topF p)) d) := by
  intro L
  induction L with
  | nil => intro d; exact sameShape_refl d
  | cons q rest ih =>
    intro d
    exact sameShape_trans (sameShape_commit d q (d.topF q)) (ih _)

theorem sameShape_uncommitFold : ∀ (L : List Nat) (d : Dlx I N),
    sameShape d (L.foldl (fun st p => st.uncommit p (st.topF p)) d) := by
  intro L
  induction L with
  | nil => intro d; exact sameShape_refl d
  | cons q rest ih =>
    intro d
    exact sameShape_trans (sameShape_uncommit d q (d.topF q)) (ih _)

theorem headersLen_commitFold : ∀ (L : List Nat) (d : Dlx I N),
    (L.foldl (fun st p => st.commit p (st.topF p)) d).headers.length =
      d.headers.length := by
  intro L
  induction L with
  | nil => intro d; rfl
  | cons q rest ih =>
    intro d
    show ((rest.foldl _ (d.commit q (d.topF q))).headers.length) = _
    rw [ih, headersLen_commit]

theorem crc_eq_fold (d : Dlx I N) (idx : Nat) (hrow : rowOkB d idx = true) :
    d.cover_remaining_choices idx =
      (visitF (rowStart d idx) (rowEnd d idx) idx).foldl
        (fun st p => st.commit p (st.topF p)) d := by
  obtain ⟨hs1, hhs, hsi, hie, hel, hlu, hbody, hkE, hfE, hkS, hlS⟩ :=
    rowOkB_spec d idx hrow
  unfold Dlx.cover_remaining_choices visitF
  rw [wadd1_eq idx (by omega)]
  have hkind1 : ∀ m, m < rowEnd d idx - idx →
      d.bKind (idx + 1 + m) = 2 ∧ idx + 1 + m ≠ idx := by
    intro m hm
    refine ⟨bKind_of_isBody d _ (hbody _ ?_), by omega⟩
    rw [List.mem_range'_1]
    omega
  rw [crcLoop_chunk idx (rowEnd d idx - idx) d (idx + 1) (d.body.length + 2)
    (by omega) hkind1 (by omega)]
  have harr1 : idx + 1 + (rowEnd d idx - idx) = rowEnd d idx + 1 := by omega
  rw [harr1]
  have hsh1 : sameShape d ((List.range' (idx + 1) (rowEnd d idx - idx)).foldl
      (fun st p => st.commit p (st.topF p)) d) :=
    sameShape_commitFold _ d
  have hkE1 : ((List.range' (idx + 1) (rowEnd d idx - idx)).foldl
      (fun st p => st.commit p (st.topF p)) d).bKind (rowEnd d idx + 1) = 0 := by
    rw [← (hsh1.2 _).1]
    exact hkE
  obtain ⟨nm, hbE⟩ := bnode_boundary_of_kind _ _ hkE1
  obtain ⟨f2, hf2⟩ : ∃ f2, d.body.length + 2 - (rowEnd d idx - idx) = f2 + 1 :=
    ⟨d.body.length + 1 - (rowEnd d idx - idx), by omega⟩
  rw [hf2, crcLoop_boundary_step _ idx (rowEnd d idx + 1) f2 (by omega) nm _ _ hbE]
  have hfE1 : ((List.range' (idx + 1) (rowEnd d idx - idx)).foldl
      (fun st p => st.commit p (st.topF p)) d).ffpF (rowEnd d idx + 1) =
      rowStart d idx := by
    rw [← (hsh1.2 _).2.1]
    exact hfE
  rw [hfE1]
  have hkind2 : ∀ m, m < idx - rowStart d idx →
      ((List.range' (idx + 1) (rowEnd d idx - idx)).foldl
        (fun st p => st.commit p (st.topF p)) d).bKind
        (rowStart d idx + m) = 2 ∧ rowStart d idx + m ≠ idx := by
    intro m hm
    refine ⟨?_, by omega⟩
    rw [← (hsh1.2 _).1]
    refine bKind_of_isBody d _ (hbody _ ?_)
    rw [List.mem_range'_1]
    omega
  rw [crcLoop_chunk idx (idx - rowStart d idx) _ (rowStart d idx) f2
    (by omega) hkind2 (by omega)]
  have harr2 : rowStart d idx + (idx - rowStart d idx) = idx := by omega
  rw [harr2]
  obtain ⟨f3, hf3⟩ : ∃ f3, f2 - (idx - rowStart d idx) = f3 + 1 :=
    ⟨f2 - (idx - rowStart d idx) - 1, by omega⟩
  rw [hf3, crcLoop_stop]
  rw [List.foldl_append]

theorem urc_eq_fold (d : Dlx I N) (idx : Nat) (hrow : rowOkB d idx = true) :
    d.uncover_remaining_choices idx =
      ((visitF (rowStart d idx) (rowEnd d idx) idx).reverse).foldl
        (fun st p => st.uncommit p (st.topF p)) d := by
  obtain ⟨hs1, hhs, hsi, hie, hel, hlu, hbody, hkE, hfE, hkS, hlS⟩ :=
    rowOkB_spec d idx hrow
  unfold Dlx.uncover_remaining_choices visitF
  rw [List.reverse_append]
  rw [wsub1_eq idx (by omega) (by omega)]
  have hkind1 : ∀ m, m < idx - rowStart d idx →
      d.bKind (idx - 1 - m) = 2 ∧ idx - 1 - m ≠ idx := by
    intro m hm
    refine ⟨bKind_of_isBody d _ (hbody _ ?_), by omega⟩
    rw [List.mem_range'_1]
    omega
  rw [urcLoop_chunk idx (idx - rowStart d idx) d (idx - 1) (d.body.length + 2)
    (by omega) (by omega) hkind1 (by omega)]
  have harr0 : idx - 1 - (idx - rowStart d idx) + 1 = rowStart d idx := by omega
  have harr1 : idx - 1 - (idx - rowStart d idx) = rowStart d idx - 1 := by omega
  rw [harr0, harr1]
  have hsh1 : sameShape d
      (((List.range' (rowStart d idx) (idx - rowStart d idx)).reverse).foldl
        (fun st p => st.uncommit p (st.topF p)) d) :=
    sameShape_uncommitFold _ d
  have hkS1 : (((List.range' (rowStart d idx) (idx - rowStart d idx)).reverse).foldl
      (fun st p => st.uncommit p (st.topF p)) d).bKind (rowStart d idx - 1) = 0 := by
    rw [← (hsh1.2 _).1]
    exact hkS
  obtain ⟨nm, hbS⟩ := bnode_boundary_of_kind _ _ hkS1
  obtain ⟨f2, hf2⟩ : ∃ f2, d.body.length + 2 - (idx - rowStart d idx) = f2 + 1 :=
    ⟨d.body.length + 1 - (idx - rowStart d idx), by omega⟩
  rw [hf2, urcLoop_boundary_step _ idx (rowStart d idx - 1) f2 (by omega) nm _ _ hbS]
  have hlS1 : (((List.range' (rowStart d idx) (idx - rowStart d idx)).reverse).foldl
      (fun st p => st.uncommit p (st.topF p)) d).lfnF (rowStart d idx - 1) =
      rowEnd d idx := by
    rw [← (hsh1.2 _).2.2]
    exact hlS
  rw [hlS1]
  have hkind2 : ∀ m, m < rowEnd d idx - idx →
      (((List.range' (rowStart d idx) (idx - rowStart d idx)).reverse).foldl
        (fun st p => st.uncommit p (st.topF p)) d).bKind
        (rowEnd d idx - m) = 2 ∧ rowEnd d idx - m ≠ idx := by
    intro m hm
    refine ⟨?_, by omega⟩
    rw [← (hsh1.2 _).1]
    refine bKind_of_isBody d _ (hbody _ ?_)
    rw [List.mem_range'_1]
    omega
  rw [urcLoop_chunk idx (rowEnd d idx - idx) _ (rowEnd d idx) f2
    (by omega) (by omega) hkind2 (by omega)]
  have harr3 : rowEnd d idx - (rowEnd d idx - idx) + 1 = idx + 1 := by omega
  have harr2 : rowEnd d idx - (rowEnd d idx - idx) = idx := by omega
  rw [harr3, harr2]
  obtain ⟨f3, hf3⟩ : ∃ f3, f2 - (rowEnd d idx - idx) = f3 + 1 :=
    ⟨f2 - (rowEnd d idx - idx) - 1, by omega⟩
  rw [hf3, urcLoop_stop]
  rw [List.foldl_append]

theorem urc_crc (d : Dlx I N) (idx : Nat) (h : crcLegalB d idx = true) :
    (d.cover_remaining_choices idx).uncover_remaining_choices idx = d := by
  unfold crcLegalB at h
  rw [Bool.and_eq_true] at h
  obtain ⟨hrow, hseq⟩ := h
  rw [crc_eq_fold d idx hrow]
  have hshA : sameShape d ((visitF (rowStart d idx) (rowEnd d idx) idx).foldl
      (fun st p => st.commit p (st.topF p)) d) :=
    sameShape_commitFold _ d
  have hrowA : rowOkB ((visitF (rowStart d idx) (rowEnd d idx) idx).foldl
      (fun st p => st.commit p (st.topF p)) d) idx = true := by
    rw [← rowOkB_eq_of_sameShape hshA (headersLen_commitFold _ d).symm]
    exact hrow
  rw [urc_eq_fold _ idx hrowA]
  rw [← rowStart_eq_of_sameShape hshA idx, ← rowEnd_eq_of_sameShape hshA idx]
  exact foldl_inverse (fun st p => st.commit p (st.topF p))
    (fun st p => st.uncommit p (st.topF p))
    (fun st p => commitLegalAvoidB
      (idx :: visitF (rowStart d idx) (rowEnd d idx) idx) st p (st.topF p))
    (fun s q hq => by
      show (s.commit q (s.topF q)).uncommit q
        ((s.commit q (s.topF q)).topF q) = s
      rw [topF_commit]
      exact uncommit_commit _ s q (s.topF q) hq)
    (visitF (rowStart d idx) (rowEnd d idx) idx) d hseq

/-- C2 (amended): for every primitive in {hide, cover, purify, commit,
cover_remaining_choices} and every entry at which the call is legal — the
walked row or ring is well formed, stitch writes stay clear of the cells the
walk still needs, every purified ring cell carries a color, and for purify
the entry cell is detached from its item ring (the counterexample
C2_reversibility_cex shows the original claim fails without the last
condition) — applying the primitive and then its inverse at the same entry
restores every header-array and node-array entry exactly. -/
theorem C2_primitive_reversibility (d : Dlx I N) (idx : Nat) :
    (hideLegalB d idx = true → (d.hide idx).unhide idx = d) ∧
    (coverLegalB d idx = true → (d.cover idx).uncover idx = d) ∧
    (purifyLegalB d idx = true → (d.purify idx).unpurify idx = d) ∧
    (∀ top, commitLegalB d idx top = true →
      (d.commit idx top).uncommit idx top = d) ∧
    (crcLegalB d idx = true →
      (d.cover_remaining_choices idx).uncover_remaining_choices idx = d) :=
  ⟨fun h => unhide_hide [] d idx h,
   fun h => uncover_cover [] d idx h,
   fun h => unpurify_purify [] d idx h,
   fun top h => uncommit_commit [] d idx top h,
   fun h => urc_crc d idx h⟩

/-- Witness for C2 at concrete legal entries: a row hide and an item cover
on the two-solution grid, a purify of the detached colored cell 6 after
covering item 1 of the colored grid, a commit dispatching to that cover,
and cover_remaining_choices on the selected row after the cover. -/
theorem C2_primitive_reversibility_witness :
    (hideLegalB twoSolD 5 = true ∧ (twoSolD.hide 5).unhide 5 = twoSolD) ∧
    (coverLegalB twoSolD 1 = true ∧ (twoSolD.cover 1).uncover 1 = twoSolD) ∧
    (purifyLegalB (colorsD.cover 1) 6 = true ∧
      ((colorsD.cover 1).purify 6).unpurify 6 = colorsD.cover 1) ∧
    (commitLegalB twoSolD 5 1 = true ∧
      (twoSolD.commit 5 1).uncommit 5 1 = twoSolD) ∧
    (crcLegalB (twoSolD.cover 1) 5 = true ∧
      ((twoSolD.cover 1).cover_remaining_choices 5).uncover_remaining_choices 5 =
        twoSolD.cover 1) :=
  ⟨⟨by decide, (C2_primitive_reversibility twoSolD 5).1 (by decide)⟩,
   ⟨by decide, (C2_primitive_reversibility twoSolD 1).2.1 (by decide)⟩,
   ⟨by decide, (C2_primitive_reversibility (colorsD.cover 1) 6).2.2.1 (by decide)⟩,
   ⟨by decide, (C2_primitive_reversibility twoSolD 5).2.2.2.1 1 (by decide)⟩,
   ⟨by decide, (C2_primitive_reversibility (twoSolD.cover 1) 5).2.2.2.2 (by decide)⟩⟩

theorem sizeF_setHeader (d : Dlx I N) (i : Nat) (x : Header I) (j : Nat) :
    (d.setHeader i x).sizeF j = d.sizeF j := rfl

theorem sizeF_set_next (d : Dlx I N) (i v j : Nat) :
    (d.set_next i v).sizeF j = d.sizeF j := by
  unfold Dlx.sizeF
  rw [bnode_set_next]
  by_cases hj : j = i
  · subst hj
    cases hb : d.bnode j with
    | Boundary nm f l => simp [hb]
    | Normal inode tt => cases tt <;> simp [hb]
  · simp [hj]

theorem sizeF_set_prev (d : Dlx I N) (i v j : Nat) :
    (d.set_prev i v).sizeF j = d.sizeF j := by
  unfold Dlx.sizeF
  rw [bnode_set_prev]
  by_cases hj : j = i
  · subst hj
    cases hb : d.bnode j with
    | Boundary nm f l => simp [hb]
    | Normal inode tt => cases tt <;> simp [hb]
  · simp [hj]

theorem sizeF_setColor (d : Dlx I N) (i : Nat) (c : Option Nat) (j : Nat) :
    (d.setColor i c).sizeF j = d.sizeF j := by
  unfold Dlx.sizeF
  rw [bnode_setColor]
  by_cases hj : j = i
  · subst hj
    cases hb : d.bnode j with
    | Boundary nm f l => simp [hb]
    | Normal inode tt => cases tt <;> simp [hb]
  · simp [hj]

theorem sizeF_decSize_ne (d : Dlx I N) (t j : Nat) (h : j ≠ t) :
    (d.decSize t).sizeF j = d.sizeF j := by
  unfold Dlx.sizeF
  rw [bnode_decSize, if_neg h]

theorem sizeF_decSize_self (d : Dlx I N) (t : Nat) (h : d.isHeaderCell t = true) :
    (d.decSize t).sizeF t = (d.sizeF t + (USZ - 1)) % USZ := by
  unfold Dlx.isHeaderCell at h
  unfold Dlx.sizeF
  rw [bnode_decSize, if_pos rfl]
  cases hb : d.bnode t with
  | Boundary nm f l => rw [hb] at h; simp at h
  | Normal inode tt =>
    cases tt with
    | Header s => rfl
    | Body c tp => rw [hb] at h; simp at h

theorem isHeaderCell_eq_kind (d : Dlx I N) (j : Nat) :
    d.isHeaderCell j = (d.bKind j == 1) := by
  unfold Dlx.isHeaderCell Dlx.bKind
  cases d.bnode j with
  | Boundary nm f l => rfl
  | Normal i t => cases t <;> rfl

theorem isHeaderCell_of_sameShape {d d' : Dlx I N} (h : sameShape d d') (j : Nat) :
    d'.isHeaderCell j = d.isHeaderCell j := by
  rw [isHeaderCell_eq_kind, isHeaderCell_eq_kind, (h.2 j).1]

theorem isBody_of_sameShape {d d' : Dlx I N} (h : sameShape d d') (j : Nat) :
    d'.isBody j = d.isBody j := by
  rw [isBody_eq_kind, isBody_eq_kind, (h.2 j).1]

theorem nextF_set_next_self (d : Dlx I N) (x v : Nat) (inode : ListNodeI)
    (t : NodeType) (hb : d.bnode x = Node.Normal inode t) :
    (d.set_next x v).nextF x = v := by
  unfold Dlx.nextF
  rw [bnode_set_next, if_pos rfl, hb]

theorem prevF_set_prev_self (d : Dlx I N) (x v : Nat) (inode : ListNodeI)
    (t : NodeType) (hb : d.bnode x = Node.Normal inode t) :
    (d.set_prev x v).prevF x = v := by
  unfold Dlx.prevF
  rw [bnode_set_prev, if_pos rfl, hb]

theorem chainOkB_congr (d d' : Dlx I N) :
    ∀ (L : List Nat) (x y : Nat),
      (∀ j ∈ x :: L, d'.nextF j = d.nextF j) →
      (∀ j ∈ L ++ [y], d'.prevF j = d.prevF j) →
      chainOkB d' x L y = chainOkB d x L y := by
  intro L
  induction L with
  | nil =>
    intro x y hn hp
    show (d'.nextF x == y && d'.prevF y == x) = (d.nextF x == y && d.prevF y == x)
    rw [hn x (by simp), hp y (by simp)]
  | cons q rest ih =>
    intro x y hn hp
    have hn2 : ∀ j ∈ q :: rest, d'.nextF j = d.nextF j := by
      intro j hj
      exact hn j (List.mem_cons_of_mem x hj)
    have hp2 : ∀ j ∈ rest ++ [y], d'.prevF j = d.prevF j := by
      intro j hj
      apply hp
      simp only [List.cons_append, List.mem_cons]
      exact Or.inr hj
    show (d'.nextF x == q && d'.prevF q == x && chainOkB d' q rest y) =
      (d.nextF x == q && d.prevF q == x && chainOkB d q rest y)
    rw [hn x (by simp), hp q (by simp), ih q y hn2 hp2]

theorem chainOkB_append_cons (d : Dlx I N) (c : Nat) :
    ∀ (l1 : List Nat) (a : Nat) (l2 : List Nat) (last : Nat),
      chainOkB d a (l1 ++ c :: l2) last =
        (chainOkB d a l1 c && chainOkB d c l2 last) := by
  intro l1
  induction l1 with
  | nil => intro a l2 last; rfl
  | cons u rest ih =>
    intro a l2 last
    show (d.nextF a == u && d.prevF u == a && chainOkB d u (rest ++ c :: l2) last) = _
    rw [ih u l2 last, ← Bool.and_assoc]
    rfl

theorem ringWalk_congr (d d' : Dlx I N) (i : Nat)
    (h : ∀ j, d'.nextF j = d.nextF j) :
    ∀ (fuel p : Nat), ringWalk d' i p fuel = ringWalk d i p fuel := by
  intro fuel
  induction fuel with
  | zero => intro p; rfl
  | succ f ih =>
    intro p
    simp only [ringWalk]
    by_cases hp : p = i
    · rw [if_pos hp, if_pos hp]
    · rw [if_neg hp, if_neg hp, h p, ih]

theorem ringWalk_of_chain (d : Dlx I N) (i : Nat) :
    ∀ (R : List Nat) (a fuel : Nat), chainOkB d a R i = true → i ∉ R →
      R.length < fuel → ringWalk d i (d.nextF a) fuel = R := by
  intro R
  induction R with
  | nil =>
    intro a fuel h _ hf
    unfold chainOkB at h
    rw [Bool.and_eq_true] at h
    have h1 : d.nextF a = i := by simpa using h.1
    obtain ⟨f1, rfl⟩ : ∃ f1, fuel = f1 + 1 := ⟨fuel - 1, by omega⟩
    rw [h1]
    simp [ringWalk]
  | cons b rest ih =>
    intro a fuel h hmem hf
    unfold chainOkB at h
    simp only [Bool.and_eq_true] at h
    obtain ⟨⟨h1, h2⟩, h3⟩ := h
    have h1b : d.nextF a = b := by simpa using h1
    obtain ⟨f1, rfl⟩ : ∃ f1, fuel = f1 + 1 := ⟨fuel - 1, by omega⟩
    have hbi : ¬ b = i := by
      intro e
      exact hmem (by rw [e]; exact List.mem_cons_self i rest)
    rw [h1b]
    simp only [ringWalk]
    rw [if_neg hbi]
    rw [List.length_cons] at hf
    rw [ih b f1 h3 (fun hc => hmem (List.mem_cons_of_mem b hc)) (by omega)]

theorem ringNextList_eq_of_rep (d : Dlx I N) (i : Nat) (R : List Nat)
    (h : chainOkB d i R i = true) (hmem : i ∉ R)
    (hlen : R.length < d.body.length + 2) :
    d.ringNextList i = R := by
  unfold Dlx.ringNextList
  exact ringWalk_of_chain d i R i (d.body.length + 2) h hmem hlen

theorem chain_prev_mem (d : Dlx I N) (q : Nat) :
    ∀ (L : List Nat) (x : Nat), chainOkB d x L q = true →
      (L = [] ∧ d.prevF q = x) ∨ d.prevF q ∈ L := by
  intro L
  induction L with
  | nil =>
    intro x h
    unfold chainOkB at h
    rw [Bool.and_eq_true] at h
    exact Or.inl ⟨rfl, by simpa using h.2⟩
  | cons u rest ih =>
    intro x h
    unfold chainOkB at h
    simp only [Bool.and_eq_true] at h
    obtain ⟨⟨h1, h2⟩, h3⟩ := h
    rcases ih u h3 with ⟨hnil, hpq⟩ | hin
    · exact Or.inr (by simp [hpq])
    · exact Or.inr (List.mem_cons_of_mem u hin)

theorem chain_next_head (d : Dlx I N) (i q : Nat) (B : List Nat)
    (h : chainOkB d q B i = true) :
    (B = [] ∧ d.nextF q = i) ∨ (∃ c B2, B = c :: B2 ∧ d.nextF q = c) := by
  cases B with
  | nil =>
    unfold chainOkB at h
    rw [Bool.and_eq_true] at h
    exact Or.inl ⟨rfl, by simpa using h.1⟩
  | cons c B2 =>
    unfold chainOkB at h
    simp only [Bool.and_eq_true] at h
    exact Or.inr ⟨c, B2, rfl, by simpa using h.1.1⟩

theorem chain_erase (d : Dlx I N) (q i a b : Nat) (B : List Nat)
    (hqa : d.prevF q = a) (hqb : d.nextF q = b)
    (hna : ∃ na ta, d.bnode a = Node.Normal na ta)
    (hnb : ∃ nb tb, d.bnode b = Node.Normal nb tb)
    (hB : chainOkB d q B i = true) :
    ∀ (A : List Nat) (x : Nat),
      chainOkB d x A q = true →
      (x :: A ++ q :: B).Nodup →
      i ∉ A ++ q :: B →
      chainOkB ((d.set_next a b).set_prev b a) x (A ++ B) i = true := by
  obtain ⟨na, ta, hba⟩ := hna
  obtain ⟨nb, tb, hbb⟩ := hnb
  set d2 := (d.set_next a b).set_prev b a with hd2
  have F1 : ∀ j, j ≠ a → d2.nextF j = d.nextF j := by
    intro j hj
    rw [hd2, nextF_set_prev, nextF_set_next_ne d a b j hj]
  have F2 : d2.nextF a = b := by
    rw [hd2, nextF_set_prev, nextF_set_next_self d a b na ta hba]
  have F3 : ∀ j, j ≠ b → d2.prevF j = d.prevF j := by
    intro j hj
    rw [hd2, prevF_set_prev_ne _ b a j hj, prevF_set_next]
  have F4 : d2.prevF b = a := by
    by_cases hab : b = a
    · rw [hd2]
      refine prevF_set_prev_self _ b a ⟨na.prev, b⟩ ta ?_
      rw [bnode_set_next, if_pos hab]
      rw [hab, hba]
    · rw [hd2]
      refine prevF_set_prev_self _ b a nb tb ?_
      rw [bnode_set_next, if_neg hab, hbb]
  intro A
  induction A with
  | nil =>
    intro x hA hnd hi
    unfold chainOkB at hA
    rw [Bool.and_eq_true] at hA
    have hax : a = x := by
      have h2 : d.prevF q = x := by simpa using hA.2
      rw [hqa] at h2
      exact h2
    subst hax
    have hnd' : (a :: q :: B).Nodup := hnd
    have hnotin : a ∉ q :: B := (List.nodup_cons.mp hnd').1
    rcases chain_next_head d i q B hB with ⟨hBnil, hqi⟩ | ⟨c, B2, hBc, hqc⟩
    · subst hBnil
      have hbi : b = i := by rw [← hqb]; exact hqi
      show (d2.nextF a == i && d2.prevF i == a) = true
      rw [Bool.and_eq_true]
      constructor
      · rw [F2, hbi]
        simp
      · rw [← hbi, F4]
        simp
    · have hbc : b = c := by rw [← hqb]; exact hqc
      rw [hBc] at hB hnotin hi ⊢
      unfold chainOkB at hB
      simp only [Bool.and_eq_true] at hB
      obtain ⟨⟨hB1, hB2⟩, hB3⟩ := hB
      have hiq : i ∉ q :: c :: B2 := hi
      show (d2.nextF a == c && d2.prevF c == a && chainOkB d2 c B2 i) = true
      simp only [Bool.and_eq_true]
      refine ⟨⟨?_, ?_⟩, ?_⟩
      · rw [F2, hbc]
        simp
      · rw [← hbc, F4]
        simp
      · have hcB : (c :: B2).Nodup := by
          rw [hBc] at hnd'
          exact (List.nodup_cons.mp (List.nodup_cons.mp hnd').2).2
        have hn : ∀ j ∈ c :: B2, d2.nextF j = d.nextF j := by
          intro j hj
          refine F1 j (fun e => hnotin ?_)
          rw [← e]
          exact List.mem_cons_of_mem q hj
        have hp : ∀ j ∈ B2 ++ [i], d2.prevF j = d.prevF j := by
          intro j hj
          refine F3 j (fun e => ?_)
          rw [hbc] at e
          rcases List.mem_append.mp hj with h1 | h1
          · exact (List.nodup_cons.mp hcB).1 (e ▸ h1)
          · have hji : j = i := by simpa using h1
            rw [hji] at e
            exact hiq (by rw [e]; exact List.mem_cons_of_mem q (List.mem_cons_self c B2))
        rw [chainOkB_congr d d2 B2 c i hn hp]
        exact hB3
  | cons u A2 ih =>
    intro x hA hnd hi
    unfold chainOkB at hA
    simp only [Bool.and_eq_true] at hA
    obtain ⟨⟨hA1, hA2'⟩, hA3⟩ := hA
    have hxu : d.nextF x = u := by simpa using hA1
    have hux : d.prevF u = x := by simpa using hA2'
    have hamem : a ∈ u :: A2 := by
      rcases chain_prev_mem d q A2 u hA3 with ⟨hnil, hpq⟩ | hin
      · have hau : a = u := by rw [← hqa, hpq]
        rw [hau]
        exact List.mem_cons_self u A2
      · rw [hqa] at hin
        exact List.mem_cons_of_mem u hin
    have hndx : x ∉ (u :: A2) ++ q :: B := (List.nodup_cons.mp hnd).1
    have hnd2 : ((u :: A2) ++ q :: B).Nodup := (List.nodup_cons.mp hnd).2
    have hxa : x ≠ a := by
      intro e
      exact hndx (by rw [e]; exact List.mem_append_left _ hamem)
    have hdisj : (u :: A2).Disjoint (q :: B) := (List.nodup_append.mp hnd2).2.2
    have hub : u ≠ b := by
      rcases chain_next_head d i q B hB with ⟨hBnil, hqi⟩ | ⟨c, B2, hBc, hqc⟩
      · have hbi : b = i := by rw [← hqb]; exact hqi
        intro e
        apply hi
        rw [← hbi, ← e]
        exact List.mem_append_left _ (List.mem_cons_self u A2)
      · have hbc : b = c := by rw [← hqb]; exact hqc
        intro e
        refine hdisj (List.mem_cons_self u A2) ?_
        rw [e, hbc, hBc]
        exact List.mem_cons_of_mem q (List.mem_cons_self c B2)
    show (d2.nextF x == u && d2.prevF u == x && chainOkB d2 u (A2 ++ B) i) = true
    simp only [Bool.and_eq_true]
    refine ⟨⟨?_, ?_⟩, ?_⟩
    · rw [F1 x hxa, hxu]
      simp
    · rw [F3 u hub, hux]
      simp
    · refine ih u hA3 hnd2 ?_
      intro hc
      exact hi (List.mem_cons_of_mem u hc)

theorem isHeaderCell_set_next (d : Dlx I N) (i v j : Nat) :
    (d.set_next i v).isHeaderCell j = d.isHeaderCell j := by
  unfold Dlx.isHeaderCell
  rw [bnode_set_next]
  by_cases hj : j = i
  · subst hj
    cases hb : d.bnode j with
    | Boundary nm f l => simp [hb]
    | Normal inode tt => cases tt <;> simp [hb]
  · simp [hj]

theorem isHeaderCell_set_prev (d : Dlx I N) (i v j : Nat) :
    (d.set_prev i v).isHeaderCell j = d.isHeaderCell j := by
  unfold Dlx.isHeaderCell
  rw [bnode_set_prev]
  by_cases hj : j = i
  · subst hj
    cases hb : d.bnode j with
    | Boundary nm f l => simp [hb]
    | Normal inode tt => cases tt <;> simp [hb]
  · simp [hj]

theorem isHeaderCell_normal (d : Dlx I N) (j : Nat) (h : d.isHeaderCell j = true) :
    ∃ n t0, d.bnode j = Node.Normal n t0 := by
  unfold Dlx.isHeaderCell at h
  cases hbj : d.bnode j with
  | Boundary nm f l => rw [hbj] at h; simp at h
  | Normal n t0 => exact ⟨n, t0, rfl⟩

theorem isBody_normal (d : Dlx I N) (j : Nat) (h : d.isBody j = true) :
    ∃ n t0, d.bnode j = Node.Normal n t0 := by
  unfold Dlx.isBody at h
  cases hbj : d.bnode j with
  | Boundary nm f l => rw [hbj] at h; simp at h
  | Normal n t0 => exact ⟨n, t0, rfl⟩

theorem hideCellOp_sizeInv (i : Nat) (st : Dlx I N) (q : Nat)
    (hok : hideCellSizeOkB i st q = true) (hinv : sizeInvB st i = true) :
    sizeInvB (st.hideCellOp q) i = true := by
  unfold sizeInvB ringRepB at hinv
  simp only [Bool.and_eq_true] at hinv
  obtain ⟨⟨⟨⟨⟨⟨h1, h2⟩, h3⟩, h4⟩, h5⟩, h6⟩, h7⟩ := hinv
  have h2n : (i :: st.ringNextList i).Nodup := of_decide_eq_true h2
  have h3n : (st.ringNextList i).length ≤ st.body.length := of_decide_eq_true h3
  have h6n : (st.ringNextList i).length < USZ := of_decide_eq_true h6
  have h7n : st.sizeF i = (st.ringNextList i).length := by simpa using h7
  have h5n : ∀ p ∈ st.ringNextList i, st.isBody p = true := by
    simpa only [List.all_eq_true] using h5
  unfold hideCellSizeOkB at hok
  cases hq : st.bnode q with
  | Boundary nm f l => rw [hq] at hok; simp at hok
  | Normal inode tt =>
    cases tt with
    | Header s => rw [hq] at hok; simp at hok
    | Body c t =>
      obtain ⟨ia, ib⟩ := inode
      rw [hq] at hok
      dsimp only at hok
      by_cases ht : t = i
      · -- a cell of the observed ring is unlinked and erased from the walk
        rw [if_pos ht] at hok
        rw [ht] at hq
        rw [Bool.and_eq_true] at hok
        have hprim : st.isPrimary i = true := hok.1
        have hqR : q ∈ st.ringNextList i := of_decide_eq_true hok.2
        obtain ⟨A, B, hR⟩ := List.append_of_mem hqR
        rw [hR] at h1
        rw [chainOkB_append_cons] at h1
        rw [Bool.and_eq_true] at h1
        obtain ⟨hchainA, hchainB⟩ := h1
        have hqa : st.prevF q = ia := by unfold Dlx.prevF; rw [hq]
        have hqb : st.nextF q = ib := by unfold Dlx.nextF; rw [hq]
        have h2R : (i :: A ++ q :: B).Nodup := by rw [hR] at h2n; exact h2n
        have hnotin : i ∉ A ++ q :: B := by
          have := (List.nodup_cons.mp h2R).1
          exact this
        have hnorm_a : ∃ na ta, st.bnode ia = Node.Normal na ta := by
          rcases chain_prev_mem st q A i hchainA with ⟨hnil, hpq⟩ | hin
          · rw [hqa] at hpq
            rw [hpq]
            exact isHeaderCell_normal st i h4
          · rw [hqa] at hin
            refine isBody_normal st ia (h5n ia ?_)
            rw [hR]
            exact List.mem_append_left _ hin
        have hnorm_b : ∃ nb tb, st.bnode ib = Node.Normal nb tb := by
          rcases chain_next_head st i q B hchainB with ⟨hBnil, hqi⟩ | ⟨c2, B2, hBc, hqc⟩
          · rw [hqb] at hqi
            rw [hqi]
            exact isHeaderCell_normal st i h4
          · rw [hqb] at hqc
            refine isBody_normal st ib (h5n ib ?_)
            rw [hR, hqc, hBc]
            exact List.mem_append_right _ (List.mem_cons_of_mem q (List.mem_cons_self c2 B2))
        have herase := chain_erase st q i ia ib B hqa hqb hnorm_a hnorm_b hchainB
          A i hchainA h2R hnotin
        have hop : st.hideCellOp q = ((st.set_next ia ib).set_prev ib ia).decSize i := by
          rw [hideCellOp_eq2 st q ia ib c i hq]
          rw [if_pos (Bool.or_eq_true_iff.mpr (Or.inl hprim))]
        have hchain' : chainOkB (((st.set_next ia ib).set_prev ib ia).decSize i)
            i (A ++ B) i = true := by
          rw [chainOkB_congr ((st.set_next ia ib).set_prev ib ia) _ (A ++ B) i i
            (fun j _ => nextF_decSize _ i j) (fun j _ => prevF_decSize _ i j)]
          exact herase
        have hlen' : (((st.set_next ia ib).set_prev ib ia).decSize i).body.length =
            st.body.length := by
          rw [length_decSize, length_set_prev, length_set_next]
        have hnotin2 : i ∉ A ++ B := by
          intro hc
          rcases List.mem_append.mp hc with hcc | hcc
          · exact hnotin (List.mem_append_left _ hcc)
          · exact hnotin (List.mem_append_right _ (List.mem_cons_of_mem q hcc))
        have hlenR : (A ++ q :: B).length = A.length + B.length + 1 := by
          simp only [List.length_append, List.length_cons]
          omega
        have hring' : (((st.set_next ia ib).set_prev ib ia).decSize i).ringNextList i =
            A ++ B := by
          refine ringNextList_eq_of_rep _ i (A ++ B) hchain' hnotin2 ?_
          rw [hlen']
          rw [hR, hlenR] at h3n
          simp only [List.length_append]
          omega
        have hshape : sameShape st (((st.set_next ia ib).set_prev ib ia).decSize i) := by
          rw [← hop]
          exact sameShape_hideCellOp st q
        have hhdrX : ((st.set_next ia ib).set_prev ib ia).isHeaderCell i = true := by
          rw [isHeaderCell_set_prev, isHeaderCell_set_next]
          exact h4
        have hsz : (((st.set_next ia ib).set_prev ib ia).decSize i).sizeF i =
            (st.sizeF i + (USZ - 1)) % USZ := by
          rw [sizeF_decSize_self _ i hhdrX, sizeF_set_prev, sizeF_set_next]
        have hszv : (((st.set_next ia ib).set_prev ib ia).decSize i).sizeF i =
            (A ++ B).length := by
          rw [hsz, h7n, hR]
          have h1R : 1 ≤ (A ++ q :: B).length := by
            simp only [List.length_append, List.length_cons]
            omega
          have hU : (A ++ q :: B).length < USZ := by rw [hR] at h6n; exact h6n
          rw [show ((A ++ q :: B).length + (USZ - 1)) % USZ =
            wsub1 (A ++ q :: B).length from rfl]
          rw [wsub1_eq _ h1R hU, hlenR]
          simp only [List.length_append]
          omega
        have hsubl : List.Sublist (i :: A ++ B) (i :: A ++ q :: B) := by
          refine List.Sublist.cons₂ i ?_
          exact List.Sublist.append_left (List.sublist_cons_self q B) A
        rw [hop]
        unfold sizeInvB ringRepB
        simp only [Bool.and_eq_true]
        refine ⟨⟨⟨⟨⟨⟨?_, ?_⟩, ?_⟩, ?_⟩, ?_⟩, ?_⟩, ?_⟩
        · rw [hring']
          exact hchain'
        · rw [hring']
          exact decide_eq_true (List.Nodup.sublist hsubl h2R)
        · rw [hring', hlen']
          refine decide_eq_true ?_
          rw [hR, hlenR] at h3n
          simp only [List.length_append]
          omega
        · rw [isHeaderCell_of_sameShape hshape i]
          exact h4
        · rw [hring']
          simp only [List.all_eq_true]
          intro p hp
          rw [isBody_of_sameShape hshape p]
          refine h5n p ?_
          rw [hR]
          rcases List.mem_append.mp hp with hcc | hcc
          · exact List.mem_append_left _ hcc
          · exact List.mem_append_right _ (List.mem_cons_of_mem q hcc)
        · rw [hring']
          refine decide_eq_true ?_
          rw [hR, hlenR] at h6n
          simp only [List.length_append]
          omega
        · rw [hring', hszv]
          simp
      · -- a cell of another item: the observed ring is untouched
        rw [if_neg ht] at hok
        have hpres := hideCellOp_pres (i :: st.ringNextList i) st q hok
        have hshape := sameShape_hideCellOp st q
        have hchain : chainOkB (st.hideCellOp q) i (st.ringNextList i) i = true := by
          rw [chainOkB_congr st (st.hideCellOp q) (st.ringNextList i) i i
            (fun j hj => (hpres j hj).1)
            (fun j hj => (hpres j ?_).2.1)]
          · exact h1
          · rcases List.mem_append.mp hj with hcc | hcc
            · exact List.mem_cons_of_mem i hcc
            · have : j = i := by simpa using hcc
              rw [this]
              exact List.mem_cons_self i _
        have hring : (st.hideCellOp q).ringNextList i = st.ringNextList i := by
          refine ringNextList_eq_of_rep _ i (st.ringNextList i) hchain
            (List.nodup_cons.mp h2n).1 ?_
          rw [← hshape.1]
          omega
        have hsize : (st.hideCellOp q).sizeF i = st.sizeF i := by
          rw [hideCellOp_eq2 st q ia ib c t hq]
          by_cases hg : (st.isPrimary t || c.isSome) = true
          · rw [if_pos hg, sizeF_decSize_ne _ t i (fun e => ht e.symm),
              sizeF_set_prev, sizeF_set_next]
          · rw [if_neg hg, sizeF_decSize_ne _ t i (fun e => ht e.symm)]
        unfold sizeInvB ringRepB
        simp only [Bool.and_eq_true]
        refine ⟨⟨⟨⟨⟨⟨?_, ?_⟩, ?_⟩, ?_⟩, ?_⟩, ?_⟩, ?_⟩
        · rw [hring]
          exact hchain
        · rw [hring]
          exact h2
        · rw [hring, ← hshape.1]
          exact h3
        · rw [isHeaderCell_of_sameShape hshape i]
          exact h4
        · rw [hring]
          simp only [List.all_eq_true]
          intro p hp
          rw [isBody_of_sameShape hshape p]
          exact h5n p hp
        · rw [hring]
          exact h6
        · rw [hring, hsize]
          exact h7

theorem sizeInvB_setHeader (d : Dlx I N) (j : Nat) (x : Header I) (i : Nat) :
    sizeInvB (d.setHeader j x) i = sizeInvB d i := by
  have hn : ∀ p, (d.setHeader j x).nextF p = d.nextF p := fun p => rfl
  have hw : (d.setHeader j x).ringNextList i = d.ringNextList i := by
    unfold Dlx.ringNextList
    rw [ringWalk_congr d (d.setHeader j x) i hn]
    rfl
  unfold sizeInvB ringRepB
  rw [hw, chainOkB_congr d (d.setHeader j x) (d.ringNextList i) i i
    (fun p _ => rfl) (fun p _ => rfl)]
  rfl

theorem sizeInvB_setColor (d : Dlx I N) (p0 : Nat) (c : Option Nat) (i : Nat) :
    sizeInvB (d.setColor p0 c) i = sizeInvB d i := by
  have hn : ∀ p, (d.setColor p0 c).nextF p = d.nextF p :=
    fun p => nextF_setColor d p0 c p
  have hp : ∀ p, (d.setColor p0 c).prevF p = d.prevF p :=
    fun p => prevF_setColor d p0 c p
  have hsh := sameShape_setColor d p0 c
  have hw : (d.setColor p0 c).ringNextList i = d.ringNextList i := by
    unfold Dlx.ringNextList
    rw [ringWalk_congr d _ i hn, hn i, length_setColor]
  have hb : ∀ p, (d.setColor p0 c).isBody p = d.isBody p :=
    fun p => isBody_of_sameShape hsh p
  unfold sizeInvB ringRepB
  rw [hw, chainOkB_congr d _ (d.ringNextList i) i i (fun p _ => hn p) (fun p _ => hp p),
    isHeaderCell_of_sameShape hsh i, length_setColor, sizeF_setColor]
  simp only [hb]

theorem hideFold_sizeInv (i : Nat) :
    ∀ (l : List Nat) (st : Dlx I N),
      SeqOkB Dlx.hideCellOp (hideCellSizeOkB i) st l = true →
      sizeInvB st i = true → sizeInvB (hideFold st l) i = true := by
  intro l
  induction l with
  | nil => intro st _ hinv; exact hinv
  | cons q rest ih =>
    intro st hseq hinv
    unfold SeqOkB at hseq
    rw [Bool.and_eq_true] at hseq
    exact ih (st.hideCellOp q) hseq.2 (hideCellOp_sizeInv i st q hseq.1 hinv)

theorem hide_sizeInv (i : Nat) (st : Dlx I N) (p : Nat)
    (h : hideSizeLegalB i st p = true) (hinv : sizeInvB st i = true) :
    sizeInvB (st.hide p) i = true := by
  unfold hideSizeLegalB at h
  rw [Bool.and_eq_true] at h
  rw [hide_eq_fold st p h.1]
  exact hideFold_sizeInv i _ st h.2 hinv

theorem foldlHide_sizeInv (i : Nat) :
    ∀ (l : List Nat) (st : Dlx I N),
      SeqOkB Dlx.hide (hideSizeLegalB i) st l = true →
      sizeInvB st i = true → sizeInvB (l.foldl Dlx.hide st) i = true := by
  intro l
  induction l with
  | nil => intro st _ hinv; exact hinv
  | cons q rest ih =>
    intro st hseq hinv
    unfold SeqOkB at hseq
    rw [Bool.and_eq_true] at hseq
    exact ih (st.hide q) hseq.2 (hide_sizeInv i st q hseq.1 hinv)

theorem cover_sizeInv (i : Nat) (d : Dlx I N) (idx : Nat)
    (h : coverSizeLegalB i d idx = true) (hinv : sizeInvB d i = true) :
    sizeInvB (d.cover idx) i = true := by
  unfold coverSizeLegalB at h
  rw [Bool.and_eq_true] at h
  obtain ⟨hleg, hseq⟩ := h
  unfold coverLegalB at hleg
  simp only [coverLegalAvoidB, Bool.and_eq_true, decide_eq_true_eq, beq_iff_eq,
    List.all_eq_true] at hleg
  obtain ⟨⟨⟨⟨⟨⟨⟨⟨⟨hA1, hA2⟩, hA3⟩, hA4⟩, hA5⟩, hA6⟩, hA7⟩, hA8⟩, hA9⟩, hA10⟩ := hleg
  have hchain : chainOkB d idx (d.ringNextList idx) idx = true := hA1
  have hmemR : ∀ q ∈ d.ringNextList idx,
      q ∈ [] ++ idx :: d.ringNextList idx ∧ q ≠ idx := by
    intro q hq
    have h2 := hA2 q hq
    exact ⟨by simp [hq], h2.1⟩
  have hwnext := chain_walkNext d idx (d.ringNextList idx) idx hchain
  have hloop := coverLoop_eq_fold idx ([] ++ idx :: d.ringNextList idx)
    (d.ringNextList idx) d (d.nextF idx) (d.body.length + 2)
    (by omega) hmemR hwnext hA10
  simp only [Dlx.cover]
  rw [hloop]
  rw [sizeInvB_setHeader, sizeInvB_setHeader]
  exact foldlHide_sizeInv i _ d hseq hinv

theorem purifyStep_sizeInv (i c : Nat) (st : Dlx I N) (p : Nat)
    (hok : purifyStepSizeOkB i c st p = true) (hinv : sizeInvB st i = true) :
    sizeInvB (purifyStep c st p) i = true := by
  unfold purifyStepSizeOkB at hok
  unfold purifyStep
  by_cases hc : st.colorF p = some c
  · rw [if_pos hc]
    rw [sizeInvB_setColor]
    exact hinv
  · rw [if_neg hc] at hok ⊢
    exact hide_sizeInv i st p hok hinv

theorem purifyFold_sizeInv (i c : Nat) :
    ∀ (l : List Nat) (st : Dlx I N),
      SeqOkB (purifyStep c) (purifyStepSizeOkB i c) st l = true →
      sizeInvB st i = true → sizeInvB (l.foldl (purifyStep c) st) i = true := by
  intro l
  induction l with
  | nil => intro st _ hinv; exact hinv
  | cons q rest ih =>
    intro st hseq hinv
    unfold SeqOkB at hseq
    rw [Bool.and_eq_true] at hseq
    exact ih (purifyStep c st q) hseq.2 (purifyStep_sizeInv i c st q hseq.1 hinv)

theorem purify_sizeInv (i : Nat) (d : Dlx I N) (idx : Nat)
    (h : purifySizeLegalB i d idx = true) (hinv : sizeInvB d i = true) :
    sizeInvB (d.purify idx) i = true := by
  unfold purifySizeLegalB at h
  rw [Bool.and_eq_true] at h
  obtain ⟨hleg, hseq⟩ := h
  unfold purifyLegalB purifyLegalAvoidB at hleg
  cases hb : d.bnode idx with
  | Boundary nm f l => rw [hb] at hleg; simp at hleg
  | Normal inode tt =>
    cases tt with
    | Header s => rw [hb] at hleg; simp at hleg
    | Body c0 top =>
      cases c0 with
      | none => rw [hb] at hleg; simp at hleg
      | some c =>
        rw [hb] at hleg hseq
        dsimp only at hleg hseq
        simp only [Bool.and_eq_true, decide_eq_true_eq, List.all_eq_true] at hleg
        obtain ⟨⟨⟨hP1, hP2⟩, hP3⟩, hP4⟩ := hleg
        have hmemR : ∀ q ∈ d.ringNextList top,
            q ∈ [] ++ idx :: top :: d.ringNextList top ∧ q ≠ top := by
          intro q hq
          have h2 := hP2 q hq
          exact ⟨by simp [hq], h2.1.1⟩
        have hwnext := chain_walkNext d top (d.ringNextList top) top hP1
        have hloop := purifyLoop_eq_fold top c ([] ++ idx :: top :: d.ringNextList top)
          (d.ringNextList top) d (d.nextF top) (d.body.length + 2)
          (by omega) hmemR hwnext hP4
        unfold Dlx.purify
        rw [hb]
        dsimp only
        rw [hloop]
        exact purifyFold_sizeInv i c _ d hseq hinv

theorem commit_sizeInv (i : Nat) (d : Dlx I N) (p top : Nat)
    (h : commitSizeLegalB i d p top = true) (hinv : sizeInvB d i = true) :
    sizeInvB (d.commit p top) i = true := by
  unfold commitSizeLegalB at h
  unfold Dlx.commit
  by_cases hpr : d.isPrimary top = true
  · rw [if_pos hpr] at h ⊢
    exact cover_sizeInv i d top h hinv
  · rw [if_neg hpr] at h ⊢
    by_cases hc : (d.colorF p).isSome = true
    · rw [if_pos hc] at h ⊢
      exact purify_sizeInv i d p h hinv
    · rw [if_neg hc]
      exact hinv

theorem commitFold_sizeInv (i : Nat) :
    ∀ (l : List Nat) (st : Dlx I N),
      SeqOkB (fun st p => st.commit p (st.topF p))
        (fun st p => commitSizeLegalB i st p (st.topF p)) st l = true →
      sizeInvB st i = true →
      sizeInvB (l.foldl (fun st p => st.commit p (st.topF p)) st) i = true := by
  intro l
  induction l with
  | nil => intro st _ hinv; exact hinv
  | cons q rest ih =>
    intro st hseq hinv
    unfold SeqOkB at hseq
    rw [Bool.and_eq_true] at hseq
    exact ih (st.commit q (st.topF q)) hseq.2
      (commit_sizeInv i st q (st.topF q) hseq.1 hinv)

theorem crc_sizeInv (i : Nat) (d : Dlx I N) (idx : Nat)
    (h : crcSizeLegalB i d idx = true) (hinv : sizeInvB d i = true) :
    sizeInvB (d.cover_remaining_choices idx) i = true := by
  unfold crcSizeLegalB at h
  rw [Bool.and_eq_true] at h
  obtain ⟨hleg, hseq⟩ := h
  have hrow : rowOkB d idx = true := by
    unfold crcLegalB at hleg
    rw [Bool.and_eq_true] at hleg
    exact hleg.1
  rw [crc_eq_fold d idx hrow]
  exact commitFold_sizeInv i _ d hseq hinv

/-- C6: the size field of an item header does not, in general, equal the
number of body cells linked into its vertical ring in states reached by the
link primitives: a legal chain of cover, cover_remaining_choices and cover
on the colored example leaves the secondary item 3 with size 1 but two
linked ring cells, because hide decrements the size for a secondary
uncolored cell without unlinking it after purify wiped its color. -/
theorem C6_size_linked_cex :
    coverLegalB colorsD 1 = true ∧
    crcLegalB (colorsD.cover 1) 5 = true ∧
    coverLegalB ((colorsD.cover 1).cover_remaining_choices 5) 2 = true ∧
    (colorsD.header 3).is_primary = false ∧
    (((colorsD.cover 1).cover_remaining_choices 5).cover 2).sizeF 3 = 1 ∧
    (((colorsD.cover 1).cover_remaining_choices 5).cover 2).linkedCount 3 = 2 := by
  refine ⟨by decide, by decide, by decide, by decide, by decide, by decide⟩

/-- C6 (amended): for an observed item i, the bookkeeping invariant — the
ring walk of i closes into a consistent repeat-free ring whose length is
exactly the stored size, so size equals linkedCount — is preserved by every
link primitive of the search under the size-accounting legality checks,
which require every visited cell of item i to be unlinked when it is size
counted (in particular they hold when i is primary); for secondary items
the claim fails (see the counterexample). -/
theorem C6_primary_size_linked (d : Dlx I N) (i : Nat) :
    (sizeInvB d i = true → d.sizeF i = d.linkedCount i) ∧
    (∀ p, hideSizeLegalB i d p = true → sizeInvB d i = true →
      sizeInvB (d.hide p) i = true) ∧
    (∀ idx, coverSizeLegalB i d idx = true → sizeInvB d i = true →
      sizeInvB (d.cover idx) i = true) ∧
    (∀ idx, purifySizeLegalB i d idx = true → sizeInvB d i = true →
      sizeInvB (d.purify idx) i = true) ∧
    (∀ p top, commitSizeLegalB i d p top = true → sizeInvB d i = true →
      sizeInvB (d.commit p top) i = true) ∧
    (∀ idx, crcSizeLegalB i d idx = true → sizeInvB d i = true →
      sizeInvB (d.cover_remaining_choices idx) i = true) := by
  refine ⟨?_, ?_, ?_, ?_, ?_, ?_⟩
  · intro hinv
    unfold sizeInvB at hinv
    simp only [Bool.and_eq_true] at hinv
    have h7 := hinv.2
    unfold Dlx.linkedCount
    simpa using h7
  · intro p h hinv
    exact hide_sizeInv i d p h hinv
  · intro idx h hinv
    exact cover_sizeInv i d idx h hinv
  · intro idx h hinv
    exact purify_sizeInv i d idx h hinv
  · intro p top h hinv
    exact commit_sizeInv i d p top h hinv
  · intro idx h hinv
    exact crc_sizeInv i d idx h hinv

/-- Concrete instantiation of the amended C6 theorem: the invariant holds
and is carried through a hide, a cover, a purify, a commit and a
cover_remaining_choices on the example grids, at primary observed items. -/
theorem C6_primary_size_linked_witness :
    (sizeInvB twoSolD 1 = true ∧ twoSolD.sizeF 1 = twoSolD.linkedCount 1) ∧
    (hideSizeLegalB 1 twoSolD 5 = true ∧ sizeInvB (twoSolD.hide 5) 1 = true) ∧
    (coverSizeLegalB 2 twoSolD 1 = true ∧ sizeInvB (twoSolD.cover 1) 2 = true) ∧
    (purifySizeLegalB 2 (colorsD.cover 1) 6 = true ∧
      sizeInvB ((colorsD.cover 1).purify 6) 2 = true) ∧
    (commitSizeLegalB 2 twoSolD 5 1 = true ∧
      sizeInvB (twoSolD.commit 5 1) 2 = true) ∧
    (crcSizeLegalB 3 (twoSolD.cover 1) 5 = true ∧
      sizeInvB ((twoSolD.cover 1).cover_remaining_choices 5) 3 = true) :=
  ⟨⟨by decide, (C6_primary_size_linked twoSolD 1).1 (by decide)⟩,
   ⟨by decide, (C6_primary_size_linked twoSolD 1).2.1 5 (by decide) (by decide)⟩,
   ⟨by decide, (C6_primary_size_linked twoSolD 2).2.2.1 1 (by decide) (by decide)⟩,
   ⟨by decide, (C6_primary_size_linked (colorsD.cover 1) 2).2.2.2.1 6
      (by decide) (by decide)⟩,
   ⟨by decide, (C6_primary_size_linked twoSolD 2).2.2.2.2.1 5 1
      (by decide) (by decide)⟩,
   ⟨by decide, (C6_primary_size_linked (twoSolD.cover 1) 3).2.2.2.2.2 5
      (by decide) (by decide)⟩⟩

theorem sameShape_crcLoop : ∀ (fuel : Nat) (d : Dlx I N) (idx p : Nat),
    sameShape d (Dlx.crcLoop d idx p fuel) := by
  intro fuel
  induction fuel with
  | zero => intro d idx p; exact sameShape_refl d
  | succ n ih =>
    intro d idx p
    simp only [Dlx.crcLoop]
    split
    · exact sameShape_refl d
    · split
      · exact ih d idx _
      · exact sameShape_refl d
      · exact sameShape_trans (sameShape_commit d _ _) (ih _ idx _)

theorem sameShape_crc (d : Dlx I N) (idx : Nat) :
    sameShape d (d.cover_remaining_choices idx) := by
  unfold Dlx.cover_remaining_choices
  exact sameShape_crcLoop _ d idx _

theorem sameShape_urcLoop : ∀ (fuel : Nat) (d : Dlx I N) (idx p : Nat),
    sameShape d (Dlx.urcLoop d idx p fuel) := by
  intro fuel
  induction fuel with
  | zero => intro d idx p; exact sameShape_refl d
  | succ n ih =>
    intro d idx p
    simp only [Dlx.urcLoop]
    split
    · exact sameShape_refl d
    · split
      · exact ih d idx _
      · exact sameShape_refl d
      · exact sameShape_trans (sameShape_uncommit d _ _) (ih _ idx _)

theorem sameShape_urc (d : Dlx I N) (idx : Nat) :
    sameShape d (d.uncover_remaining_choices idx) := by
  unfold Dlx.uncover_remaining_choices
  exact sameShape_urcLoop _ d idx _

theorem exploreLoop_spec :
    ∀ (s : List Nat) (d : Dlx I N),
      (∀ q ∈ s.drop 1, d.isBody q = true) →
      sameShape d (exploreLoop d s).1 ∧
      ∀ q ∈ (exploreLoop d s).2.1, d.isBody q = true := by
  intro s
  induction s with
  | nil =>
    intro d _
    refine ⟨sameShape_refl d, ?_⟩
    intro q hq
    simp [exploreLoop] at hq
  | cons p rest ih =>
    intro d htail
    have htail' : ∀ q ∈ rest, d.isBody q = true := by simpa using htail
    have hD : sameShape d (if d.isBody p = true then d.uncover_remaining_choices p else d) := by
      by_cases hbp : d.isBody p = true
      · rw [if_pos hbp]
        exact sameShape_urc d p
      · rw [if_neg hbp]
        exact sameShape_refl d
    simp only [exploreLoop]
    set D := if d.isBody p = true then d.uncover_remaining_choices p else d with hDdef
    cases hb : D.bnode (D.nextF p) with
    | Boundary nm f l =>
      refine ⟨hD, ?_⟩
      intro q hq
      exact htail' q hq
    | Normal inode tt =>
      cases tt with
      | Header s0 =>
        have hD2 : sameShape d (D.uncover (D.nextF p)) :=
          sameShape_trans hD (sameShape_uncover D (D.nextF p))
        have hrest : ∀ q ∈ rest.drop 1, (D.uncover (D.nextF p)).isBody q = true := by
          intro q hq
          rw [isBody_of_sameShape hD2 q]
          exact htail' q (List.mem_of_mem_drop hq)
        obtain ⟨hsh2, hbody2⟩ := ih (D.uncover (D.nextF p)) hrest
        refine ⟨sameShape_trans hD2 hsh2, ?_⟩
        intro q hq
        rw [← isBody_of_sameShape hD2 q]
        exact hbody2 q hq
      | Body c t =>
        have hD3 : sameShape d (D.cover_remaining_choices (D.nextF p)) :=
          sameShape_trans hD (sameShape_crc D (D.nextF p))
        refine ⟨hD3, ?_⟩
        intro q hq
        rcases List.mem_cons.mp hq with hq1 | hq1
        · rw [hq1, ← isBody_of_sameShape hD (D.nextF p)]
          unfold Dlx.isBody
          rw [hb]
        · exact htail' q hq1

theorem explorerStep_spec (e : Explorer I N) (hok : stackOkB e = true) :
    stackOkB (e.step).1 = true ∧
    ∀ sol, (e.step).2 = DlxStepResult.FoundSolution sol →
      sol = (e.step).1.vecStack ∧ ∀ q ∈ sol, (e.step).1.dlx.isBody q = true := by
  unfold stackOkB at hok
  by_cases hst : e.started = true
  · rw [if_pos hst] at hok
    simp only [List.all_eq_true] at hok
    obtain ⟨hsh, hbody⟩ := exploreLoop_spec e.sol_stack e.dlx
      (fun q hq => hok q hq)
    simp only [Explorer.step, hst, if_pos]
    rcases hE : exploreLoop e.dlx e.sol_stack with ⟨d', s', flag⟩
    rw [hE] at hsh hbody
    dsimp only at hsh hbody
    cases flag with
    | true =>
      simp only [Explorer.choose_next]
      cases hc : d'.choose_item with
      | some item =>
        dsimp only
        constructor
        · unfold stackOkB
          dsimp only
          rw [if_pos rfl]
          simp only [List.all_eq_true, List.drop_one, List.tail_cons]
          intro q hq
          rw [isBody_of_sameShape (sameShape_trans hsh (sameShape_cover d' item)) q]
          exact hbody q hq
        · intro sol hsol
          exact DlxStepResult.noConfusion hsol
      | none =>
        dsimp only
        constructor
        · unfold stackOkB
          dsimp only
          rw [if_pos rfl]
          simp only [List.all_eq_true]
          intro q hq
          rw [isBody_of_sameShape hsh q]
          exact hbody q (List.mem_of_mem_drop hq)
        · intro sol hsol
          have hsol2 : Explorer.vecStack (⟨d', s', true⟩ : Explorer I N) = sol :=
            by injection hsol
          refine ⟨hsol2.symm, ?_⟩
          intro q hq
          rw [← hsol2] at hq
          unfold Explorer.vecStack at hq
          dsimp only at hq
          rw [List.mem_reverse] at hq
          rw [isBody_of_sameShape hsh q]
          exact hbody q hq
    | false =>
      dsimp only
      constructor
      · unfold stackOkB
        dsimp only
        rw [if_pos rfl]
        simp only [List.all_eq_true]
        intro q hq
        rw [isBody_of_sameShape hsh q]
        exact hbody q (List.mem_of_mem_drop hq)
      · intro sol hsol
        exact DlxStepResult.noConfusion hsol
  · rw [if_neg hst] at hok
    have hnil : e.sol_stack = [] := by simpa using hok
    have hst2 : e.started = false := by
      revert hst
      cases e.started <;> simp
    simp only [Explorer.step, hst2, Bool.false_eq_true, if_false]
    simp only [Explorer.choose_next]
    cases hc : e.dlx.choose_item with
    | some item =>
      constructor
      · unfold stackOkB
        dsimp only
        rw [if_pos rfl]
        rw [hnil]
        simp
      · intro sol hsol
        exact DlxStepResult.noConfusion hsol
    | none =>
      constructor
      · unfold stackOkB
        dsimp only
        rw [if_pos rfl]
        rw [hnil]
        simp
      · intro sol hsol
        have hsol2 : Explorer.vecStack { e with started := true } = sol := by
          injection hsol
        refine ⟨hsol2.symm, ?_⟩
        intro q hq
        rw [← hsol2] at hq
        unfold Explorer.vecStack at hq
        dsimp only at hq
        rw [hnil] at hq
        simp at hq

theorem withNamesSol_length (d : Dlx I N) :
    ∀ (sol : List Nat), (∀ q ∈ sol, d.isBody q = true) → namedOkB d = true →
      (withNamesSol d sol).length = sol.length := by
  intro sol
  induction sol with
  | nil => intro _ _; rfl
  | cons q rest ih =>
    intro hb hn
    have hq : d.isBody q = true := hb q (List.mem_cons_self q rest)
    have hlt : q < d.body.length := by
      obtain ⟨n0, t0, hb0⟩ := isBody_normal d q hq
      exact bnode_lt_length d q n0 t0 hb0
    have hname : (d.set_name_for_node q).isSome = true := by
      unfold namedOkB at hn
      simp only [List.all_eq_true] at hn
      have h2 := hn q (List.mem_range.mpr hlt)
      exact (of_decide_eq_true h2) hq
    obtain ⟨v, hv⟩ := Option.isSome_iff_exists.mp hname
    unfold withNamesSol at ih ⊢
    rw [List.filterMap_cons, if_pos hq, hv]
    rw [List.length_cons, List.length_cons,
      ih (fun p hp => hb p (List.mem_cons_of_mem q hp)) hn]

/-- C7 (amended): the selection stack does not alternate header and body
entries; instead, in every driver state whose stack is structurally sound
(all entries below the top are body cells — the top may transiently be the
header just pushed by choose_next_item), one driver step preserves that
soundness, and every FoundSolution yield equals the stack in Vec order and
consists of body cells only, so the first element of a yielded solution is
a body cell, not the chosen header (see the counterexample). -/
theorem C7_stack_structure (e : Explorer I N) (hok : stackOkB e = true) :
    stackOkB (e.step).1 = true ∧
    ∀ sol, (e.step).2 = DlxStepResult.FoundSolution sol →
      sol = (e.step).1.vecStack ∧ ∀ q ∈ sol, (e.step).1.dlx.isBody q = true :=
  explorerStep_spec e hok

/-- Concrete instantiation of the amended C7 theorem at the driver state of
the two-solutions example just before its first solution yield. -/
theorem C7_stack_structure_witness :
    stackOkB (stepwiseIterate 2 (Explorer.init twoSolD)) = true ∧
    (stackOkB ((stepwiseIterate 2 (Explorer.init twoSolD)).step).1 = true ∧
      ∀ sol, ((stepwiseIterate 2 (Explorer.init twoSolD)).step).2 =
          DlxStepResult.FoundSolution sol →
        sol = ((stepwiseIterate 2 (Explorer.init twoSolD)).step).1.vecStack ∧
        ∀ q ∈ sol,
          ((stepwiseIterate 2 (Explorer.init twoSolD)).step).1.dlx.isBody q = true) :=
  ⟨by decide, C7_stack_structure _ (by decide)⟩

/-- C10: in a driver state whose stack is structurally sound, every
FoundSolution yield of a step consists solely of body-cell indices, and
when every body cell of the grid resolves to a subset name (true of every
constructed grid), with_names drops no entry of the solution. -/
theorem C10_solutions_body_cells (e : Explorer I N) (sol : List Nat)
    (hok : stackOkB e = true)
    (hsol : (e.step).2 = DlxStepResult.FoundSolution sol) :
    (∀ q ∈ sol, (e.step).1.dlx.isBody q = true) ∧
    (namedOkB (e.step).1.dlx = true →
      (withNamesSol (e.step).1.dlx sol).length = sol.length) := by
  have h := (explorerStep_spec e hok).2 sol hsol
  exact ⟨h.2, fun hn => withNamesSol_length _ sol h.2 hn⟩

/-- Concrete instantiation of the C10 theorem at the first solution yield
of the two-solutions example. -/
theorem C10_solutions_body_cells_witness :
    stackOkB (stepwiseIterate 2 (Explorer.init twoSolD)) = true ∧
    ((stepwiseIterate 2 (Explorer.init twoSolD)).step).2 =
      DlxStepResult.FoundSolution [13, 6] ∧
    ((∀ q ∈ ([13, 6] : List Nat),
        ((stepwiseIterate 2 (Explorer.init twoSolD)).step).1.dlx.isBody q = true) ∧
      (namedOkB ((stepwiseIterate 2 (Explorer.init twoSolD)).step).1.dlx = true →
        (withNamesSol ((stepwiseIterate 2 (Explorer.init twoSolD)).step).1.dlx
          [13, 6]).length = ([13, 6] : List Nat).length)) :=
  ⟨by decide, by decide, C10_solutions_body_cells _ [13, 6] (by decide) (by decide)⟩

theorem to_top_of_header (d : Dlx I N) (p : Nat) (n : ListNodeI) (s : Nat)
    (hb : d.bnode (d.nextF p) = Node.Normal n (NodeType.Header s)) :
    d.to_top p = d.nextF p := by
  unfold Dlx.to_top
  obtain ⟨f1, hf⟩ : ∃ f1, d.body.length + 2 = f1 + 1 := ⟨d.body.length + 1, rfl⟩
  rw [hf]
  simp only [Dlx.toTopLoop]
  rw [hb]

theorem dropExplorer_eq_dropFold (e : Explorer I N) :
    dropExplorer e = dropFold e.sol_stack e.dlx := rfl

theorem dropFold_cons (s : List Nat) (d : Dlx I N) (p : Nat) :
    dropFold (p :: s) d =
      dropFold s
        (if d.isBody p then
          (d.uncover_remaining_choices p).uncover
            ((d.uncover_remaining_choices p).to_top p)
        else d.uncover p) := rfl

theorem exploreLoop_drop :
    ∀ (s : List Nat) (d : Dlx I N), exploreLegalB d s = true →
      dropFold (exploreLoop d s).2.1 (exploreLoop d s).1 = dropFold s d := by
  intro s
  induction s with
  | nil => intro d _; rfl
  | cons p rest ih =>
    intro d hleg
    simp only [exploreLegalB] at hleg
    simp only [exploreLoop]
    set D := if d.isBody p = true then d.uncover_remaining_choices p else d with hD
    cases hb : D.bnode (D.nextF p) with
    | Boundary nm f l =>
      rw [hb] at hleg
      simp at hleg
    | Normal inode tt =>
      cases tt with
      | Header s0 =>
        rw [hb] at hleg
        dsimp only at hleg
        rw [Bool.and_eq_true] at hleg
        obtain ⟨hcond, hrest⟩ := hleg
        rw [ih (D.uncover (D.nextF p)) hrest]
        rw [dropFold_cons]
        by_cases hbp : d.isBody p = true
        · rw [if_pos hbp]
          have hD1 : D = d.uncover_remaining_choices p := by rw [hD, if_pos hbp]
          have htt : D.to_top p = D.nextF p := to_top_of_header D p inode s0 hb
          rw [← hD1, htt]
        · rw [if_neg hbp]
          rw [if_neg hbp] at hcond
          have hpp : D.nextF p = p := of_decide_eq_true hcond
          have hD1 : D = d := by rw [hD, if_neg hbp]
          rw [hpp, hD1]
      | Body c0 t0 =>
        rw [hb] at hleg
        dsimp only at hleg
        rw [Bool.and_eq_true] at hleg
        obtain ⟨hcrc, hcond⟩ := hleg
        have hbody' : D.isBody (D.nextF p) = true := by
          unfold Dlx.isBody
          rw [hb]
        have hbody2 : (D.cover_remaining_choices (D.nextF p)).isBody (D.nextF p) = true := by
          rw [isBody_of_sameShape (sameShape_crc D (D.nextF p))]
          exact hbody'
        have hurc : (D.cover_remaining_choices (D.nextF p)).uncover_remaining_choices
            (D.nextF p) = D := urc_crc D (D.nextF p) hcrc
        rw [dropFold_cons, if_pos hbody2, hurc]
        rw [dropFold_cons]
        by_cases hbp : d.isBody p = true
        · rw [if_pos hbp]
          rw [if_pos hbp] at hcond
          have htt : D.to_top (D.nextF p) = D.to_top p := of_decide_eq_true hcond
          have hD1 : D = d.uncover_remaining_choices p := by rw [hD, if_pos hbp]
          rw [htt, ← hD1]
        · rw [if_neg hbp]
          rw [if_neg hbp] at hcond
          have htt : D.to_top (D.nextF p) = p := of_decide_eq_true hcond
          have hD1 : D = d := by rw [hD, if_neg hbp]
          rw [htt, hD1]

theorem stepDrop_spec (e : Explorer I N) (h : stepLegalB e = true) :
    dropExplorer (e.step).1 = dropExplorer e := by
  unfold stepLegalB at h
  rw [dropExplorer_eq_dropFold, dropExplorer_eq_dropFold]
  by_cases hst : e.started = true
  · rw [if_pos hst] at h
    rw [Bool.and_eq_true] at h
    obtain ⟨hexp, hpush⟩ := h
    have hdrop := exploreLoop_drop e.sol_stack e.dlx hexp
    simp only [Explorer.step, hst, if_pos]
    rcases hE : exploreLoop e.dlx e.sol_stack with ⟨d', s', flag⟩
    rw [hE] at hdrop hpush
    dsimp only at hdrop hpush
    cases flag with
    | true =>
      dsimp only at hpush
      simp only [Explorer.choose_next]
      cases hc : d'.choose_item with
      | some item =>
        rw [hc] at hpush
        dsimp only at hpush
        rw [Bool.and_eq_true] at hpush
        obtain ⟨hcov, hnb⟩ := hpush
        dsimp only
        rw [dropFold_cons]
        have hnb2 : (d'.cover item).isBody item = false := by
          rw [isBody_of_sameShape (sameShape_cover d' item)]
          simpa using hnb
        rw [if_neg (by simp [hnb2])]
        rw [uncover_cover [] d' item hcov]
        exact hdrop
      | none =>
        dsimp only
        exact hdrop
    | false =>
      dsimp only
      exact hdrop
  · rw [if_neg hst] at h
    have hst2 : e.started = false := by
      revert hst
      cases e.started <;> simp
    simp only [Explorer.step, hst2, Bool.false_eq_true, if_false]
    simp only [Explorer.choose_next]
    cases hc : e.dlx.choose_item with
    | some item =>
      rw [hc] at h
      dsimp only at h
      rw [Bool.and_eq_true] at h
      obtain ⟨hcov, hnb⟩ := h
      rw [dropFold_cons]
      have hnb2 : (e.dlx.cover item).isBody item = false := by
        rw [isBody_of_sameShape (sameShape_cover e.dlx item)]
        simpa using hnb
      rw [if_neg (by simp [hnb2])]
      rw [uncover_cover [] e.dlx item hcov]
    | none =>
      rfl

/-- C8: the driver's drop glue replays the selection stack top-down, undoing
each pending commitment: a fresh driver's drop returns the grid unchanged,
one legality-checked driver step never changes what the drop glue computes
(so at any point of a legal search the drop restores the pre-search grid
byte for byte), and a rerun from the restored grid yields exactly the
solutions of a run from the original grid. -/
theorem C8_drop_restores (d0 : Dlx I N) (e : Explorer I N) :
    dropExplorer (Explorer.init d0) = d0 ∧
    (stepLegalB e = true → dropExplorer (e.step).1 = dropExplorer e) ∧
    (dropExplorer e = d0 →
      ∀ fuel, solutionsRun fuel (Explorer.init (dropExplorer e)) =
        solutionsRun fuel (Explorer.init d0)) := by
  refine ⟨rfl, ?_, ?_⟩
  · intro h
    exact stepDrop_spec e h
  · intro h fuel
    rw [h]

/-- Concrete instantiation of the C8 theorem one step into the search of
the two-solutions example: the step is legal, the drop value is preserved
and equals the original grid, and a rerun from it yields the same list. -/
theorem C8_drop_restores_witness :
    stepLegalB (stepwiseIterate 1 (Explorer.init twoSolD)) = true ∧
    dropExplorer (Explorer.init twoSolD) = twoSolD ∧
    dropExplorer ((stepwiseIterate 1 (Explorer.init twoSolD)).step).1 =
      dropExplorer (stepwiseIterate 1 (Explorer.init twoSolD)) ∧
    dropExplorer (stepwiseIterate 1 (Explorer.init twoSolD)) = twoSolD ∧
    solutionsRun 9 (Explorer.init
        (dropExplorer (stepwiseIterate 1 (Explorer.init twoSolD)))) =
      solutionsRun 9 (Explorer.init twoSolD) :=
  ⟨by decide,
   (C8_drop_restores twoSolD (stepwiseIterate 1 (Explorer.init twoSolD))).1,
   (C8_drop_restores twoSolD (stepwiseIterate 1 (Explorer.init twoSolD))).2.1
     (by decide),
   by decide,
   (C8_drop_restores twoSolD (stepwiseIterate 1 (Explorer.init twoSolD))).2.2
     (by decide) 9⟩

/-- C1 counterexample, exhibiting the code defect behind the claim's
failure: two valid inputs in which every subset covers a primary item are
accepted by construction, yet the solutions-only iterator diverges from the
exact-cover-with-colors solution set. With the primary item 100 and subsets
0 = [100, 100] (a duplicate constraint) and 1 = [100], the solutions are
exactly {[0], [1]}, but the run yields [0] twice and then ever-growing
selections such as [1, 0] and [1, 1, 0] that cover item 100 more than once
and repeat subset 1, and after 40 driver yields the iterator has still not
finished. With primary 100, secondary 200 and the single subset
0 = [100, 200 colored 1, 200 colored 2], no solution exists, yet the
iterator terminates yielding exactly [0]. -/
theorem C1_duplicate_constraint_divergence :
    specValidInput dupPrimItems dupPrimSubs ∧
    (dupPrimSubs.all fun s => s.2.any fun c => isPrimaryConstraint c) = true ∧
    ([0, 1] : List Nat).sublists.filter
      (fun sel => specXccSolution dupPrimItems dupPrimSubs sel) = [[0], [1]] ∧
    (solutionsRun 14 (Explorer.init dupPrimD)).map (withNamesSol dupPrimD) =
      [[0], [0], [1, 0], [1, 0], [1, 1, 0], [1, 1, 0], [1, 1, 1, 0],
       [1, 1, 1, 0], [1, 1, 1, 1, 0]] ∧
    specXccSolution dupPrimItems dupPrimSubs [1, 0] = false ∧
    specXccSolution dupPrimItems dupPrimSubs [1, 1, 0] = false ∧
    (stepwiseRun 40 (Explorer.init dupPrimD)).length = 40 ∧
    specValidInput dupColorItems dupColorSubs ∧
    (dupColorSubs.all fun s => s.2.any fun c => isPrimaryConstraint c) = true ∧
    ([0] : List Nat).sublists.filter
      (fun sel => specXccSolution dupColorItems dupColorSubs sel) = [] ∧
    (solutionsRun 10 (Explorer.init dupColorD)).map (withNamesSol dupColorD) =
      [[0]] ∧
    (stepwiseRun 10 (Explorer.init dupColorD)).length = 2 :=
  ⟨(construct_ok_iff dupPrimItems dupPrimSubs).mp ⟨dupPrimD, rfl⟩,
   by decide, by decide, by decide, by decide, by decide, by decide,
   (construct_ok_iff dupColorItems dupColorSubs).mp ⟨dupColorD, rfl⟩,
   by decide, by decide, by decide, by decide⟩

end DlxRs
